/-
Verification of the per-node resource inventory and placement engine of the
nhd scheduler (src/nhd/Node.py) against its natural-language specification.

The Python classes NodeCore, NodeNic, NodeMemory, NodeGpu and Node are embedded
as Lean structures; the mutating methods become state-passing functions
`Node → ... → Node` (or return a result together with the new state).  Python
floats used for NIC bandwidth are embedded as rationals (exact arithmetic;
the spec allows float tolerance, so exact rationals only make the statements
cleaner).  Python exceptions are embedded as explicit result constructors.

The topology request type (class CfgTopology) and the mapping dictionary are
inputs to Node.py that live outside the embedded source file; their shape is
modelled from the spec, sections 3 and 6 (see the doc comments marked
"Modelled from the spec").
-/
import Mathlib

set_option linter.unusedVariables false

/-- SMT setting of a topology request.  Modelled from the spec: the placement
engine only ever compares against `SMT_ENABLED` (spec 4.6 "REQUIRE"). -/
inductive SMTSetting where
  | smtEnabled
  | smtDisabled
  deriving DecidableEq

/-- Direction of a NIC core.  Modelled from the spec (section 3):
`direction : NONE | RX | TX`. -/
inductive NICCoreDirection where
  | dirNone
  | dirRx
  | dirTx
  deriving DecidableEq

/-- Python class NodeCore: a logical core inside a node. -/
structure NodeCore where
  core : Nat
  sibling : Nat
  socket : Nat
  used : Bool
  deriving DecidableEq

/-- Python class NodeGpu (the gtype field is irrelevant to every claim and
is omitted; no claim mentions GPU types). -/
structure NodeGpu where
  device_id : Nat
  numa_node : Nat
  used : Bool
  deriving DecidableEq

/-- Bandwidth amounts (link speeds and used rx/tx bandwidth).  The source
stores floats; every embedded operation on bandwidth is purely additive
(reserve adds, release subtracts), so exact integers — think fixed-point
Mbps, which spec section 9 itself recommends — are a faithful embedding up to
the float tolerance the spec grants. -/
abbrev Bw := Int

/-- Python class NodeNic.  `speed_used[0]` is `rx_used`, `speed_used[1]` is
`tx_used`. -/
structure NodeNic where
  ifname : String
  mac : String
  speed : Bw
  numa_node : Nat
  idx : Nat
  rx_used : Bw
  tx_used : Bw
  pods_used : Int
  num_vfs : Nat
  deriving DecidableEq

/-- Python class NodeMemory. -/
structure NodeMemory where
  ttl_hugepages_gb : Int
  free_hugepages_gb : Int
  deriving DecidableEq

/-- Python class Node (the fields the claims touch). -/
structure Node where
  name : String
  cores : List NodeCore
  gpus : List NodeGpu
  nics : List NodeNic
  sockets : Nat
  numa_nodes : Nat
  smt_enabled : Bool
  cores_per_proc : Nat
  pods_scheduled : List (String × String)
  sriov_en : Bool
  data_vlan : Int
  gwip : String
  mem : NodeMemory
  reserved_cores : List Nat
  deriving DecidableEq

/-- Default core used for out-of-range `List.getD` reads; every index that the
source actually dereferences is in range on the modelled paths. -/
def dummyCore : NodeCore := ⟨0, 0, 0, true⟩

def dummyGpu : NodeGpu := ⟨0, 0, true⟩

def dummyNic : NodeNic := ⟨"", "", 0, 0, 0, 0, 0, 0, 0⟩

def coreAt (nd : Node) (i : Nat) : NodeCore := nd.cores.getD i dummyCore

def gpuAt (nd : Node) (i : Nat) : NodeGpu := nd.gpus.getD i dummyGpu

def nicAt (nd : Node) (i : Nat) : NodeNic := nd.nics.getD i dummyNic

/-- `cores[i].used = b` (a no-op out of range; in the source an out-of-range
index would raise, but every modelled path stays in range). -/
def setCoreUsed (nd : Node) (i : Nat) (b : Bool) : Node :=
  { nd with cores := nd.cores.set i { coreAt nd i with used := b } }

/-- `gpus[i].used = b`. -/
def setGpuUsed (nd : Node) (i : Nat) (b : Bool) : Node :=
  { nd with gpus := nd.gpus.set i { gpuAt nd i with used := b } }

/-- Apply `f` to `nics[i]`. -/
def modifyNic (nd : Node) (i : Nat) (f : NodeNic → NodeNic) : Node :=
  { nd with nics := nd.nics.set i (f (nicAt nd i)) }

/-- Index of the first list element satisfying `p`; embeds the Python
`for ... : if cond: return/break` scan idiom. -/
def firstIdx? (p : α → Bool) : List α → Option Nat
  | [] => none
  | a :: as => if p a then some 0 else (firstIdx? p as).map (· + 1)

/-- Node.GetNIC: gets the index of a NIC by MAC address. -/
def GetNIC (nd : Node) (mac : String) : Option Nat :=
  firstIdx? (fun n => n.mac == mac) nd.nics

/-- Node.GetNICFromIfName. -/
def GetNICFromIfName (nd : Node) (ifname : String) : Option Nat :=
  firstIdx? (fun n => n.ifname == ifname) nd.nics

/-- Node.GetGPU: gets the index of a GPU by device ID. -/
def GetGPU (nd : Node) (di : Nat) : Option Nat :=
  firstIdx? (fun g => g.device_id == di) nd.gpus

/-- Node.GetNextGpuFree: index of the first unused GPU on `numa`
(scan in insertion order). -/
def GetNextGpuFreeIdx (nd : Node) (numa : Nat) : Option Nat :=
  firstIdx? (fun g => g.numa_node == numa && !g.used) nd.gpus

/-- Node.GetFreeCpuCoreCount: with SMT both siblings must be unused. -/
def GetFreeCpuCoreCount (nd : Node) : Nat :=
  if nd.smt_enabled then
    (nd.cores.filter
      (fun x => !x.used && !(nd.cores.getD x.sibling dummyCore).used)).length
  else
    (nd.cores.filter (fun x => !x.used)).length

/-- Node.GetFreeGpuCount. -/
def GetFreeGpuCount (nd : Node) : Nat :=
  (nd.gpus.filter (fun x => !x.used)).length

/-- `fl[i] += 1` (no-op out of range; the source indexes by socket and would
raise for a socket outside `numa_nodes`). -/
def bumpAt (fl : List Nat) (i : Nat) : List Nat :=
  fl.set i (fl.getD i 0 + 1)

/-- Loop body of Node.GetFreeCpuCores for index `c`: bump the socket's bucket
when the core (and, with SMT, its sibling) is free. -/
def freeCpuCoresStep (nd : Node) (fl : List Nat) (c : Nat) : List Nat :=
  let cc := nd.cores.getD c dummyCore
  if cc.used = false then
    if nd.smt_enabled = false then bumpAt fl cc.socket
    else if (nd.cores.getD cc.sibling dummyCore).used = false then bumpAt fl cc.socket
    else fl
  else fl

/-- Whether core index `c` contributes to the GetFreeCpuCores vector. -/
def freeCountsAt (nd : Node) (c : Nat) : Bool :=
  decide ((nd.cores.getD c dummyCore).used = false ∧
    (nd.smt_enabled = true →
      (nd.cores.getD (nd.cores.getD c dummyCore).sibling dummyCore).used = false))

/-- Node.GetFreeCpuCores: per-socket free-core vector.  Note the scan covers
only indices below `cores_per_proc * sockets`, exactly as the source does. -/
def GetFreeCpuCores (nd : Node) : List Nat :=
  (List.range (nd.cores_per_proc * nd.sockets)).foldl (freeCpuCoresStep nd)
    (List.replicate nd.numa_nodes 0)

/-- Loop body recursion for Node.GetFreeCpuBatch: scan `self.cores` in index
order, stop when `num` hits 0; with SMT the sibling must also be free, and an
`SMT_ENABLED` request with `num >= 2` takes the core together with its
sibling. -/
def getFreeCpuBatchAux (nd : Node) (numa : Nat) (smt : SMTSetting) :
    List NodeCore → Nat → List Nat
  | _, 0 => []
  | [], _ + 1 => []
  | c :: rest, n + 1 =>
    if c.socket = numa ∧ c.used = false then
      if nd.smt_enabled then
        if (nd.cores.getD c.sibling dummyCore).used = false then
          if smt = SMTSetting.smtEnabled ∧ n + 1 ≥ 2 then
            c.core :: c.sibling :: getFreeCpuBatchAux nd numa smt rest (n - 1)
          else
            c.core :: getFreeCpuBatchAux nd numa smt rest n
        else getFreeCpuBatchAux nd numa smt rest (n + 1)
      else c.core :: getFreeCpuBatchAux nd numa smt rest n
    else getFreeCpuBatchAux nd numa smt rest (n + 1)

/-- Node.GetFreeCpuBatch. -/
def GetFreeCpuBatch (nd : Node) (numa num : Nat) (smt : SMTSetting) : List Nat :=
  getFreeCpuBatchAux nd numa smt nd.cores num

/-- Node.GetFreeCpuBatch viewed as a stateful method call: the source reads
the inventory but performs no mutation, so the post-state is the input node
unchanged (spec 4.6: the routine does not mark cores used). -/
def GetFreeCpuBatchS (nd : Node) (numa num : Nat) (smt : SMTSetting) :
    List Nat × Node :=
  (GetFreeCpuBatch nd numa num smt, nd)

/-- Node.AddScheduledPod (set insertion). -/
def AddScheduledPod (nd : Node) (pod ns : String) : Node :=
  if (pod, ns) ∈ nd.pods_scheduled then nd
  else { nd with pods_scheduled := nd.pods_scheduled ++ [(pod, ns)] }

/-- Node.ClaimPodNICResources: mark each listed NIC as used by one more pod. -/
def ClaimPodNICResources (nd : Node) (nidx : List Nat) : Node :=
  nidx.foldl (fun n i => modifyNic n i (fun nic => { nic with pods_used := nic.pods_used + 1 })) nd

/-- Node.ResetResources. -/
def ResetResources (nd : Node) : Node :=
  { nd with
    cores := nd.cores.map (fun c => if c.core ∈ nd.reserved_cores then c else { c with used := false })
    gpus := nd.gpus.map (fun g => { g with used := false })
    nics := nd.nics.map (fun n => { n with pods_used := 0, rx_used := 0, tx_used := 0 })
    mem := { nd.mem with free_hugepages_gb := nd.mem.ttl_hugepages_gb }
    pods_scheduled := [] }

example :
    GetFreeCpuBatch
      { name := "n", cores := [⟨0, 2, 0, false⟩, ⟨1, 3, 0, false⟩, ⟨2, 0, 0, false⟩, ⟨3, 1, 0, false⟩],
        gpus := [], nics := [], sockets := 1, numa_nodes := 1, smt_enabled := true,
        cores_per_proc := 2, pods_scheduled := [], sriov_en := false, data_vlan := 0,
        gwip := "0.0.0.0/32", mem := ⟨0, 0⟩, reserved_cores := [] } 0 4 SMTSetting.smtEnabled
      = [0, 2, 1, 3] := by decide

/-- Modelled from the spec: a CPU core of a topology request (spec section 3,
`Core{direction: NONE|RX|TX, nic_bw_gbps: float}`).  The class lives in
CfgTopology.py, which is not part of the embedded source file.  `name`
identifies the core object (the source compares core objects inside
`GetNICGroup`); `core` is the physical-core output slot the placement engine
fills in. -/
structure TopCore where
  name : Nat
  core : Nat
  nic_dir : NICCoreDirection
  nic_speed : Bw
  deriving DecidableEq

/-- Modelled from the spec: a GPU of a processing group (spec section 3,
`group_gpus: [{cpu_cores: [Core], device_id: int (output)}]`). -/
structure TopGpu where
  device_id : Nat
  cpu_cores : List TopCore
  deriving DecidableEq

/-- Modelled from the spec: a processing group (spec section 3). -/
structure ProcGroup where
  proc_cores : List TopCore
  misc_cores : List TopCore
  group_gpus : List TopGpu
  proc_smt : SMTSetting
  helper_smt : SMTSetting
  vlan : Int
  deriving DecidableEq

/-- Modelled from the spec: one entry of `nic_core_pairing`
(spec section 3, `{mac, ifname, rx_core, tx_core}`).  In the source the
`rx_core`/`tx_core` fields alias the proc-core objects; the ledger only ever
reads their (immutable) `nic_speed`, so the pairing stores the core names and
a snapshot of those speeds.  `mac` is the interface binding that
`AddInterface` fills in during placement. -/
structure NicPairing where
  mac : String
  rx_name : Nat
  tx_name : Nat
  rx_speed : Bw
  tx_speed : Bw
  deriving DecidableEq

/-- Modelled from the spec: the topology request (spec section 3). -/
structure CfgTopology where
  proc_groups : List ProcGroup
  misc_cores : List TopCore
  misc_cores_smt : SMTSetting
  hugepages_gb : Int
  ctrl_vlan : Int
  nic_core_pairing : List NicPairing
  data_gw : String
  deriving DecidableEq

/-- Modelled from the spec: `CfgTopology.GetNICGroup(core)` returns the NIC
group (pairing) containing the given core, or none (spec section 3). -/
def GetNICGroup (top_pairs : List NicPairing) (c : TopCore) : Option Nat :=
  firstIdx? (fun p => p.rx_name == c.name || p.tx_name == c.name) top_pairs

/-- Modelled from the spec: the mapping decision handed to the placement
engine (spec section 3): `{cpu: [numa per group + trailing numa for top-level
misc], gpu: [numa per group], nic: [(numa, ordinal) per group]}`. -/
structure Mapping where
  cpu : List Nat
  gpu : List Nat
  nic : List (Nat × Nat)
  deriving DecidableEq

/-- `for m in cs: self.cores[m.core].used = b` — the shared core loop of the
reservation ledger (the source logs, but does not abort, when the flag is
already at the target value). -/
def markTopCores (b : Bool) (cs : List TopCore) (nd : Node) : Node :=
  cs.foldl (fun n c => setCoreUsed n c.core b) nd

/-- The NIC lookup shared by both ledger loops:
`self.GetNIC(p.mac) if not self.sriov_en else self.GetNICFromIfName(p.mac)`. -/
def ledgerNicIdx (nd : Node) (p : NicPairing) : Option Nat :=
  if !nd.sriov_en then GetNIC nd p.mac else GetNICFromIfName nd p.mac

/-- One iteration of the `for g in pv.group_gpus` loop of the ledger:
set the GPU found by device ID to `b` (a missing device is logged and
skipped), then mark the GPU's CPU cores. -/
def markTopGpu (b : Bool) (nd : Node) (g : TopGpu) : Node :=
  let nd' := match GetGPU nd g.device_id with
    | some gi => setGpuUsed nd gi b
    | none => nd
  markTopCores b g.cpu_cores nd'

/-- One iteration of the `for pv in top.proc_groups` loop of the ledger. -/
def markProcGroup (b : Bool) (nd : Node) (pg : ProcGroup) : Node :=
  pg.group_gpus.foldl (markTopGpu b) (markTopCores b pg.proc_cores (markTopCores b pg.misc_cores nd))

/-- One iteration of the `for p in top.nic_core_pairing` loop of
RemoveResourcesFromTopology: add the pairing's bandwidth on both directions
and count one more pod on the NIC. -/
def reserveNicPair (nd : Node) (p : NicPairing) : Node :=
  match ledgerNicIdx nd p with
  | none => nd
  | some i =>
      modifyNic nd i (fun nic =>
        { nic with rx_used := nic.rx_used + p.rx_speed,
                   tx_used := nic.tx_used + p.tx_speed,
                   pods_used := nic.pods_used + 1 })

/-- One iteration of the `for p in top.nic_core_pairing` loop of
AddResourcesFromTopology: subtract the pairing's bandwidth on both directions
and count one pod fewer on the NIC (no clamping on either quantity). -/
def releaseNicPair (nd : Node) (p : NicPairing) : Node :=
  match ledgerNicIdx nd p with
  | none => nd
  | some i =>
      modifyNic nd i (fun nic =>
        { nic with rx_used := nic.rx_used - p.rx_speed,
                   tx_used := nic.tx_used - p.tx_speed,
                   pods_used := nic.pods_used - 1 })

/-- Node.RemoveResourcesFromTopology: reserve every resource named by a bound
topology. -/
def RemoveResourcesFromTopology (top : CfgTopology) (nd : Node) : Node :=
  let nd1 := top.proc_groups.foldl (markProcGroup true) nd
  let nd2 := markTopCores true top.misc_cores nd1
  let nd3 := top.nic_core_pairing.foldl reserveNicPair nd2
  if top.hugepages_gb > 0 then
    { nd3 with mem := { nd3.mem with
        free_hugepages_gb := nd3.mem.free_hugepages_gb - top.hugepages_gb } }
  else nd3

/-- Node.AddResourcesFromTopology: release every resource named by a bound
topology (the exact inverse loops of Remove; the bandwidth subtraction and the
pod-count decrement are not clamped). -/
def AddResourcesFromTopology (top : CfgTopology) (nd : Node) : Node :=
  let nd1 := top.proc_groups.foldl (markProcGroup false) nd
  let nd2 := markTopCores false top.misc_cores nd1
  let nd3 := top.nic_core_pairing.foldl releaseNicPair nd2
  if top.hugepages_gb > 0 then
    { nd3 with mem := { nd3.mem with
        free_hugepages_gb := nd3.mem.free_hugepages_gb + top.hugepages_gb } }
  else nd3

/-- One entry of the `used_nics` rollback/result list of
SetPhysicalIdsFromMapping: `(nic index, bandwidth, direction)`. -/
abbrev UsedNic := Nat × Bw × NICCoreDirection

/-- Control flow out of a piece of the `try` block of
SetPhysicalIdsFromMapping: fell through (`ok`), raised IndexError (`exc`), or
executed one of the `return None` statements (`ret`). -/
inductive PFlag where
  | ok
  | exc
  | ret
  deriving DecidableEq

/-- The mutable state threaded through SetPhysicalIdsFromMapping: the node,
the topology's pairing list (whose `mac` slots `AddInterface` fills), and the
three rollback-tracking lists. -/
structure PState where
  node : Node
  pairs : List NicPairing
  used_cpus : List Nat
  used_gpus : List Nat
  used_nics : List UsedNic
  deriving DecidableEq

/-- The plain core-assignment loop of the placement engine
(`x.core = ids[cidx]; self.cores[x.core].used = True; cidx += 1` for each
topology core): used for the GPU cpu_cores, the helper cores and the
top-level miscellaneous cores.  The index stays below `ids.length` on every
reachable path (the caller has checked the batch length), so the source's
IndexError cannot fire here. -/
def assignTopCores (ids : List Nat) :
    List TopCore → Nat → Node → List TopCore × Nat × Node
  | [], cidx, nd => ([], cidx, nd)
  | c :: cs, cidx, nd =>
    let id := ids.getD cidx 0
    let nd1 := setCoreUsed nd id true
    let (cs', cidx', nd2) := assignTopCores ids cs (cidx + 1) nd1
    ({ c with core := id } :: cs', cidx', nd2)

/-- The `for gv in pv.group_gpus` loop: pick the next free GPU on the group's
NUMA node (raise if none), record its device ID, mark it used, and hand the
next `|cpu_cores|` batch entries to its CPU cores. -/
def assignGroupGpus (numa : Nat) (ids : List Nat) :
    List TopGpu → Nat → Node → List Nat →
    PFlag × List TopGpu × Nat × Node × List Nat
  | [], cidx, nd, ug => (.ok, [], cidx, nd, ug)
  | gv :: gvs, cidx, nd, ug =>
    match GetNextGpuFreeIdx nd numa with
    | none => (.exc, gv :: gvs, cidx, nd, ug)
    | some gi =>
      let dev := gpuAt nd gi
      let nd1 := setGpuUsed nd gi true
      let ug1 := ug ++ [dev.device_id]
      let (ccs, cidx1, nd2) := assignTopCores ids gv.cpu_cores cidx nd1
      let (fl, gvs', cidx2, nd3, ug2) := assignGroupGpus numa ids gvs cidx1 nd2 ug1
      (fl, { gv with device_id := dev.device_id, cpu_cores := ccs } :: gvs', cidx2, nd3, ug2)

/-- The `for groupc in pv.proc_cores` loop: assign the next batch entry and,
for an RX/TX core, find the NIC at `(mapping.nic[pi].ordinal, group numa)`
(raise if missing), add the bandwidth on the matching direction, record the
reservation in `used_nics`, and bind the NIC's MAC (ifname under SR-IOV) into
the core's NIC group.  `nicEntry` is `mapping['nic'][pi]`; reading it past the
end of the mapping list raises. -/
def procCoreStep (numa : Nat) (ids : List Nat) (nicEntry : Option (Nat × Nat))
    (sriov : Bool) (c : TopCore) (cidx : Nat) (nd : Node) (prs : List NicPairing)
    (un : List UsedNic) : PFlag × TopCore × Node × List NicPairing × List UsedNic :=
  let id := ids.getD cidx 0
  let c1 := { c with core := id }
  let nd1 := setCoreUsed nd id true
  if c1.nic_dir = NICCoreDirection.dirRx ∨ c1.nic_dir = NICCoreDirection.dirTx then
    match nicEntry with
    | none => (.exc, c1, nd1, prs, un)
    | some nent =>
      match firstIdx? (fun nic => nent.2 == nic.idx && nic.numa_node == numa) nd1.nics with
      | none => (.exc, c1, nd1, prs, un)
      | some idx =>
        let nd2 :=
          if c1.nic_dir = NICCoreDirection.dirRx then
            modifyNic nd1 idx (fun nic => { nic with rx_used := nic.rx_used + c1.nic_speed })
          else
            modifyNic nd1 idx (fun nic => { nic with tx_used := nic.tx_used + c1.nic_speed })
        let un1 := un ++ [(idx, c1.nic_speed, c1.nic_dir)]
        match GetNICGroup prs c1 with
        | none => (.exc, c1, nd2, prs, un1)
        | some pgi =>
          let mac := if sriov then (nicAt nd2 idx).ifname else (nicAt nd2 idx).mac
          (.ok, c1, nd2, prs.set pgi { prs.getD pgi ⟨"", 0, 0, 0, 0⟩ with mac := mac }, un1)
  else (.ok, c1, nd1, prs, un)

def assignProcCores (numa : Nat) (ids : List Nat) (nicEntry : Option (Nat × Nat))
    (sriov : Bool) :
    List TopCore → Nat → Node → List NicPairing → List UsedNic →
    PFlag × List TopCore × Nat × Node × List NicPairing × List UsedNic
  | [], cidx, nd, prs, un => (.ok, [], cidx, nd, prs, un)
  | c :: cs, cidx, nd, prs, un =>
    match procCoreStep numa ids nicEntry sriov c cidx nd prs un with
    | (PFlag.ok, c1, nd1, prs1, un1) =>
      let (fl, cs', cidx2, nd2, prs2, un2) :=
        assignProcCores numa ids nicEntry sriov cs (cidx + 1) nd1 prs1 un1
      (fl, c1 :: cs', cidx2, nd2, prs2, un2)
    | (fl, c1, nd1, prs1, un1) => (fl, c1 :: cs, cidx + 1, nd1, prs1, un1)

/-- One iteration of the `for pi,pv in enumerate(top.proc_groups)` loop.
`gpuNuma` is `mapping['gpu'][pi]` (reading past the end raises). -/
def processGroup (dv : Int) (gpuNuma : Option Nat) (nicEntry : Option (Nat × Nat))
    (sriov : Bool) (pg : ProcGroup) (st : PState) : PFlag × ProcGroup × PState :=
  let pg0 := { pg with vlan := dv }
  match gpuNuma with
  | none => (.exc, pg0, st)
  | some numa =>
    let gcpu_req := pg0.proc_cores.length + (pg0.group_gpus.map (fun g => g.cpu_cores.length)).sum
    let group_cpus := GetFreeCpuBatch st.node numa gcpu_req pg0.proc_smt
    if group_cpus.length ≠ gcpu_req then (.exc, pg0, st)
    else
      let r1 := assignGroupGpus numa group_cpus pg0.group_gpus 0 st.node st.used_gpus
      let pg1 := { pg0 with group_gpus := r1.2.1 }
      let st1 := { st with node := r1.2.2.2.1, used_gpus := r1.2.2.2.2 }
      match r1.1 with
      | PFlag.exc => (.exc, pg1, st1)
      | _ =>
        let r2 := assignProcCores numa group_cpus nicEntry sriov pg1.proc_cores
          r1.2.2.1 st1.node st1.pairs st1.used_nics
        let pg2 := { pg1 with proc_cores := r2.2.1 }
        let st2 :=
          { st1 with
            node := r2.2.2.2.1
            pairs := r2.2.2.2.2.1
            used_nics := r2.2.2.2.2.2 }
        match r2.1 with
        | PFlag.exc => (.exc, pg2, st2)
        | _ =>
          if r2.2.2.1 ≠ group_cpus.length then (.exc, pg2, st2)
          else
            let st3 := { st2 with used_cpus := st2.used_cpus ++ group_cpus }
            let helper_req := GetFreeCpuBatch st3.node numa pg2.misc_cores.length pg2.helper_smt
            if pg2.misc_cores.length ≠ helper_req.length then (.ret, pg2, st3)
            else
              let r3 := assignTopCores helper_req pg2.misc_cores 0 st3.node
              let pg3 := { pg2 with misc_cores := r3.1 }
              let st4 := { st3 with node := r3.2.2 }
              if r3.2.1 ≠ helper_req.length then (.ret, pg3, st4)
              else (.ok, pg3, { st4 with used_cpus := st4.used_cpus ++ helper_req })

/-- The whole `for pi,pv in enumerate(top.proc_groups)` loop; on a raise or a
`return None` the remaining groups are untouched. -/
def processGroups (dv : Int) (m : Mapping) (sriov : Bool) :
    Nat → List ProcGroup → PState → PFlag × List ProcGroup × PState
  | _, [], st => (.ok, [], st)
  | pi, pg :: pgs, st =>
    let r := processGroup dv m.gpu[pi]? m.nic[pi]? sriov pg st
    match r.1 with
    | PFlag.ok =>
      let r2 := processGroups dv m sriov (pi + 1) pgs r.2.2
      (r2.1, r.2.1 :: r2.2.1, r2.2.2)
    | f => (f, r.2.1 :: pgs, r.2.2)

/-- Result of SetPhysicalIdsFromMapping: a successful return of the
`used_nics` list, an explicit `return None`, or an exception escaping the
call.  `raisedIndexError` is the re-raised IndexError after the unwind loops
completed; `raisedTypeError` is the TypeError out of the unwind's NIC loop
(see `rollback`). -/
inductive PResult where
  | ok (used_nics : List UsedNic)
  | retNone
  | raisedIndexError
  | raisedTypeError
  deriving DecidableEq

/-- The `for g in used_gpus: self.gpus[g].used = False` unwind loop.  The
source indexes the GPU list by *device ID* (not by list position); an ID at or
past the end of the list raises IndexError out of the handler, aborting the
rest of the loop. -/
def rollbackGpus : List Nat → Node → Node × Bool
  | [], nd => (nd, false)
  | g :: gs, nd =>
    if g < nd.gpus.length then rollbackGpus gs (setGpuUsed nd g false)
    else (nd, true)

/-- The `except IndexError` handler of SetPhysicalIdsFromMapping.  The CPU
loop reverts every tracked core; the GPU loop indexes `self.gpus` by device
ID; the NIC loop executes `self.nics[n[0]].speed_used[s] -= self.nics[n[1]]`,
which indexes the NIC list with the recorded bandwidth — a float
(`nic_bw_gbps : float` per spec section 3) — so its first iteration raises
TypeError and no NIC bandwidth is ever reverted.  With an empty `used_nics`
the handler falls through to the bare `raise`, re-raising the IndexError. -/
def rollback (st : PState) : PResult × Node :=
  let nd1 := st.used_cpus.foldl (fun n c => setCoreUsed n c false) st.node
  let (nd2, crashed) := rollbackGpus st.used_gpus nd1
  if crashed then (.raisedIndexError, nd2)
  else if st.used_nics.isEmpty then (.raisedIndexError, nd2)
  else (.raisedTypeError, nd2)

/-- Node.SetPhysicalIdsFromMapping: map the abstract topology onto physical
core IDs, GPU device IDs and NIC interfaces, reserving them in the inventory.
Returns the result together with the post-call node and topology. -/
def SetPhysicalIdsFromMapping (m : Mapping) (top : CfgTopology) (nd : Node) :
    PResult × Node × CfgTopology :=
  let st0 : PState := ⟨nd, top.nic_core_pairing, [], [], []⟩
  let r := processGroups nd.data_vlan m nd.sriov_en 0 top.proc_groups st0
  let st := r.2.2
  let topg := { top with proc_groups := r.2.1, nic_core_pairing := st.pairs }
  match r.1 with
  | PFlag.exc =>
    let rb := rollback st
    (rb.1, rb.2, topg)
  | PFlag.ret => (.retNone, st.node, topg)
  | PFlag.ok =>
    let top1 := { topg with data_gw := st.node.gwip }
    let nd1 :=
      if top1.hugepages_gb > 0 then
        { st.node with mem := { st.node.mem with
            free_hugepages_gb := st.node.mem.free_hugepages_gb - top1.hugepages_gb } }
      else st.node
    match m.cpu.getLast? with
    | none =>
      let rb := rollback { st with node := nd1 }
      (rb.1, rb.2, top1)
    | some mnuma =>
      let misc_cpus := GetFreeCpuBatch nd1 mnuma top1.misc_cores.length top1.misc_cores_smt
      if top1.misc_cores.length ≠ misc_cpus.length then (.retNone, nd1, top1)
      else
        let r3 := assignTopCores misc_cpus top1.misc_cores 0 nd1
        let top2 := { top1 with misc_cores := r3.1 }
        if r3.2.1 ≠ misc_cpus.length then (.retNone, r3.2.2, top2)
        else (.ok st.used_nics, r3.2.2, { top2 with ctrl_vlan := r3.2.2.data_vlan })

/-- Python `str.split(sep)` on a single-character separator, over the string's
character list; splitting the empty string yields one empty token, exactly as
in Python. -/
def splitOnChar (sep : Char) : List Char → List (List Char)
  | [] => [[]]
  | c :: rest =>
    let r := splitOnChar sep rest
    if c = sep then [] :: r
    else (c :: r.headD []) :: r.tail

/-- Apply a fallible function to every list element, failing (Python: letting
the exception propagate) as soon as one application fails. -/
def optionMapM (f : α → Option β) : List α → Option (List β)
  | [] => some []
  | a :: as =>
    match f a, optionMapM f as with
    | some b, some bs => some (b :: bs)
    | _, _ => none

/-- Python `int(s)` restricted to plain digit strings (the only shape the
range and label inputs take); `none` embeds the ValueError that `int` raises
on the empty or non-numeric string. -/
def pyInt? (s : List Char) : Option Nat :=
  if s ≠ [] ∧ s.all (fun c => c.isDigit) then
    some (s.foldl (fun a c => a * 10 + (c.toNat - 48)) 0)
  else none

/-- Python `range(lo, hi)` as a list. -/
def pyRange (lo hi : Nat) : List Nat := List.range' lo (hi - lo)

/-- The inner `ParseRange` of Node.ParseRangeList:
`parts = r.split("-"); range(int(parts[0]), int(parts[-1]) + 1)`. -/
def ParseRange (r : List Char) : Option (List Nat) :=
  let parts := splitOnChar '-' r
  match pyInt? (parts.headD []), pyInt? (parts.getLastD []) with
  | some lo, some hi => some (pyRange lo (hi + 1))
  | _, _ => none

/-- Ordered duplicate-free insertion, giving Python's
`sorted(set(...))` on the accumulated elements. -/
def insertSorted (x : Nat) : List Nat → List Nat
  | [] => [x]
  | y :: ys => if x < y then x :: y :: ys else if x = y then y :: ys else y :: insertSorted x ys

/-- `sorted(set(l))`: the strictly ascending enumeration of `l`'s elements. -/
def sortedSet (l : List Nat) : List Nat := l.foldr insertSorted []

/-- Node.ParseRangeList:
`sorted(set(chain.from_iterable(map(ParseRange, rl.split(",")))))`; `none`
embeds the ValueError raised on a malformed (for example empty) token. -/
def ParseRangeList (rl : List Char) : Option (List Nat) :=
  match optionMapM ParseRange (splitOnChar ',' rl) with
  | some rs => some (sortedSet rs.flatten)
  | none => none

/-- Characters at even positions: Python `s[::2]`. -/
def evens : List α → List α
  | [] => []
  | [a] => [a]
  | a :: _ :: rest => a :: evens rest

/-- Characters at odd positions: Python `s[1::2]`. -/
def odds : List α → List α
  | [] => []
  | [_] => []
  | _ :: b :: rest => b :: odds rest

/-- Python `str.upper()` on one character code (ASCII case mapping, which is
all the MAC alphabet needs). -/
def upCode (n : Nat) : Nat := if 97 ≤ n ∧ n ≤ 122 then n - 32 else n

/-- Python `sep.join(chunks)`. -/
def pyJoin (sep : List α) : List (List α) → List α
  | [] => []
  | [x] => x
  | x :: xs => x ++ sep ++ pyJoin sep xs

/-- NodeNic.FormatMac over character codes:
`':'.join(a + b for a, b in zip(mac[::2], mac[1::2])).upper()` — pair up even
and odd characters, join the two-character chunks with ':' (code 58), then
uppercase the result. -/
def FormatMac (mac : List Nat) : List Nat :=
  (pyJoin [58] (((evens mac).zip (odds mac)).map (fun p => [p.1, p.2]))).map upCode

/-- Character codes of a string literal (to state concrete MAC examples). -/
def strCodes (s : String) : List Nat := s.data.map Char.toNat

def lblNumCores : String := "feature.node.kubernetes.io/nfd-extras-cpu.num_cores"

def lblNumSockets : String := "feature.node.kubernetes.io/nfd-extras-cpu.num_sockets"

def lblSmt : String := "feature.node.kubernetes.io/cpu-hardware_multithreading"

def lblIsol : String := "feature.node.kubernetes.io/nfd-extras-cpu.isolcpus"

/-- Label-map lookup (`labels[k]` on the node's label dictionary). -/
def lookupLabel (labels : List (String × String)) (k : String) : Option String :=
  (labels.find? (fun p => p.1 == k)).map (fun p => p.2)

/-- Node.InitCores: build the CPU inventory from the node labels.  Returns
`some (flag, node)` for the source's boolean return, `none` when the source
would raise out of `int`/`ParseRangeList` on malformed label values.  The
socket of logical core `c` is `int((c % cores) // (cores / sockets))`; the
source divides by a float, which agrees with the integer division used here
whenever `sockets` divides `cores` (every node this model is applied to).
The sibling of `c` is `c + cores` below `cores` and `c - cores` above; with
SMT off the source stores the sentinel `-1`, modelled as `0` because no code
path reads the sibling of a non-SMT node. -/
def InitCores (labels : List (String × String)) (nd : Node) : Option (Bool × Node) :=
  if ¬((lookupLabel labels lblNumCores).isSome ∧ (lookupLabel labels lblNumSockets).isSome) then
    some (false, nd)
  else
    match pyInt? ((lookupLabel labels lblNumSockets).getD "").data,
          pyInt? ((lookupLabel labels lblNumCores).getD "").data with
    | some sockets, some cores =>
      let smt := (lookupLabel labels lblSmt).isSome
      let n := if smt then cores * 2 else cores
      let newCores := (List.range n).map (fun c =>
        NodeCore.mk c
          (if smt then (if c < cores then c + cores else c - cores) else 0)
          ((c % cores) / (cores / sockets))
          false)
      let nd1 := { nd with
        sockets := sockets, numa_nodes := sockets, smt_enabled := smt,
        cores_per_proc := cores / sockets, cores := newCores }
      match lookupLabel labels lblIsol with
      | none => some (true, nd1)
      | some isol =>
        match optionMapM ParseRangeList (splitOnChar '_' isol.data) with
        | none => none
        | some rs =>
          let isolcores := rs.flatten
          let nonisol := (List.range nd1.cores.length).filter (fun c => c ∉ isolcores)
          some (true, { nd1 with
            cores := nd1.cores.map (fun c => if c.core ∈ nonisol then { c with used := true } else c),
            reserved_cores := nd1.reserved_cores ++ nonisol })
    | _, _ => none

example : ParseRangeList "1,3-5,7".data = some [1, 3, 4, 5, 7] := by decide

example : ParseRangeList "".data = none := by decide

example : ParseRangeList "5-3".data = some [] := by decide

example : FormatMac (strCodes "aabb") = strCodes "AA:BB" := by decide

example : FormatMac (strCodes "AA:BB") = strCodes "AA::B" := by decide

/-- Node.__init__: a freshly constructed node. -/
def mkNode (name : String) : Node :=
  { name := name, cores := [], gpus := [], nics := [], sockets := 0,
    numa_nodes := 0, smt_enabled := false, cores_per_proc := 0,
    pods_scheduled := [], sriov_en := false, data_vlan := 0,
    gwip := "0.0.0.0/32", mem := ⟨0, 0⟩, reserved_cores := [] }

/-- The label set of spec scenario 1: 2 sockets, 16 physical cores, SMT on,
`isolcpus=2-7_10-15`. -/
def c5Labels : List (String × String) :=
  [(lblNumSockets, "2"), (lblNumCores, "16"), (lblSmt, "1"), (lblIsol, "2-7_10-15")]

/-- The node built by InitCores from the labels of spec scenario 1. -/
def c5Node : Node := ((InitCores c5Labels (mkNode "n")).getD (false, mkNode "n")).2

/-- A 1-socket SMT node with two physical cores (four logical), everything
free: logical cores 0..3, siblings 0↔2 and 1↔3. -/
def c8Node : Node :=
  { mkNode "c8" with
    cores := [⟨0, 2, 0, false⟩, ⟨1, 3, 0, false⟩, ⟨2, 0, 0, false⟩, ⟨3, 1, 0, false⟩],
    sockets := 1, numa_nodes := 1, smt_enabled := true, cores_per_proc := 2 }

/-- A 1-socket SMT node with one physical core (two logical), both free:
siblings 0↔1. -/
def c9Node : Node :=
  { mkNode "c9" with
    cores := [⟨0, 1, 0, false⟩, ⟨1, 0, 0, false⟩],
    sockets := 1, numa_nodes := 1, smt_enabled := true, cores_per_proc := 1 }

/-- A node with one idle NIC (no bandwidth used, no pods). -/
def c3Node : Node :=
  { mkNode "c3" with nics := [⟨"eth0", "AA", 10, 0, 0, 0, 0, 0, 0⟩] }

/-- A bound topology whose only content is one NIC pairing for MAC "AA"
with 5 Gbps on each direction. -/
def c3Top : CfgTopology :=
  { proc_groups := [], misc_cores := [], misc_cores_smt := SMTSetting.smtDisabled,
    hugepages_gb := 0, ctrl_vlan := 0, nic_core_pairing := [⟨"AA", 0, 1, 5, 5⟩],
    data_gw := "" }

/-- A node with a single free core on socket 0 and no other resources. -/
def c1Node : Node :=
  { mkNode "c1" with
    cores := [⟨0, 0, 0, false⟩], sockets := 1, numa_nodes := 1, cores_per_proc := 1 }

/-- A topology asking for one processing core and one helper core in a single
group: on `c1Node` the group core is granted and marked used, after which the
helper batch comes back empty. -/
def c1Top : CfgTopology :=
  { proc_groups := [{ proc_cores := [⟨0, 0, NICCoreDirection.dirNone, 0⟩],
                      misc_cores := [⟨1, 0, NICCoreDirection.dirNone, 0⟩],
                      group_gpus := [], proc_smt := SMTSetting.smtDisabled,
                      helper_smt := SMTSetting.smtDisabled, vlan := 0 }],
    misc_cores := [], misc_cores_smt := SMTSetting.smtDisabled, hugepages_gb := 0,
    ctrl_vlan := 0, nic_core_pairing := [], data_gw := "" }

def c1Map : Mapping := { cpu := [0], gpu := [0], nic := [] }

/-- A node with two free cores, one free GPU, one NIC and four free
hugepages. -/
def c2Node : Node :=
  { mkNode "c2" with
    cores := [⟨0, 1, 0, false⟩, ⟨1, 0, 0, false⟩], sockets := 1, numa_nodes := 1,
    cores_per_proc := 2,
    gpus := [⟨0, 0, false⟩],
    nics := [⟨"eth0", "AA", 10, 0, 0, 0, 0, 0, 0⟩],
    mem := ⟨4, 4⟩ }

/-- A topology with one group holding an RX and a TX core (1 Gbps each), one
GPU, one NIC pairing over those two cores, and 2 GB of hugepages. -/
def c2Top : CfgTopology :=
  { proc_groups := [{ proc_cores := [⟨0, 0, NICCoreDirection.dirRx, 1⟩,
                                     ⟨1, 0, NICCoreDirection.dirTx, 1⟩],
                      misc_cores := [], group_gpus := [⟨99, []⟩],
                      proc_smt := SMTSetting.smtDisabled,
                      helper_smt := SMTSetting.smtDisabled, vlan := 0 }],
    misc_cores := [], misc_cores_smt := SMTSetting.smtDisabled, hugepages_gb := 2,
    ctrl_vlan := 0, nic_core_pairing := [⟨"", 0, 1, 1, 1⟩], data_gw := "" }

def c2Map : Mapping := { cpu := [0], gpu := [0], nic := [(0, 0)] }

/-- Core inventory well-formedness, true of every node InitCores builds: core
`i` of the list carries ID `i`, its sibling index is in range, the sibling
relation is symmetric (spec section 3) and siblings share a socket. -/
def CoresWF (nd : Node) : Prop :=
  ∀ i, i < nd.cores.length →
    (coreAt nd i).core = i ∧
    (coreAt nd i).sibling < nd.cores.length ∧
    (coreAt nd (coreAt nd i).sibling).sibling = i ∧
    (coreAt nd (coreAt nd i).sibling).socket = (coreAt nd i).socket

/-- Device IDs of the GPU inventory are pairwise distinct (true of the label
ingestion, which keys GPUs by device ID). -/
def GpuIdsNodup (nd : Node) : Prop := (nd.gpus.map (fun g => g.device_id)).Nodup

/-- MAC addresses of the NIC inventory are pairwise distinct. -/
def NicMacsNodup (nd : Node) : Prop := (nd.nics.map (fun n => n.mac)).Nodup

/-- Total bandwidth recorded in a `used_nics` list against NIC `k` in
direction `d`. -/
def usedNicsDirSum (us : List UsedNic) (k : Nat) (d : NICCoreDirection) : Bw :=
  ((us.filter (fun u => u.1 == k && u.2.2 == d)).map (fun u => u.2.1)).sum

/-- The pairings of a bound topology that resolve (by the ledger's NIC
lookup) to NIC index `k` of the given inventory. -/
def pairsAt (nd : Node) (prs : List NicPairing) (k : Nat) : List NicPairing :=
  prs.filter (fun p => ledgerNicIdx nd p == some k)

/-- Receive bandwidth the ledger releases on NIC `k` for a pairing list. -/
def rxDebit (nd : Node) (prs : List NicPairing) (k : Nat) : Bw :=
  ((pairsAt nd prs k).map (fun p => p.rx_speed)).sum

/-- Transmit bandwidth the ledger releases on NIC `k` for a pairing list. -/
def txDebit (nd : Node) (prs : List NicPairing) (k : Nat) : Bw :=
  ((pairsAt nd prs k).map (fun p => p.tx_speed)).sum

/-- Number of pairings the ledger counts against NIC `k`. -/
def podDebit (nd : Node) (prs : List NicPairing) (k : Nat) : Int :=
  ((pairsAt nd prs k).length : Int)

/-- The `(idx, bandwidth, direction)` reservations of a `used_nics` list
applied to a NIC inventory, in order — `speed_used[0 or 1] += bw` per entry
(the placement engine's cumulative effect on the NICs). -/
def applyUsedNics (nics : List NodeNic) (us : List UsedNic) : List NodeNic :=
  us.foldl
    (fun ns u =>
      ns.set u.1
        (match u.2.2 with
         | NICCoreDirection.dirRx =>
             { ns.getD u.1 dummyNic with rx_used := (ns.getD u.1 dummyNic).rx_used + u.2.1 }
         | _ =>
             { ns.getD u.1 dummyNic with tx_used := (ns.getD u.1 dummyNic).tx_used + u.2.1 }))
    nics

/-- `[ids[c], ids[c+1], ..., ids[c+k-1]]`: the segment of the CPU batch a
core list consumes. -/
def coreSeg (ids : List Nat) (c k : Nat) : List Nat :=
  (List.range' c k).map (fun t => ids.getD t 0)

/-- All physical core IDs recorded in one processing group of a bound
topology (the IDs the ledger walks). -/
def groupCoreIds (pg : ProcGroup) : List Nat :=
  pg.misc_cores.map (fun c => c.core) ++ pg.proc_cores.map (fun c => c.core) ++
    (pg.group_gpus.map (fun g => g.cpu_cores.map (fun c => c.core))).flatten

/-- All physical core IDs recorded in a bound topology. -/
def topCoreIds (top : CfgTopology) : List Nat :=
  (top.proc_groups.map groupCoreIds).flatten ++ top.misc_cores.map (fun c => c.core)

/-- All GPU device IDs recorded in a bound topology. -/
def topGpuDevIds (top : CfgTopology) : List Nat :=
  (top.proc_groups.map (fun pg => pg.group_gpus.map (fun g => g.device_id))).flatten

/-- The NIC fields placement never touches and every NIC lookup reads:
interface name, MAC, link speed, NUMA node, per-NUMA ordinal, VF count. -/
def nicShape (n : NodeNic) : String × String × Bw × Nat × Nat × Nat :=
  (n.ifname, n.mac, n.speed, n.numa_node, n.idx, n.num_vfs)

/-- `c` is `a` with exactly the cores listed in `S` having their used flag
set to `b` (all other cores, and all other fields of the touched cores,
unchanged). -/
def CoreMarkB (b : Bool) (S : List Nat) (a c : Node) : Prop :=
  c.cores.length = a.cores.length ∧
  ∀ j, coreAt c j =
    if j ∈ S ∧ j < a.cores.length then { coreAt a j with used := b } else coreAt a j

/-- `c` is `a` with exactly the GPUs at the indices in `G` marked used. -/
def GpuMark (G : List Nat) (a c : Node) : Prop :=
  c.gpus.length = a.gpus.length ∧
  ∀ j, gpuAt c j =
    if j ∈ G ∧ j < a.gpus.length then { gpuAt a j with used := true } else gpuAt a j

/-- `c` is `a` with the GPUs resolved (against `base`, by device ID) from the
listed device IDs marked free — the ledger's GPU release shape. -/
def GpuRelease (ds : List Nat) (base a c : Node) : Prop :=
  c.gpus.length = a.gpus.length ∧
  ∀ j, gpuAt c j =
    if ∃ d ∈ ds, GetGPU base d = some j then { gpuAt a j with used := false }
    else gpuAt a j

/-- Post-state `b` agrees with pre-state `a` on every NIC pod counter and on
the scheduled-pod set. -/
def PodsFrame (a b : Node) : Prop :=
  b.nics.map (fun n => n.pods_used) = a.nics.map (fun n => n.pods_used) ∧
  b.pods_scheduled = a.pods_scheduled

/-! Generic list lemmas used throughout. -/

theorem getD_oob {l : List α} {j : Nat} (d : α) (h : l.length ≤ j) : l.getD j d = d := by
  simp [List.getD_eq_getElem?_getD, List.getElem?_eq_none h]

theorem getD_set (l : List α) (i j : Nat) (a d : α) :
    (l.set i a).getD j d = if i = j ∧ i < l.length then a else l.getD j d := by
  rw [List.getD_eq_getElem?_getD, List.getElem?_set]
  by_cases hij : i = j
  · subst hij
    by_cases hl : i < l.length
    · simp [hl]
    · simp [hl, List.getD_eq_getElem?_getD, List.getElem?_eq_none (le_of_not_lt hl)]
  · simp [hij, List.getD_eq_getElem?_getD]

theorem firstIdx?_some_spec {p : α → Bool} (d : α) :
    ∀ {l : List α} {i : Nat}, firstIdx? p l = some i →
      i < l.length ∧ p (l.getD i d) = true ∧ ∀ j, j < i → p (l.getD j d) = false
  | [], i, h => by simp [firstIdx?] at h
  | a :: as, i, h => by
    by_cases hp : p a = true
    · simp [firstIdx?, hp] at h
      subst h
      exact ⟨Nat.succ_pos _, hp, fun j hj => absurd hj (Nat.not_lt_zero _)⟩
    · simp [firstIdx?, hp] at h
      obtain ⟨i', hi', rfl⟩ := h
      obtain ⟨h1, h2, h3⟩ := firstIdx?_some_spec d hi'
      refine ⟨Nat.succ_lt_succ h1, h2, ?_⟩
      intro j hj
      cases j with
      | zero => simpa using hp
      | succ j' => exact h3 j' (Nat.lt_of_succ_lt_succ hj)

theorem firstIdx?_congr {p q : α → Bool} :
    ∀ {l₁ l₂ : List α}, l₁.length = l₂.length →
      (∀ j, j < l₁.length → ∀ d₁ d₂, p (l₁.getD j d₁) = q (l₂.getD j d₂)) →
      firstIdx? p l₁ = firstIdx? q l₂
  | [], [], _, _ => rfl
  | a :: as, b :: bs, hlen, hpt => by
    have h0 : p a = q b := by simpa using hpt 0 (Nat.succ_pos _) a b
    have hrest : firstIdx? p as = firstIdx? q bs :=
      firstIdx?_congr (Nat.succ_injective hlen)
        (fun j hj d₁ d₂ => hpt (j + 1) (Nat.succ_lt_succ hj) d₁ d₂)
    simp [firstIdx?, h0, hrest]

theorem mapM_option_some_flatten_mem {f : α → Option (List β)} (x : β) :
    ∀ {ts : List α} {rs : List (List β)}, optionMapM f ts = some rs →
      (x ∈ rs.flatten ↔ ∃ t ∈ ts, ∃ rg, f t = some rg ∧ x ∈ rg)
  | [], rs, h => by
    simp [optionMapM] at h
    subst h
    simp
  | t :: ts, rs, h => by
    simp only [optionMapM] at h
    cases hft : f t with
    | none => simp [hft] at h
    | some rg =>
      cases hmm : optionMapM f ts with
      | none => simp [hft, hmm] at h
      | some rs' =>
        simp [hft, hmm] at h
        subst h
        have ih := mapM_option_some_flatten_mem (f := f) x hmm
        simp only [List.flatten_cons, List.mem_append, ih, List.mem_cons]
        constructor
        · rintro (hx | ⟨t', ht', rg', hrg', hx⟩)
          · exact ⟨t, Or.inl rfl, rg, hft, hx⟩
          · exact ⟨t', Or.inr ht', rg', hrg', hx⟩
        · rintro ⟨t', ht' | ht', rg', hrg', hx⟩
          · subst ht'
            rw [hft] at hrg'
            cases hrg'
            exact Or.inl hx
          · exact Or.inr ⟨t', ht', rg', hrg', hx⟩

theorem mem_insertSorted (x a : Nat) :
    ∀ l : List Nat, a ∈ insertSorted x l ↔ a = x ∨ a ∈ l
  | [] => by simp [insertSorted]
  | y :: ys => by
    simp only [insertSorted]
    split_ifs with h1 h2
    · simp [List.mem_cons]
    · subst h2
      simp only [List.mem_cons]
      constructor
      · exact fun h => Or.inr h
      · rintro (rfl | h)
        · exact Or.inl rfl
        · exact h
    · simp only [List.mem_cons, mem_insertSorted x a ys]
      tauto

theorem sorted_insertSorted (x : Nat) :
    ∀ l : List Nat, l.Sorted (· < ·) → (insertSorted x l).Sorted (· < ·)
  | [], _ => by simp [insertSorted]
  | y :: ys, h => by
    rw [List.sorted_cons] at h
    obtain ⟨hy, hys⟩ := h
    simp only [insertSorted]
    split_ifs with h1 h2
    · rw [List.sorted_cons]
      refine ⟨?_, by rw [List.sorted_cons]; exact ⟨hy, hys⟩⟩
      intro b hb
      rcases List.mem_cons.mp hb with rfl | hb
      · exact h1
      · exact lt_trans h1 (hy b hb)
    · rw [List.sorted_cons]
      exact ⟨hy, hys⟩
    · rw [List.sorted_cons]
      constructor
      · intro b hb
        rcases (mem_insertSorted x b ys).mp hb with rfl | hb
        · omega
        · exact hy b hb
      · exact sorted_insertSorted x ys hys

theorem sortedSet_sorted : ∀ l : List Nat, (sortedSet l).Sorted (· < ·)
  | [] => by simp [sortedSet]
  | a :: l => by
    have ih := sortedSet_sorted l
    simpa [sortedSet] using sorted_insertSorted a _ ih

theorem mem_sortedSet (a : Nat) : ∀ l : List Nat, a ∈ sortedSet l ↔ a ∈ l
  | [] => by simp [sortedSet]
  | x :: l => by
    have ih := mem_sortedSet a l
    simp [sortedSet] at ih ⊢
    rw [mem_insertSorted, ih]

theorem upCode_upCode (n : Nat) : upCode (upCode n) = upCode n := by
  unfold upCode
  split_ifs <;> omega

/-- C4 (corrected).  ParseRangeList, applied to a string whose comma-separated
tokens all parse, returns the strictly sorted, duplicate-free sequence of the
union of the token ranges.  (The two claim conjuncts that fail on the code —
`lo > hi` being an error, and the empty string yielding the empty sequence —
are refuted by `C4_counterexample`.) -/
theorem C4_theorem (rl : List Char) (l : List Nat) (h : ParseRangeList rl = some l) :
    l.Sorted (· < ·) ∧ l.Nodup ∧
    ∀ x : Nat, x ∈ l ↔ ∃ t ∈ splitOnChar ',' rl, ∃ rg, ParseRange t = some rg ∧ x ∈ rg := by
  unfold ParseRangeList at h
  cases hm : optionMapM ParseRange (splitOnChar ',' rl) with
  | none => rw [hm] at h; cases h
  | some rs =>
    rw [hm] at h
    injection h with h
    subst h
    refine ⟨sortedSet_sorted _, ?_, ?_⟩
    · exact List.Pairwise.imp (fun hab => Nat.ne_of_lt hab) (sortedSet_sorted _)
    · intro x
      rw [mem_sortedSet]
      exact mapM_option_some_flatten_mem x hm

/-- C4: the claim as frozen is false on the code: a `lo > hi` token is not an
error (it yields the empty range), and the empty input string is an error
(`int('')` raises ValueError), not the empty sequence. -/
theorem C4_counterexample :
    ParseRangeList "5-3".data = some [] ∧ ParseRangeList "".data = none := by decide

theorem C4_theorem_witness :
    ParseRangeList "1,3-5,7".data = some [1, 3, 4, 5, 7] ∧
    (([1, 3, 4, 5, 7] : List Nat).Sorted (· < ·) ∧ ([1, 3, 4, 5, 7] : List Nat).Nodup ∧
      ∀ x : Nat, x ∈ ([1, 3, 4, 5, 7] : List Nat) ↔
        ∃ t ∈ splitOnChar ',' "1,3-5,7".data, ∃ rg, ParseRange t = some rg ∧ x ∈ rg) :=
  ⟨by decide, C4_theorem _ _ (by decide)⟩

/-- C6 (corrected).  FormatMac is idempotent only on inputs shorter than four
characters (at most one even/odd pair, so the output contains no ':' and a
second pass pairs it identically); on any canonical MAC of two or more byte
pairs a second application corrupts the string (`C6_counterexample`). -/
theorem C6_theorem (mac : List Nat) (h : mac.length ≤ 3) :
    FormatMac (FormatMac mac) = FormatMac mac := by
  match mac with
  | [] => rfl
  | [a] => rfl
  | [a, b] => simp [FormatMac, evens, odds, pyJoin, upCode_upCode]
  | [a, b, c] => simp [FormatMac, evens, odds, pyJoin, upCode_upCode]
  | _ :: _ :: _ :: _ :: _ => simp at h

/-- C6: FormatMac is not idempotent: formatting the already-canonical
`AA:BB` yields `AA::B`. -/
theorem C6_counterexample :
    FormatMac (strCodes "AABB") = strCodes "AA:BB" ∧
    FormatMac (FormatMac (strCodes "AABB")) ≠ FormatMac (strCodes "AABB") := by decide

theorem C6_theorem_witness :
    (strCodes "AB").length ≤ 3 ∧
    FormatMac (FormatMac (strCodes "AB")) = FormatMac (strCodes "AB") :=
  ⟨by decide, C6_theorem _ (by decide)⟩

/-- C5: on the scenario labels (2 sockets, 16 physical cores, SMT,
`isolcpus=2-7_10-15`) InitCores does not mark exactly {0,1,8,9}: logical core
16 (the SMT sibling of core 0, not covered by the isolated ranges) is also
reserved and marked used. -/
theorem C5_counterexample :
    InitCores c5Labels (mkNode "n") = some (true, c5Node) ∧
    16 ∈ c5Node.reserved_cores ∧ (coreAt c5Node 16).used = true ∧
    16 ∉ ([0, 1, 8, 9] : List Nat) := by decide

/-- C5 (corrected).  InitCores on the scenario labels reserves and marks used
every non-isolated logical ID — {0,1,8,9} together with the whole upper
sibling bank {16..31} — leaving the 12 isolated logical cores (6 per socket)
unused; none of them is schedulable under the SMT both-siblings-free rule
because every sibling lies in the reserved upper bank. -/
theorem C5_theorem :
    InitCores c5Labels (mkNode "n") = some (true, c5Node) ∧
    c5Node.reserved_cores = [0, 1, 8, 9] ++ List.range' 16 16 ∧
    ((c5Node.cores.filter (fun c => !c.used)).map (fun c => c.core))
      = [2, 3, 4, 5, 6, 7, 10, 11, 12, 13, 14, 15] ∧
    (c5Node.cores.filter (fun c => !c.used && c.socket == 0)).length = 6 ∧
    (c5Node.cores.filter (fun c => !c.used && c.socket == 1)).length = 6 ∧
    GetFreeCpuCoreCount c5Node = 0 ∧ GetFreeCpuCores c5Node = [0, 0] ∧
    c5Node.reserved_cores.all (fun c => (coreAt c5Node c).used) = true := by decide

/-- C3: the release path does not clamp: a single
AddResourcesFromTopology of a 5 Gbps pairing against an idle NIC drives
`rx_used`, `tx_used` and `pods_used` negative, violating the claimed
invariant `0 ≤ rx_used` / `pods_used ≥ 0`. -/
theorem C3_counterexample :
    (nicAt (AddResourcesFromTopology c3Top c3Node) 0).rx_used < 0 ∧
    (nicAt (AddResourcesFromTopology c3Top c3Node) 0).tx_used < 0 ∧
    (nicAt (AddResourcesFromTopology c3Top c3Node) 0).pods_used < 0 := by decide

theorem length_filter_eq_card (l : List α) (p : α → Bool) (d : α) :
    (l.filter p).length =
      ((Finset.range l.length).filter (fun i => p (l.getD i d) = true)).card := by
  induction l with
  | nil => simp
  | cons a t ih =>
    have key : ∀ n (f : Nat → Bool),
        ((Finset.range (n + 1)).filter (fun i => f i = true)).card
          = ((Finset.range n).filter (fun i => f (i + 1) = true)).card
            + (if f 0 = true then 1 else 0) := by
      intro n f
      rw [Finset.card_filter, Finset.card_filter, Finset.sum_range_succ']
    rw [List.length_cons, key t.length (fun i => p ((a :: t).getD i d))]
    simp only [List.getD_cons_succ, List.getD_cons_zero]
    rw [← ih]
    by_cases hp : p a = true
    · rw [List.filter_cons_of_pos hp, if_pos hp, List.length_cons]
    · rw [List.filter_cons_of_neg hp, if_neg hp]
      exact (Nat.add_zero _).symm

theorem bumpAt_length (fl : List Nat) (i : Nat) : (bumpAt fl i).length = fl.length :=
  List.length_set fl i _

theorem bumpAt_sum (fl : List Nat) (i : Nat) (h : i < fl.length) :
    (bumpAt fl i).sum = fl.sum + 1 := by
  induction fl generalizing i with
  | nil => simp at h
  | cons a t ih =>
    cases i with
    | zero => simp [bumpAt]; omega
    | succ i' =>
      have hi' : i' < t.length := Nat.lt_of_succ_lt_succ h
      simp only [bumpAt, List.set_cons_succ, List.getD_cons_succ, List.sum_cons] at *
      rw [ih i' hi']
      omega

theorem freeCountsAt_true_iff (nd : Node) (c : Nat) :
    freeCountsAt nd c = true ↔
      ((nd.cores.getD c dummyCore).used = false ∧
        (nd.smt_enabled = true →
          (nd.cores.getD (nd.cores.getD c dummyCore).sibling dummyCore).used = false)) := by
  unfold freeCountsAt
  rw [decide_eq_true_eq]

theorem freeCpuCoresStep_eq (nd : Node) (fl : List Nat) (c : Nat) :
    freeCpuCoresStep nd fl c =
      if freeCountsAt nd c = true then bumpAt fl (nd.cores.getD c dummyCore).socket
      else fl := by
  unfold freeCpuCoresStep
  by_cases hu : (nd.cores.getD c dummyCore).used = false
  · by_cases hs : nd.smt_enabled = false
    · rw [if_pos hu, if_pos hs,
        if_pos ((freeCountsAt_true_iff nd c).mpr
          ⟨hu, fun hB => absurd (hs.symm.trans hB) Bool.false_ne_true⟩)]
    · have hs' : nd.smt_enabled = true := by revert hs; cases nd.smt_enabled <;> simp
      by_cases hb : (nd.cores.getD (nd.cores.getD c dummyCore).sibling dummyCore).used = false
      · rw [if_pos hu, if_neg hs, if_pos hb,
          if_pos ((freeCountsAt_true_iff nd c).mpr ⟨hu, fun _ => hb⟩)]
      · rw [if_pos hu, if_neg hs, if_neg hb,
          if_neg (fun h => hb (((freeCountsAt_true_iff nd c).mp h).2 hs'))]
  · rw [if_neg hu, if_neg (fun h => hu ((freeCountsAt_true_iff nd c).mp h).1)]

theorem freeCpuCoresStep_length (nd : Node) (fl : List Nat) (c : Nat) :
    (freeCpuCoresStep nd fl c).length = fl.length := by
  rw [freeCpuCoresStep_eq]
  split_ifs <;> simp [bumpAt_length]

theorem foldl_freeCpuCoresStep_sum (nd : Node) :
    ∀ (ix : List Nat) (fl : List Nat),
      (∀ c ∈ ix, freeCountsAt nd c = true → (nd.cores.getD c dummyCore).socket < fl.length) →
      ((ix.foldl (freeCpuCoresStep nd) fl).sum = fl.sum + (ix.filter (freeCountsAt nd)).length)
  | [], fl, _ => by simp
  | c :: ix, fl, h => by
    rw [List.foldl_cons, freeCpuCoresStep_eq]
    by_cases hc : freeCountsAt nd c = true
    · rw [if_pos hc]
      have hsock := h c (List.mem_cons_self _ _) hc
      have hlen : ∀ c' ∈ ix, freeCountsAt nd c' = true →
          (nd.cores.getD c' dummyCore).socket
            < (bumpAt fl (nd.cores.getD c dummyCore).socket).length := by
        intro c' hc' hf
        rw [bumpAt_length]
        exact h c' (List.mem_cons_of_mem _ hc') hf
      rw [foldl_freeCpuCoresStep_sum nd ix _ hlen, bumpAt_sum fl _ hsock,
        List.filter_cons_of_pos hc, List.length_cons]
      omega
    · rw [if_neg hc]
      rw [foldl_freeCpuCoresStep_sum nd ix fl
        (fun c' hc' hf => h c' (List.mem_cons_of_mem _ hc') hf)]
      rw [List.filter_cons_of_neg (by simpa using hc)]

theorem foldl_freeCpuCoresStep_length (nd : Node) :
    ∀ (ix : List Nat) (fl : List Nat), (ix.foldl (freeCpuCoresStep nd) fl).length = fl.length
  | [], fl => rfl
  | c :: ix, fl => by
    rw [List.foldl_cons, foldl_freeCpuCoresStep_length nd ix _, freeCpuCoresStep_length]

/-- C8 (corrected).  With SMT on, GetFreeCpuCoreCount counts exactly the
logical cores whose own and sibling used flags are both false, over the whole
core list; GetFreeCpuCores is a length-`numa_nodes` vector bucketed by socket
whose entries sum to the number of such cores among the first
`cores_per_proc * sockets` indices only — not to GetFreeCpuCoreCount, which
also counts the upper sibling bank (refuted in `C8_counterexample`). -/
theorem C8_theorem (nd : Node) (hsmt : nd.smt_enabled = true)
    (hsock : ∀ c, c < nd.cores_per_proc * nd.sockets → freeCountsAt nd c = true →
      (nd.cores.getD c dummyCore).socket < nd.numa_nodes) :
    GetFreeCpuCoreCount nd =
      ((Finset.range nd.cores.length).filter
        (fun i => ((coreAt nd i).used = false ∧
          (coreAt nd (coreAt nd i).sibling).used = false))).card ∧
    (GetFreeCpuCores nd).length = nd.numa_nodes ∧
    (GetFreeCpuCores nd).sum =
      ((List.range (nd.cores_per_proc * nd.sockets)).filter
        (fun c => freeCountsAt nd c)).length := by
  refine ⟨?_, ?_, ?_⟩
  · rw [GetFreeCpuCoreCount, if_pos hsmt, length_filter_eq_card nd.cores _ dummyCore]
    congr 1
    apply Finset.filter_congr
    intro i _
    simp [coreAt]
  · rw [GetFreeCpuCores, foldl_freeCpuCoresStep_length]
    exact List.length_replicate _ _
  · rw [GetFreeCpuCores, foldl_freeCpuCoresStep_sum nd _ _
      (by
        intro c hc hf
        rw [List.length_replicate]
        exact hsock c (List.mem_range.mp hc) hf)]
    simp

/-- C8: on a fully free 1-socket SMT node with 2 physical cores (4 logical),
GetFreeCpuCoreCount counts all 4 logical cores but the per-NUMA vector only
scans the lower bank, so its entries sum to 2 — the claimed equality of the
sum and the count is false. -/
theorem C8_counterexample :
    GetFreeCpuCoreCount c8Node = 4 ∧ GetFreeCpuCores c8Node = [2] ∧
    (GetFreeCpuCores c8Node).sum ≠ GetFreeCpuCoreCount c8Node := by decide

theorem C8_theorem_witness :
    (c8Node.smt_enabled = true ∧
      (∀ c, c < c8Node.cores_per_proc * c8Node.sockets → freeCountsAt c8Node c = true →
        (c8Node.cores.getD c dummyCore).socket < c8Node.numa_nodes)) ∧
    (GetFreeCpuCoreCount c8Node =
      ((Finset.range c8Node.cores.length).filter
        (fun i => ((coreAt c8Node i).used = false ∧
          (coreAt c8Node (coreAt c8Node i).sibling).used = false))).card ∧
    (GetFreeCpuCores c8Node).length = c8Node.numa_nodes ∧
    (GetFreeCpuCores c8Node).sum =
      ((List.range (c8Node.cores_per_proc * c8Node.sockets)).filter
        (fun c => freeCountsAt c8Node c)).length) :=
  ⟨⟨by decide, by decide⟩, C8_theorem c8Node (by decide) (by decide)⟩

theorem getFreeCpuBatchAux_length_le (nd : Node) (numa : Nat) (smt : SMTSetting) :
    ∀ (sub : List NodeCore) (num : Nat), (getFreeCpuBatchAux nd numa smt sub num).length ≤ num
  | _, 0 => by
    rw [getFreeCpuBatchAux]
    exact Nat.zero_le 0
  | [], n + 1 => by
    rw [getFreeCpuBatchAux]
    exact Nat.zero_le _
  | c :: rest, n + 1 => by
    rw [getFreeCpuBatchAux]
    split_ifs with h1 h2 h3 h4
    · have ih := getFreeCpuBatchAux_length_le nd numa smt rest (n - 1)
      simp only [List.length_cons]
      omega
    · have ih := getFreeCpuBatchAux_length_le nd numa smt rest n
      simp only [List.length_cons]
      omega
    · exact getFreeCpuBatchAux_length_le nd numa smt rest (n + 1)
    · have ih := getFreeCpuBatchAux_length_le nd numa smt rest n
      simp only [List.length_cons]
      omega
    · exact getFreeCpuBatchAux_length_le nd numa smt rest (n + 1)

theorem getFreeCpuBatchAux_mem (nd : Node) (numa : Nat) (smt : SMTSetting)
    (hwf : CoresWF nd) :
    ∀ (sub : List NodeCore), (∀ c ∈ sub, c ∈ nd.cores) →
      ∀ (num : Nat) (id : Nat), id ∈ getFreeCpuBatchAux nd numa smt sub num →
        id < nd.cores.length ∧ (coreAt nd id).socket = numa ∧
        (coreAt nd id).used = false ∧
        (nd.smt_enabled = true → (coreAt nd (coreAt nd id).sibling).used = false)
  | sub, hsub, 0, id => by
    rw [getFreeCpuBatchAux]
    intro h
    cases h
  | [], hsub, n + 1, id => by
    rw [getFreeCpuBatchAux]
    intro h
    cases h
  | c :: rest, hsub, n + 1, id => by
    have hc : c ∈ nd.cores := hsub c (List.mem_cons_self _ _)
    obtain ⟨i, hi, hci⟩ := List.getElem_of_mem hc
    have hwfi := hwf i hi
    have hcoreAt : coreAt nd i = c := by
      rw [coreAt, List.getD_eq_getElem?_getD, List.getElem?_eq_getElem hi, Option.getD_some, hci]
    have hrest : ∀ c' ∈ rest, c' ∈ nd.cores :=
      fun c' hc' => hsub c' (List.mem_cons_of_mem _ hc')
    have hid : c.core = i := by rw [← hcoreAt, hwfi.1]
    rw [getFreeCpuBatchAux]
    split_ifs with h1 h2 h3 h4
    · -- SMT pair taken: c.core and c.sibling head the result
      intro hmem
      rcases List.mem_cons.mp hmem with rfl | hmem
      · refine ⟨hid ▸ hi, ?_, ?_, fun _ => ?_⟩
        · rw [hid, hcoreAt]
          exact h1.1
        · rw [hid, hcoreAt]
          exact h1.2
        · rw [hid, hcoreAt]
          exact h3
      rcases List.mem_cons.mp hmem with rfl | hmem
      · refine ⟨?_, ?_, ?_, fun _ => ?_⟩
        · rw [← hcoreAt]
          exact hwfi.2.1
        · rw [← hcoreAt, hwfi.2.2.2, hcoreAt]
          exact h1.1
        · exact h3
        · rw [← hcoreAt, hwfi.2.2.1, hcoreAt]
          exact h1.2
      · exact getFreeCpuBatchAux_mem nd numa smt hwf rest hrest (n - 1) id hmem
    · -- SMT on, single core taken
      intro hmem
      rcases List.mem_cons.mp hmem with rfl | hmem
      · refine ⟨hid ▸ hi, ?_, ?_, fun _ => ?_⟩
        · rw [hid, hcoreAt]
          exact h1.1
        · rw [hid, hcoreAt]
          exact h1.2
        · rw [hid, hcoreAt]
          exact h3
      · exact getFreeCpuBatchAux_mem nd numa smt hwf rest hrest n id hmem
    · exact fun hmem => getFreeCpuBatchAux_mem nd numa smt hwf rest hrest (n + 1) id hmem
    · -- SMT off, single core taken
      intro hmem
      rcases List.mem_cons.mp hmem with rfl | hmem
      · refine ⟨hid ▸ hi, ?_, ?_, fun hsmt => absurd hsmt h2⟩
        · rw [hid, hcoreAt]
          exact h1.1
        · rw [hid, hcoreAt]
          exact h1.2
      · exact getFreeCpuBatchAux_mem nd numa smt hwf rest hrest n id hmem
    · exact fun hmem => getFreeCpuBatchAux_mem nd numa smt hwf rest hrest (n + 1) id hmem

/-- C9 (corrected).  GetFreeCpuBatch returns at most `num` core IDs, each on
the requested NUMA socket and unused (with the SMT sibling also unused when
SMT is on), and the call leaves the inventory unchanged; the IDs are not
necessarily distinct — when an `SMT_ENABLED` pair is taken and the request is
not yet exhausted, the scan later revisits the sibling entry and returns the
pair again (`C9_counterexample`). -/
theorem C9_theorem (nd : Node) (numa num : Nat) (smt : SMTSetting)
    (hwf : CoresWF nd) :
    (GetFreeCpuBatch nd numa num smt).length ≤ num ∧
    (∀ id ∈ GetFreeCpuBatch nd numa num smt,
      id < nd.cores.length ∧ (coreAt nd id).socket = numa ∧
      (coreAt nd id).used = false ∧
      (nd.smt_enabled = true → (coreAt nd (coreAt nd id).sibling).used = false)) ∧
    (GetFreeCpuBatchS nd numa num smt).2 = nd := by
  refine ⟨getFreeCpuBatchAux_length_le nd numa smt nd.cores num, ?_, rfl⟩
  intro id hid
  exact getFreeCpuBatchAux_mem nd numa smt hwf nd.cores (fun _ h => h) num id hid

/-- C9: the IDs are not always distinct: on a node with one free SMT pair,
asking for 4 `SMT_ENABLED` cores returns the pair twice. -/
theorem C9_counterexample :
    GetFreeCpuBatch c9Node 0 4 SMTSetting.smtEnabled = [0, 1, 1, 0] ∧
    ¬(GetFreeCpuBatch c9Node 0 4 SMTSetting.smtEnabled).Nodup := by decide

theorem C9_theorem_witness :
    CoresWF c9Node ∧
    ((GetFreeCpuBatch c9Node 0 4 SMTSetting.smtEnabled).length ≤ 4 ∧
    (∀ id ∈ GetFreeCpuBatch c9Node 0 4 SMTSetting.smtEnabled,
      id < c9Node.cores.length ∧ (coreAt c9Node id).socket = 0 ∧
      (coreAt c9Node id).used = false ∧
      (c9Node.smt_enabled = true →
        (coreAt c9Node (coreAt c9Node id).sibling).used = false)) ∧
    (GetFreeCpuBatchS c9Node 0 4 SMTSetting.smtEnabled).2 = c9Node) := by
  constructor
  · rw [CoresWF]
    decide
  · exact C9_theorem c9Node 0 4 SMTSetting.smtEnabled (by rw [CoresWF]; decide)

theorem getFreeCpuBatchAux_smt_off (nd : Node) (numa : Nat) (sm : SMTSetting)
    (h : nd.smt_enabled = false) :
    ∀ (sub : List NodeCore) (k : Nat),
      getFreeCpuBatchAux nd numa sm sub k =
        ((sub.filter (fun c => c.socket == numa && !c.used)).map (fun c => c.core)).take k
  | sub, 0 => by rw [getFreeCpuBatchAux, List.take_zero]
  | [], k + 1 => by rw [getFreeCpuBatchAux]; rfl
  | c :: rest, k + 1 => by
    rw [getFreeCpuBatchAux]
    by_cases h1 : c.socket = numa ∧ c.used = false
    · rw [if_pos h1, if_neg (by rw [h]; simp)]
      rw [List.filter_cons_of_pos (by simp [h1.1, h1.2])]
      rw [List.map_cons, List.take_succ_cons]
      rw [getFreeCpuBatchAux_smt_off nd numa sm h rest k]
    · rw [if_neg h1]
      rw [List.filter_cons_of_neg ?hneg]
      · exact getFreeCpuBatchAux_smt_off nd numa sm h rest (k + 1)
      case hneg =>
        simp only [Bool.and_eq_true, beq_iff_eq, Bool.not_eq_true']
        exact fun hc => h1 ⟨hc.1, hc.2⟩

/-- C7 (confirmed).  The placement engine is a pure function of the
inventory, the mapping and the topology: identical inputs give identical
results (identical core IDs, GPU device IDs and NIC assignments).  Moreover
the scan orders are as claimed: GPU allocation returns the first free device
on the NUMA node in insertion order, and with SMT off the CPU batch is
exactly the first `k` free cores of the requested socket in ascending index
order. -/
theorem C7_theorem (m m' : Mapping) (t t' : CfgTopology) (nd nd' : Node)
    (hm : m = m') (ht : t = t') (hn : nd = nd') :
    SetPhysicalIdsFromMapping m t nd = SetPhysicalIdsFromMapping m' t' nd' ∧
    (∀ numa gi, GetNextGpuFreeIdx nd numa = some gi →
      gi < nd.gpus.length ∧ (gpuAt nd gi).numa_node = numa ∧ (gpuAt nd gi).used = false ∧
      ∀ j, j < gi → ¬((gpuAt nd j).numa_node = numa ∧ (gpuAt nd j).used = false)) ∧
    (∀ numa k sm, nd.smt_enabled = false →
      GetFreeCpuBatch nd numa k sm =
        ((nd.cores.filter (fun c => c.socket == numa && !c.used)).map
          (fun c => c.core)).take k) := by
  subst hm ht hn
  refine ⟨rfl, ?_, ?_⟩
  · intro numa gi hgi
    obtain ⟨hlt, hp, hfirst⟩ := firstIdx?_some_spec dummyGpu hgi
    simp only [Bool.and_eq_true, beq_iff_eq, Bool.not_eq_true'] at hp
    refine ⟨hlt, hp.1, hp.2, ?_⟩
    intro j hj hcontra
    have hb := hfirst j hj
    simp only [gpuAt] at hcontra
    rw [hcontra.1, hcontra.2] at hb
    simp at hb
  · intro numa k sm hs
    exact getFreeCpuBatchAux_smt_off nd numa sm hs nd.cores k

theorem C7_theorem_witness :
    SetPhysicalIdsFromMapping c2Map c2Top c2Node = SetPhysicalIdsFromMapping c2Map c2Top c2Node ∧
    (∀ numa gi, GetNextGpuFreeIdx c2Node numa = some gi →
      gi < c2Node.gpus.length ∧ (gpuAt c2Node gi).numa_node = numa ∧
      (gpuAt c2Node gi).used = false ∧
      ∀ j, j < gi → ¬((gpuAt c2Node j).numa_node = numa ∧ (gpuAt c2Node j).used = false)) ∧
    (∀ numa k sm, c2Node.smt_enabled = false →
      GetFreeCpuBatch c2Node numa k sm =
        ((c2Node.cores.filter (fun c => c.socket == numa && !c.used)).map
          (fun c => c.core)).take k) :=
  C7_theorem c2Map c2Map c2Top c2Top c2Node c2Node rfl rfl rfl

/-- C1 (code bug).  On `c1Node` (one free core) and `c1Top` (one group asking
for one processing core and one helper core), the placement engine takes and
marks the processing core, then hits the helper-core shortfall and executes
`return None` — a failure path that skips the `except IndexError` unwind
entirely, leaving core 0 marked used.  The claim (and the spec) require the
inventory to be restored on every failure path, so the claim is right and the
code is wrong; the exception paths are broken too, since the unwind's NIC
loop indexes the NIC list with a float bandwidth (`self.nics[n[1]]`), raising
TypeError before any NIC bandwidth is restored. -/
theorem C1_code_bug_eval :
    (SetPhysicalIdsFromMapping c1Map c1Top c1Node).1 = PResult.retNone ∧
    (coreAt c1Node 0).used = false ∧
    (coreAt (SetPhysicalIdsFromMapping c1Map c1Top c1Node).2.1 0).used = true ∧
    (SetPhysicalIdsFromMapping c1Map c1Top c1Node).2.1 ≠ c1Node := by decide

theorem set_getD_self : ∀ (l : List α) (i : Nat) (d : α), l.set i (l.getD i d) = l
  | [], _, _ => rfl
  | a :: t, 0, d => rfl
  | a :: t, i + 1, d => by
    rw [List.set_cons_succ, List.getD_cons_succ, set_getD_self t i d]

theorem map_set_preserve (l : List α) (i : Nat) (f : α → α) (g : α → β) (d : α)
    (hf : ∀ x, g (f x) = g x) :
    (l.set i (f (l.getD i d))).map g = l.map g := by
  rw [List.map_set, hf, ← List.getD_map l d g, set_getD_self]

theorem PodsFrame.refl' (a : Node) : PodsFrame a a := ⟨rfl, rfl⟩

theorem PodsFrame.trans' {a b c : Node} (h1 : PodsFrame a b) (h2 : PodsFrame b c) :
    PodsFrame a c := ⟨h2.1.trans h1.1, h2.2.trans h1.2⟩

theorem podsFrame_setCoreUsed (nd : Node) (i : Nat) (b : Bool) :
    PodsFrame nd (setCoreUsed nd i b) := ⟨rfl, rfl⟩

theorem podsFrame_setGpuUsed (nd : Node) (i : Nat) (b : Bool) :
    PodsFrame nd (setGpuUsed nd i b) := ⟨rfl, rfl⟩

theorem podsFrame_modifyNic (nd : Node) (i : Nat) (f : NodeNic → NodeNic)
    (hf : ∀ x, (f x).pods_used = x.pods_used) :
    PodsFrame nd (modifyNic nd i f) :=
  ⟨map_set_preserve nd.nics i f (fun n => n.pods_used) dummyNic hf, rfl⟩

theorem assignTopCores_podsFrame (ids : List Nat) :
    ∀ (cs : List TopCore) (cidx : Nat) (nd : Node),
      PodsFrame nd (assignTopCores ids cs cidx nd).2.2
  | [], cidx, nd => PodsFrame.refl' nd
  | c :: cs, cidx, nd => by
    have ih := assignTopCores_podsFrame ids cs (cidx + 1)
      (setCoreUsed nd (ids.getD cidx 0) true)
    rcases h : assignTopCores ids cs (cidx + 1) (setCoreUsed nd (ids.getD cidx 0) true)
      with ⟨cs', cidx', nd2⟩
    rw [h] at ih
    simp only [assignTopCores, h]
    exact (podsFrame_setCoreUsed nd _ true).trans' ih

theorem assignGroupGpus_podsFrame (numa : Nat) (ids : List Nat) :
    ∀ (gvs : List TopGpu) (cidx : Nat) (nd : Node) (ug : List Nat),
      PodsFrame nd (assignGroupGpus numa ids gvs cidx nd ug).2.2.2.1
  | [], cidx, nd, ug => PodsFrame.refl' nd
  | gv :: gvs, cidx, nd, ug => by
    simp only [assignGroupGpus]
    cases hg : GetNextGpuFreeIdx nd numa with
    | none => exact PodsFrame.refl' nd
    | some gi =>
      rcases h1 : assignTopCores ids gv.cpu_cores cidx (setGpuUsed nd gi true)
        with ⟨ccs, cidx1, nd2⟩
      have ht := assignTopCores_podsFrame ids gv.cpu_cores cidx (setGpuUsed nd gi true)
      rw [h1] at ht
      rcases h2 : assignGroupGpus numa ids gvs cidx1 nd2 (ug ++ [(gpuAt nd gi).device_id])
        with ⟨fl, gvs', cidx2, nd3, ug2⟩
      have ih := assignGroupGpus_podsFrame numa ids gvs cidx1 nd2
        (ug ++ [(gpuAt nd gi).device_id])
      rw [h2] at ih
      simp only [h1, h2]
      exact ((podsFrame_setGpuUsed nd gi true).trans' ht).trans' ih

theorem procCoreStep_podsFrame (numa : Nat) (ids : List Nat)
    (nicEntry : Option (Nat × Nat)) (sriov : Bool) (c : TopCore) (cidx : Nat)
    (nd : Node) (prs : List NicPairing) (un : List UsedNic) :
    PodsFrame nd (procCoreStep numa ids nicEntry sriov c cidx nd prs un).2.2.1 := by
  unfold procCoreStep
  dsimp only
  repeat' split
  all_goals
    first
      | exact podsFrame_setCoreUsed nd _ true
      | exact (podsFrame_setCoreUsed nd _ true).trans'
          (podsFrame_modifyNic _ _ _ (fun x => rfl))

theorem assignProcCores_podsFrame (numa : Nat) (ids : List Nat)
    (nicEntry : Option (Nat × Nat)) (sriov : Bool) :
    ∀ (cs : List TopCore) (cidx : Nat) (nd : Node) (prs : List NicPairing)
      (un : List UsedNic),
      PodsFrame nd (assignProcCores numa ids nicEntry sriov cs cidx nd prs un).2.2.2.1
  | [], cidx, nd, prs, un => PodsFrame.refl' nd
  | c :: cs, cidx, nd, prs, un => by
    have hstep := procCoreStep_podsFrame numa ids nicEntry sriov c cidx nd prs un
    rcases h : procCoreStep numa ids nicEntry sriov c cidx nd prs un
      with ⟨fl, c1, nd1, prs1, un1⟩
    rw [h] at hstep
    cases fl with
    | ok =>
      have ih := assignProcCores_podsFrame numa ids nicEntry sriov cs (cidx + 1) nd1 prs1 un1
      rcases h2 : assignProcCores numa ids nicEntry sriov cs (cidx + 1) nd1 prs1 un1
        with ⟨fl2, cs', cidx2, nd2, prs2, un2⟩
      rw [h2] at ih
      simp only [assignProcCores, h, h2]
      exact hstep.trans' ih
    | exc => simp only [assignProcCores, h]; exact hstep
    | ret => simp only [assignProcCores, h]; exact hstep

theorem processGroup_podsFrame (dv : Int) (gpuNuma : Option Nat)
    (nicEntry : Option (Nat × Nat)) (sriov : Bool) (pg : ProcGroup) (st : PState) :
    PodsFrame st.node (processGroup dv gpuNuma nicEntry sriov pg st).2.2.node := by
  unfold processGroup
  cases gpuNuma with
  | none => exact PodsFrame.refl' _
  | some numa =>
    dsimp only
    repeat' split
    all_goals
      first
        | exact PodsFrame.refl' _
        | exact assignGroupGpus_podsFrame _ _ _ _ _ _
        | exact (assignGroupGpus_podsFrame _ _ _ _ _ _).trans'
            (assignProcCores_podsFrame _ _ _ _ _ _ _ _ _)
        | exact ((assignGroupGpus_podsFrame _ _ _ _ _ _).trans'
            (assignProcCores_podsFrame _ _ _ _ _ _ _ _ _)).trans'
            (assignTopCores_podsFrame _ _ _ _)

theorem processGroups_podsFrame (dv : Int) (m : Mapping) (sriov : Bool) :
    ∀ (pi : Nat) (pgs : List ProcGroup) (st : PState),
      PodsFrame st.node (processGroups dv m sriov pi pgs st).2.2.node
  | _, [], st => PodsFrame.refl' _
  | pi, pg :: pgs, st => by
    have h1 := processGroup_podsFrame dv m.gpu[pi]? m.nic[pi]? sriov pg st
    have ih := processGroups_podsFrame dv m sriov (pi + 1) pgs
      (processGroup dv m.gpu[pi]? m.nic[pi]? sriov pg st).2.2
    unfold processGroups
    dsimp only
    split
    all_goals first
      | exact h1.trans' ih
      | exact h1

theorem foldl_setCoreUsed_podsFrame :
    ∀ (cs : List Nat) (nd : Node),
      PodsFrame nd (cs.foldl (fun n c => setCoreUsed n c false) nd)
  | [], nd => PodsFrame.refl' _
  | c :: cs, nd => by
    rw [List.foldl_cons]
    exact (podsFrame_setCoreUsed nd c false).trans'
      (foldl_setCoreUsed_podsFrame cs (setCoreUsed nd c false))

theorem rollbackGpus_podsFrame :
    ∀ (gs : List Nat) (nd : Node), PodsFrame nd (rollbackGpus gs nd).1
  | [], nd => PodsFrame.refl' _
  | g :: gs, nd => by
    unfold rollbackGpus
    split
    · exact (podsFrame_setGpuUsed nd g false).trans'
        (rollbackGpus_podsFrame gs (setGpuUsed nd g false))
    · exact PodsFrame.refl' _

theorem rollback_podsFrame (st : PState) : PodsFrame st.node (rollback st).2 := by
  unfold rollback
  dsimp only
  repeat' split
  all_goals
    exact (foldl_setCoreUsed_podsFrame _ _).trans' (rollbackGpus_podsFrame _ _)

theorem podsFrame_setMem (nd : Node) (mm : NodeMemory) :
    PodsFrame nd { nd with mem := mm } := ⟨rfl, rfl⟩

theorem rollback_mem_podsFrame (st : PState) (mm : NodeMemory) :
    PodsFrame st.node (rollback { st with node := { st.node with mem := mm } }).2 :=
  (podsFrame_setMem st.node mm).trans' (rollback_podsFrame _)

theorem assignTopCores_mem_podsFrame (ids : List Nat) (cs : List TopCore) (cidx : Nat)
    (a : Node) (mm : NodeMemory) :
    PodsFrame a (assignTopCores ids cs cidx { a with mem := mm }).2.2 :=
  (podsFrame_setMem a mm).trans' (assignTopCores_podsFrame ids cs cidx _)

theorem setPhysicalIds_podsFrame (m : Mapping) (top : CfgTopology) (nd : Node) :
    PodsFrame nd (SetPhysicalIdsFromMapping m top nd).2.1 := by
  unfold SetPhysicalIdsFromMapping
  dsimp only
  repeat' split
  all_goals
    first
      | exact processGroups_podsFrame _ _ _ _ _ _
      | exact (processGroups_podsFrame _ _ _ _ _ _).trans' (rollback_podsFrame _)
      | exact (processGroups_podsFrame _ _ _ _ _ _).trans' (rollback_mem_podsFrame _ _)
      | exact (processGroups_podsFrame _ _ _ _ _ _).trans'
          (assignTopCores_mem_podsFrame _ _ _ _ _)

/-- C10 (confirmed).  SetPhysicalIdsFromMapping — on every path: success,
`return None` and both exception paths — never changes any NIC's `pods_used`
counter and never changes the node's scheduled-pod set; those are mutated
only by the separate ClaimPodNICResources and AddScheduledPod calls. -/
theorem C10_theorem (m : Mapping) (top : CfgTopology) (nd : Node) :
    (SetPhysicalIdsFromMapping m top nd).2.1.nics.map (fun n => n.pods_used)
      = nd.nics.map (fun n => n.pods_used) ∧
    (SetPhysicalIdsFromMapping m top nd).2.1.pods_scheduled = nd.pods_scheduled :=
  ⟨(setPhysicalIds_podsFrame m top nd).1, (setPhysicalIds_podsFrame m top nd).2⟩

theorem getD_lt_irrel (l : List α) (k : Nat) (h : k < l.length) (d d' : α) :
    l.getD k d = l.getD k d' := by
  rw [List.getD_eq_getElem?_getD, List.getD_eq_getElem?_getD, List.getElem?_eq_getElem h]
  rfl

theorem getD_map_lt (l : List α) (f : α → β) (k : Nat) (h : k < l.length)
    (d : β) (d' : α) : (l.map f).getD k d = f (l.getD k d') := by
  have h1 : (l.map f)[k]? = some (f l[k]) := by
    rw [List.getElem?_map, List.getElem?_eq_getElem h]
    rfl
  rw [List.getD_eq_getElem?_getD, h1, Option.getD_some,
    List.getD_eq_getElem?_getD, List.getElem?_eq_getElem h, Option.getD_some]

theorem markTopCores_nics (b : Bool) :
    ∀ (cs : List TopCore) (nd : Node),
      (markTopCores b cs nd).nics = nd.nics ∧
      (markTopCores b cs nd).sriov_en = nd.sriov_en
  | [], nd => ⟨rfl, rfl⟩
  | c :: cs, nd => by
    rw [markTopCores] at *
    simpa using markTopCores_nics b cs (setCoreUsed nd c.core b)

theorem markTopGpu_nics (b : Bool) (nd : Node) (g : TopGpu) :
    (markTopGpu b nd g).nics = nd.nics ∧ (markTopGpu b nd g).sriov_en = nd.sriov_en := by
  unfold markTopGpu
  cases GetGPU nd g.device_id with
  | none => exact markTopCores_nics b g.cpu_cores nd
  | some gi => exact markTopCores_nics b g.cpu_cores (setGpuUsed nd gi b)

theorem foldl_markTopGpu_nics (b : Bool) :
    ∀ (gs : List TopGpu) (nd : Node),
      (gs.foldl (markTopGpu b) nd).nics = nd.nics ∧
      (gs.foldl (markTopGpu b) nd).sriov_en = nd.sriov_en
  | [], nd => ⟨rfl, rfl⟩
  | g :: gs, nd => by
    rw [List.foldl_cons]
    have h1 := markTopGpu_nics b nd g
    have h2 := foldl_markTopGpu_nics b gs (markTopGpu b nd g)
    exact ⟨h2.1.trans h1.1, h2.2.trans h1.2⟩

theorem markProcGroup_nics (b : Bool) (nd : Node) (pg : ProcGroup) :
    (markProcGroup b nd pg).nics = nd.nics ∧
    (markProcGroup b nd pg).sriov_en = nd.sriov_en := by
  unfold markProcGroup
  have h1 := markTopCores_nics b pg.misc_cores nd
  have h2 := markTopCores_nics b pg.proc_cores (markTopCores b pg.misc_cores nd)
  have h3 := foldl_markTopGpu_nics b pg.group_gpus
    (markTopCores b pg.proc_cores (markTopCores b pg.misc_cores nd))
  exact ⟨(h3.1.trans h2.1).trans h1.1, (h3.2.trans h2.2).trans h1.2⟩

theorem foldl_markProcGroup_nics (b : Bool) :
    ∀ (pgs : List ProcGroup) (nd : Node),
      (pgs.foldl (markProcGroup b) nd).nics = nd.nics ∧
      (pgs.foldl (markProcGroup b) nd).sriov_en = nd.sriov_en
  | [], nd => ⟨rfl, rfl⟩
  | pg :: pgs, nd => by
    rw [List.foldl_cons]
    have h1 := markProcGroup_nics b nd pg
    have h2 := foldl_markProcGroup_nics b pgs (markProcGroup b nd pg)
    exact ⟨h2.1.trans h1.1, h2.2.trans h1.2⟩

theorem ledgerNicIdx_congr (nd nd' : Node) (p : NicPairing)
    (hs : nd'.sriov_en = nd.sriov_en) (hn : nd'.nics.length = nd.nics.length)
    (hpt : ∀ j, j < nd'.nics.length →
      (nicAt nd' j).mac = (nicAt nd j).mac ∧ (nicAt nd' j).ifname = (nicAt nd j).ifname) :
    ledgerNicIdx nd' p = ledgerNicIdx nd p := by
  unfold ledgerNicIdx GetNIC GetNICFromIfName
  rw [hs]
  by_cases h : (!nd.sriov_en) = true
  · rw [if_pos h, if_pos h]
    exact firstIdx?_congr hn (fun j hj d₁ d₂ => by
      have hj' : j < nd.nics.length := hn ▸ hj
      rw [getD_lt_irrel nd'.nics j hj d₁ dummyNic, getD_lt_irrel nd.nics j hj' d₂ dummyNic]
      rw [show (nd'.nics.getD j dummyNic).mac = (nd.nics.getD j dummyNic).mac
        from (hpt j hj).1])
  · rw [if_neg h, if_neg h]
    exact firstIdx?_congr hn (fun j hj d₁ d₂ => by
      have hj' : j < nd.nics.length := hn ▸ hj
      rw [getD_lt_irrel nd'.nics j hj d₁ dummyNic, getD_lt_irrel nd.nics j hj' d₂ dummyNic]
      rw [show (nd'.nics.getD j dummyNic).ifname = (nd.nics.getD j dummyNic).ifname
        from (hpt j hj).2])

theorem nicAt_modifyNic (nd : Node) (i : Nat) (f : NodeNic → NodeNic) (j : Nat) :
    nicAt (modifyNic nd i f) j =
      if i = j ∧ i < nd.nics.length then f (nicAt nd i) else nicAt nd j := by
  unfold nicAt modifyNic
  exact getD_set nd.nics i j _ dummyNic

theorem rxDebit_cons (nd : Node) (p : NicPairing) (prs : List NicPairing) (k : Nat) :
    rxDebit nd (p :: prs) k =
      (if ledgerNicIdx nd p = some k then p.rx_speed else 0) + rxDebit nd prs k := by
  unfold rxDebit pairsAt
  rw [List.filter_cons]
  by_cases h : ledgerNicIdx nd p = some k
  · simp [h]
  · simp [h]

theorem txDebit_cons (nd : Node) (p : NicPairing) (prs : List NicPairing) (k : Nat) :
    txDebit nd (p :: prs) k =
      (if ledgerNicIdx nd p = some k then p.tx_speed else 0) + txDebit nd prs k := by
  unfold txDebit pairsAt
  rw [List.filter_cons]
  by_cases h : ledgerNicIdx nd p = some k
  · simp [h]
  · simp [h]

theorem podDebit_cons (nd : Node) (p : NicPairing) (prs : List NicPairing) (k : Nat) :
    podDebit nd (p :: prs) k =
      (if ledgerNicIdx nd p = some k then 1 else 0) + podDebit nd prs k := by
  unfold podDebit pairsAt
  rw [List.filter_cons]
  by_cases h : ledgerNicIdx nd p = some k
  · simp [h]
    omega
  · simp [h]

theorem debits_congr (nd nd' : Node)
    (hs : nd'.sriov_en = nd.sriov_en) (hn : nd'.nics.length = nd.nics.length)
    (hpt : ∀ j, j < nd'.nics.length →
      (nicAt nd' j).mac = (nicAt nd j).mac ∧ (nicAt nd' j).ifname = (nicAt nd j).ifname)
    (prs : List NicPairing) (k : Nat) :
    rxDebit nd' prs k = rxDebit nd prs k ∧ txDebit nd' prs k = txDebit nd prs k ∧
    podDebit nd' prs k = podDebit nd prs k := by
  have hfil : prs.filter (fun p => ledgerNicIdx nd' p == some k)
      = prs.filter (fun p => ledgerNicIdx nd p == some k) :=
    List.filter_congr (fun p _ => by rw [ledgerNicIdx_congr nd nd' p hs hn hpt])
  unfold rxDebit txDebit podDebit pairsAt
  rw [hfil]
  exact ⟨rfl, rfl, rfl⟩

theorem releaseNicPair_spec (nd : Node) (p : NicPairing) :
    (releaseNicPair nd p).sriov_en = nd.sriov_en ∧
    (releaseNicPair nd p).nics.length = nd.nics.length ∧
    (releaseNicPair nd p).cores = nd.cores ∧
    (releaseNicPair nd p).gpus = nd.gpus ∧
    (releaseNicPair nd p).mem = nd.mem ∧
    (releaseNicPair nd p).pods_scheduled = nd.pods_scheduled ∧
    ∀ k, k < nd.nics.length →
      nicAt (releaseNicPair nd p) k =
        if ledgerNicIdx nd p = some k then
          { nicAt nd k with
            rx_used := (nicAt nd k).rx_used - p.rx_speed,
            tx_used := (nicAt nd k).tx_used - p.tx_speed,
            pods_used := (nicAt nd k).pods_used - 1 }
        else nicAt nd k := by
  unfold releaseNicPair
  cases hled : ledgerNicIdx nd p with
  | none =>
    refine ⟨rfl, rfl, rfl, rfl, rfl, rfl, ?_⟩
    intro k hk
    rw [if_neg (by simp)]
  | some i =>
    have hi : i < nd.nics.length := by
      revert hled
      unfold ledgerNicIdx GetNIC GetNICFromIfName
      split
      · exact fun h => (firstIdx?_some_spec dummyNic h).1
      · exact fun h => (firstIdx?_some_spec dummyNic h).1
    refine ⟨rfl, by simp [modifyNic], rfl, rfl, rfl, rfl, ?_⟩
    intro k hk
    rw [nicAt_modifyNic]
    by_cases hik : i = k
    · subst hik
      rw [if_pos ⟨rfl, hi⟩, if_pos rfl]
    · rw [if_neg (fun hc => hik hc.1), if_neg (by simp [hik])]

theorem releaseNicPairs_fold_spec :
    ∀ (prs : List NicPairing) (nd : Node),
      (prs.foldl releaseNicPair nd).sriov_en = nd.sriov_en ∧
      (prs.foldl releaseNicPair nd).nics.length = nd.nics.length ∧
      (prs.foldl releaseNicPair nd).cores = nd.cores ∧
      (prs.foldl releaseNicPair nd).gpus = nd.gpus ∧
      (prs.foldl releaseNicPair nd).mem = nd.mem ∧
      (prs.foldl releaseNicPair nd).pods_scheduled = nd.pods_scheduled ∧
      ∀ k, k < nd.nics.length →
        nicAt (prs.foldl releaseNicPair nd) k =
          { nicAt nd k with
            rx_used := (nicAt nd k).rx_used - rxDebit nd prs k,
            tx_used := (nicAt nd k).tx_used - txDebit nd prs k,
            pods_used := (nicAt nd k).pods_used - podDebit nd prs k }
  | [], nd => by
    refine ⟨rfl, rfl, rfl, rfl, rfl, rfl, ?_⟩
    intro k hk
    simp [rxDebit, txDebit, podDebit, pairsAt]
  | p :: prs, nd => by
    have hstep := releaseNicPair_spec nd p
    have ih := releaseNicPairs_fold_spec prs (releaseNicPair nd p)
    rw [List.foldl_cons] at *
    have hmacs : ∀ j, j < (releaseNicPair nd p).nics.length →
        (nicAt (releaseNicPair nd p) j).mac = (nicAt nd j).mac ∧
        (nicAt (releaseNicPair nd p) j).ifname = (nicAt nd j).ifname := by
      intro j hj
      rw [hstep.2.2.2.2.2.2 j (hstep.2.1 ▸ hj)]
      split
      · exact ⟨rfl, rfl⟩
      · exact ⟨rfl, rfl⟩
    refine ⟨ih.1.trans hstep.1, ih.2.1.trans hstep.2.1, ih.2.2.1.trans hstep.2.2.1,
      ih.2.2.2.1.trans hstep.2.2.2.1, ih.2.2.2.2.1.trans hstep.2.2.2.2.1,
      ih.2.2.2.2.2.1.trans hstep.2.2.2.2.2.1, ?_⟩
    intro k hk
    have hk1 : k < (releaseNicPair nd p).nics.length := hstep.2.1 ▸ hk
    rw [ih.2.2.2.2.2.2 k hk1]
    have hdeb := debits_congr nd (releaseNicPair nd p) hstep.1 hstep.2.1 hmacs prs k
    rw [hdeb.1, hdeb.2.1, hdeb.2.2, hstep.2.2.2.2.2.2 k hk,
      rxDebit_cons, txDebit_cons, podDebit_cons]
    by_cases hpk : ledgerNicIdx nd p = some k
    · rw [if_pos hpk, if_pos hpk, if_pos hpk, if_pos hpk]
      simp only [NodeNic.mk.injEq, true_and, and_true]
      exact ⟨sub_sub _ _ _, sub_sub _ _ _, sub_sub _ _ _⟩
    · rw [if_neg hpk, if_neg hpk, if_neg hpk, if_neg hpk]
      simp

/-- C3 (corrected).  The ledger does not clamp and the bounds are not
maintained: AddResourcesFromTopology changes each NIC `k` by subtracting
exactly the summed rx/tx bandwidth of the pairings that resolve to `k` and by
decrementing `pods_used` once per such pairing — so a release of more than is
reserved drives the quantities negative (`C3_counterexample`).
ResetResources restores every NIC to `rx_used = tx_used = 0` and
`pods_used = 0`. -/
theorem C3_theorem (top : CfgTopology) (nd : Node) :
    (AddResourcesFromTopology top nd).nics.length = nd.nics.length ∧
    (∀ k, k < nd.nics.length →
      nicAt (AddResourcesFromTopology top nd) k =
        { nicAt nd k with
          rx_used := (nicAt nd k).rx_used - rxDebit nd top.nic_core_pairing k,
          tx_used := (nicAt nd k).tx_used - txDebit nd top.nic_core_pairing k,
          pods_used := (nicAt nd k).pods_used - podDebit nd top.nic_core_pairing k }) ∧
    (∀ k, k < nd.nics.length →
      (nicAt (ResetResources nd) k).rx_used = 0 ∧
      (nicAt (ResetResources nd) k).tx_used = 0 ∧
      (nicAt (ResetResources nd) k).pods_used = 0) := by
  have hpre : (markTopCores false top.misc_cores
      (top.proc_groups.foldl (markProcGroup false) nd)).nics = nd.nics ∧
      (markTopCores false top.misc_cores
        (top.proc_groups.foldl (markProcGroup false) nd)).sriov_en = nd.sriov_en := by
    have h1 := foldl_markProcGroup_nics false top.proc_groups nd
    have h2 := markTopCores_nics false top.misc_cores
      (top.proc_groups.foldl (markProcGroup false) nd)
    exact ⟨h2.1.trans h1.1, h2.2.trans h1.2⟩
  have hdeb : ∀ prs k, rxDebit (markTopCores false top.misc_cores
        (top.proc_groups.foldl (markProcGroup false) nd)) prs k
        = rxDebit nd prs k ∧
      txDebit (markTopCores false top.misc_cores
        (top.proc_groups.foldl (markProcGroup false) nd)) prs k
        = txDebit nd prs k ∧
      podDebit (markTopCores false top.misc_cores
        (top.proc_groups.foldl (markProcGroup false) nd)) prs k
        = podDebit nd prs k := by
    intro prs k
    exact debits_congr nd _ hpre.2 (by rw [hpre.1])
      (fun j hj => by rw [nicAt, nicAt, hpre.1]; exact ⟨rfl, rfl⟩) prs k
  have hfold := releaseNicPairs_fold_spec top.nic_core_pairing
    (markTopCores false top.misc_cores (top.proc_groups.foldl (markProcGroup false) nd))
  refine ⟨?_, ?_, ?_⟩
  · unfold AddResourcesFromTopology
    dsimp only
    split
    · rw [hfold.2.1, hpre.1]
    · rw [hfold.2.1, hpre.1]
  · intro k hk
    have hval := hfold.2.2.2.2.2.2 k (by rw [hpre.1]; exact hk)
    have hnic : nicAt (AddResourcesFromTopology top nd) k
        = nicAt (top.nic_core_pairing.foldl releaseNicPair
            (markTopCores false top.misc_cores
              (top.proc_groups.foldl (markProcGroup false) nd))) k := by
      unfold AddResourcesFromTopology
      dsimp only
      split
      · rfl
      · rfl
    rw [hnic, hval]
    rw [(hdeb top.nic_core_pairing k).1, (hdeb top.nic_core_pairing k).2.1,
      (hdeb top.nic_core_pairing k).2.2]
    have hbase : nicAt (markTopCores false top.misc_cores
        (top.proc_groups.foldl (markProcGroup false) nd)) k = nicAt nd k := by
      rw [nicAt, nicAt, hpre.1]
    rw [hbase]
  · intro k hk
    unfold ResetResources
    simp only [nicAt]
    rw [getD_map_lt nd.nics _ k hk dummyNic dummyNic]
    exact ⟨rfl, rfl, rfl⟩

theorem C3_theorem_witness :
    (AddResourcesFromTopology c3Top c3Node).nics.length = c3Node.nics.length ∧
    (∀ k, k < c3Node.nics.length →
      nicAt (AddResourcesFromTopology c3Top c3Node) k =
        { nicAt c3Node k with
          rx_used := (nicAt c3Node k).rx_used - rxDebit c3Node c3Top.nic_core_pairing k,
          tx_used := (nicAt c3Node k).tx_used - txDebit c3Node c3Top.nic_core_pairing k,
          pods_used := (nicAt c3Node k).pods_used - podDebit c3Node c3Top.nic_core_pairing k }) ∧
    (∀ k, k < c3Node.nics.length →
      (nicAt (ResetResources c3Node) k).rx_used = 0 ∧
      (nicAt (ResetResources c3Node) k).tx_used = 0 ∧
      (nicAt (ResetResources c3Node) k).pods_used = 0) :=
  C3_theorem c3Top c3Node

/-! C2 machinery: pointwise effect lemmas for the placement engine's success
path and for the release ledger's core/GPU phases. -/

theorem coreAt_setCoreUsed (nd : Node) (i : Nat) (b : Bool) (j : Nat) :
    coreAt (setCoreUsed nd i b) j =
      if i = j ∧ i < nd.cores.length then { coreAt nd i with used := b }
      else coreAt nd j :=
  getD_set nd.cores i j _ dummyCore

theorem gpuAt_setGpuUsed (nd : Node) (i : Nat) (b : Bool) (j : Nat) :
    gpuAt (setGpuUsed nd i b) j =
      if i = j ∧ i < nd.gpus.length then { gpuAt nd i with used := b }
      else gpuAt nd j :=
  getD_set nd.gpus i j _ dummyGpu

theorem coreMarkB_nil (b : Bool) (a : Node) : CoreMarkB b [] a a :=
  ⟨rfl, fun j => by rw [if_neg (by simp)]⟩

theorem coreMarkB_single (nd : Node) (i : Nat) (b : Bool) :
    CoreMarkB b [i] nd (setCoreUsed nd i b) := by
  refine ⟨by simp [setCoreUsed], fun j => ?_⟩
  rw [coreAt_setCoreUsed]
  by_cases hij : i = j
  · subst hij
    by_cases hlt : i < nd.cores.length
    · rw [if_pos ⟨rfl, hlt⟩, if_pos ⟨by simp, hlt⟩]
    · rw [if_neg (fun hc => hlt hc.2), if_neg (fun hc => hlt hc.2)]
  · rw [if_neg (fun hc => hij hc.1),
      if_neg (fun hc => hij (List.mem_singleton.mp hc.1).symm)]

theorem coreMarkB_trans {b : Bool} {S T : List Nat} {a c e : Node}
    (h1 : CoreMarkB b S a c) (h2 : CoreMarkB b T c e) :
    CoreMarkB b (S ++ T) a e := by
  rcases h1 with ⟨hl1, hp1⟩
  rcases h2 with ⟨hl2, hp2⟩
  refine ⟨hl2.trans hl1, fun j => ?_⟩
  have h2j := hp2 j
  rw [hl1] at h2j
  rw [h2j, hp1 j]
  by_cases hlt : j < a.cores.length <;> by_cases hT : j ∈ T <;> by_cases hS : j ∈ S <;>
    simp [hlt, hT, hS, List.mem_append]

theorem coreMarkB_base_congr {b : Bool} {S : List Nat} {a a' c : Node}
    (h : a'.cores = a.cores) (hm : CoreMarkB b S a' c) : CoreMarkB b S a c := by
  rcases hm with ⟨hl, hp⟩
  refine ⟨by rw [hl, h], fun j => ?_⟩
  have hj := hp j
  rw [show coreAt a' j = coreAt a j by unfold coreAt; rw [h], h] at hj
  exact hj

theorem coreMarkB_target_congr {b : Bool} {S : List Nat} {a c c' : Node}
    (h : c'.cores = c.cores) (hm : CoreMarkB b S a c) : CoreMarkB b S a c' := by
  rcases hm with ⟨hl, hp⟩
  refine ⟨by rw [h, hl], fun j => ?_⟩
  rw [show coreAt c' j = coreAt c j by unfold coreAt; rw [h]]
  exact hp j

theorem coreMarkB_fields {b : Bool} {S : List Nat} {a c : Node}
    (hm : CoreMarkB b S a c) (j : Nat) :
    (coreAt c j).core = (coreAt a j).core ∧
    (coreAt c j).sibling = (coreAt a j).sibling ∧
    (coreAt c j).socket = (coreAt a j).socket := by
  rw [hm.2 j]
  split
  · exact ⟨rfl, rfl, rfl⟩
  · exact ⟨rfl, rfl, rfl⟩

theorem coresWF_of_coreMarkB {b : Bool} {S : List Nat} {a c : Node}
    (hm : CoreMarkB b S a c) (hwf : CoresWF a) : CoresWF c := by
  intro i hi
  have hi' : i < a.cores.length := hm.1 ▸ hi
  have hw := hwf i hi'
  refine ⟨?_, ?_, ?_, ?_⟩
  · rw [(coreMarkB_fields hm i).1]
    exact hw.1
  · rw [(coreMarkB_fields hm i).2.1, hm.1]
    exact hw.2.1
  · rw [(coreMarkB_fields hm i).2.1, (coreMarkB_fields hm _).2.1]
    exact hw.2.2.1
  · rw [(coreMarkB_fields hm i).2.1, (coreMarkB_fields hm _).2.2,
      (coreMarkB_fields hm i).2.2]
    exact hw.2.2.2

theorem coreMarkB_fresh_back {b : Bool} {S : List Nat} {a c : Node}
    (hm : CoreMarkB b S a c) (j : Nat) (hu : (coreAt c j).used = false)
    (hb : b = true) : (coreAt a j).used = false := by
  have hj := hm.2 j
  rw [hj] at hu
  revert hu
  split
  · subst hb
    intro hu
    cases hu
  · exact fun hu => hu

theorem gpuMark_nil (a : Node) : GpuMark [] a a :=
  ⟨rfl, fun j => by rw [if_neg (by simp)]⟩

theorem gpuMark_single (nd : Node) (i : Nat) :
    GpuMark [i] nd (setGpuUsed nd i true) := by
  refine ⟨by simp [setGpuUsed], fun j => ?_⟩
  rw [gpuAt_setGpuUsed]
  by_cases hij : i = j
  · subst hij
    by_cases hlt : i < nd.gpus.length
    · rw [if_pos ⟨rfl, hlt⟩, if_pos ⟨by simp, hlt⟩]
    · rw [if_neg (fun hc => hlt hc.2), if_neg (fun hc => hlt hc.2)]
  · rw [if_neg (fun hc => hij hc.1),
      if_neg (fun hc => hij (List.mem_singleton.mp hc.1).symm)]

theorem gpuMark_trans {S T : List Nat} {a c e : Node}
    (h1 : GpuMark S a c) (h2 : GpuMark T c e) : GpuMark (S ++ T) a e := by
  rcases h1 with ⟨hl1, hp1⟩
  rcases h2 with ⟨hl2, hp2⟩
  refine ⟨hl2.trans hl1, fun j => ?_⟩
  have h2j := hp2 j
  rw [hl1] at h2j
  rw [h2j, hp1 j]
  by_cases hlt : j < a.gpus.length <;> by_cases hT : j ∈ T <;> by_cases hS : j ∈ S <;>
    simp [hlt, hT, hS, List.mem_append]

theorem gpuMark_base_congr {S : List Nat} {a a' c : Node}
    (h : a'.gpus = a.gpus) (hm : GpuMark S a' c) : GpuMark S a c := by
  rcases hm with ⟨hl, hp⟩
  refine ⟨by rw [hl, h], fun j => ?_⟩
  have hj := hp j
  rw [show gpuAt a' j = gpuAt a j by unfold gpuAt; rw [h], h] at hj
  exact hj

theorem gpuMark_target_congr {S : List Nat} {a c c' : Node}
    (h : c'.gpus = c.gpus) (hm : GpuMark S a c) : GpuMark S a c' := by
  rcases hm with ⟨hl, hp⟩
  refine ⟨by rw [h, hl], fun j => ?_⟩
  rw [show gpuAt c' j = gpuAt c j by unfold gpuAt; rw [h]]
  exact hp j

theorem gpuMark_fields {S : List Nat} {a c : Node} (hm : GpuMark S a c) (j : Nat) :
    (gpuAt c j).device_id = (gpuAt a j).device_id ∧
    (gpuAt c j).numa_node = (gpuAt a j).numa_node := by
  rw [hm.2 j]
  split
  · exact ⟨rfl, rfl⟩
  · exact ⟨rfl, rfl⟩

theorem coreSeg_zero (ids : List Nat) (c : Nat) : coreSeg ids c 0 = [] := rfl

theorem coreSeg_succ (ids : List Nat) (c k : Nat) :
    coreSeg ids c (k + 1) = ids.getD c 0 :: coreSeg ids (c + 1) k := by
  unfold coreSeg
  rw [List.range'_succ]
  rfl

theorem coreSeg_append (ids : List Nat) :
    ∀ (k1 c k2 : Nat), coreSeg ids c (k1 + k2) = coreSeg ids c k1 ++ coreSeg ids (c + k1) k2
  | 0, c, k2 => by simp [coreSeg_zero]
  | k1 + 1, c, k2 => by
    rw [show k1 + 1 + k2 = (k1 + k2) + 1 by omega, coreSeg_succ, coreSeg_succ,
      coreSeg_append ids k1 (c + 1) k2, show c + 1 + k1 = c + (k1 + 1) by omega]
    rfl

theorem coreSeg_subset (ids : List Nat) (c k : Nat) (hck : c + k ≤ ids.length) :
    ∀ x ∈ coreSeg ids c k, x ∈ ids := by
  intro x hx
  unfold coreSeg at hx
  obtain ⟨t, ht, rfl⟩ := List.mem_map.mp hx
  have htr := List.mem_range'_1.mp ht
  have htl : t < ids.length := by omega
  rw [List.getD_eq_getElem?_getD, List.getElem?_eq_getElem htl, Option.getD_some]
  exact List.getElem_mem htl

theorem coreSeg_length (ids : List Nat) (c k : Nat) : (coreSeg ids c k).length = k := by
  unfold coreSeg
  simp

theorem applyUsedNics_cons (nics : List NodeNic) (u : UsedNic) (us : List UsedNic) :
    applyUsedNics nics (u :: us) =
      applyUsedNics
        (nics.set u.1
          (match u.2.2 with
           | NICCoreDirection.dirRx =>
               { nics.getD u.1 dummyNic with
                 rx_used := (nics.getD u.1 dummyNic).rx_used + u.2.1 }
           | _ =>
               { nics.getD u.1 dummyNic with
                 tx_used := (nics.getD u.1 dummyNic).tx_used + u.2.1 })) us := rfl

theorem applyUsedNics_append (nics : List NodeNic) (us vs : List UsedNic) :
    applyUsedNics nics (us ++ vs) = applyUsedNics (applyUsedNics nics us) vs := by
  unfold applyUsedNics
  rw [List.foldl_append]

theorem applyUsedNics_length :
    ∀ (us : List UsedNic) (nics : List NodeNic),
      (applyUsedNics nics us).length = nics.length
  | [], nics => rfl
  | u :: us, nics => by
    rw [applyUsedNics_cons, applyUsedNics_length us]
    simp

theorem usedNicsDirSum_cons (u : UsedNic) (us : List UsedNic) (k : Nat)
    (d : NICCoreDirection) :
    usedNicsDirSum (u :: us) k d =
      (if u.1 = k ∧ u.2.2 = d then u.2.1 else 0) + usedNicsDirSum us k d := by
  unfold usedNicsDirSum
  rw [List.filter_cons]
  by_cases h : u.1 = k ∧ u.2.2 = d
  · rw [if_pos (by simp [h.1, h.2]), if_pos h]
    simp
  · have hb : ¬((u.1 == k && u.2.2 == d) = true) := by
      simp only [Bool.and_eq_true, beq_iff_eq]
      exact h
    rw [if_neg hb, if_neg h]
    simp

theorem applyUsedNics_getD :
    ∀ (us : List UsedNic) (nics : List NodeNic) (k : Nat), k < nics.length →
      (∀ u ∈ us, u.2.2 ≠ NICCoreDirection.dirNone) →
      (applyUsedNics nics us).getD k dummyNic =
        { nics.getD k dummyNic with
          rx_used := (nics.getD k dummyNic).rx_used +
            usedNicsDirSum us k NICCoreDirection.dirRx,
          tx_used := (nics.getD k dummyNic).tx_used +
            usedNicsDirSum us k NICCoreDirection.dirTx }
  | [], nics, k, hk, hd => by
    show nics.getD k dummyNic = _
    simp [usedNicsDirSum]
  | ⟨ui, ubw, udir⟩ :: us, nics, k, hk, hd => by
    have hdus : ∀ u ∈ us, u.2.2 ≠ NICCoreDirection.dirNone :=
      fun u hu => hd u (List.mem_cons_of_mem _ hu)
    cases udir with
    | dirNone => exact absurd rfl (hd ⟨ui, ubw, NICCoreDirection.dirNone⟩ (List.mem_cons_self _ _))
    | dirRx =>
      rw [applyUsedNics_cons]
      have ih := applyUsedNics_getD us
        (nics.set ui { nics.getD ui dummyNic with
          rx_used := (nics.getD ui dummyNic).rx_used + ubw }) k (by simpa using hk) hdus
      dsimp only
      rw [ih, getD_set, usedNicsDirSum_cons, usedNicsDirSum_cons]
      by_cases huk : ui = k
      · subst huk
        rw [if_pos ⟨rfl, hk⟩, if_pos ⟨rfl, rfl⟩, if_neg (by simp)]
        dsimp only
        simp only [NodeNic.mk.injEq, true_and, and_true]
        exact ⟨add_assoc _ _ _, by rw [zero_add]⟩
      · rw [if_neg (fun hc => huk hc.1), if_neg (fun hc => huk hc.1),
          if_neg (fun hc => huk hc.1)]
        rw [zero_add, zero_add]
    | dirTx =>
      rw [applyUsedNics_cons]
      have ih := applyUsedNics_getD us
        (nics.set ui { nics.getD ui dummyNic with
          tx_used := (nics.getD ui dummyNic).tx_used + ubw }) k (by simpa using hk) hdus
      dsimp only
      rw [ih, getD_set, usedNicsDirSum_cons, usedNicsDirSum_cons]
      by_cases huk : ui = k
      · subst huk
        rw [if_pos ⟨rfl, hk⟩, if_neg (by simp), if_pos ⟨rfl, rfl⟩]
        dsimp only
        simp only [NodeNic.mk.injEq, true_and, and_true]
        exact ⟨by rw [zero_add], add_assoc _ _ _⟩
      · rw [if_neg (fun hc => huk hc.1), if_neg (fun hc => huk hc.1),
          if_neg (fun hc => huk hc.1)]
        rw [zero_add, zero_add]

theorem applyUsedNics_shape :
    ∀ (us : List UsedNic) (nics : List NodeNic) (j : Nat),
      ((applyUsedNics nics us).getD j dummyNic).mac = (nics.getD j dummyNic).mac ∧
      ((applyUsedNics nics us).getD j dummyNic).ifname = (nics.getD j dummyNic).ifname
  | [], nics, j => ⟨rfl, rfl⟩
  | ⟨ui, ubw, udir⟩ :: us, nics, j => by
    rw [applyUsedNics_cons]
    dsimp only
    cases udir <;>
      · refine ⟨(applyUsedNics_shape us _ j).1.trans ?_,
          (applyUsedNics_shape us _ j).2.trans ?_⟩ <;>
          · rw [getD_set]
            by_cases huj : ui = j ∧ ui < nics.length
            · rw [if_pos huj, ← huj.1]
            · rw [if_neg huj]

theorem list_eq_of_getD_eq {l₁ l₂ : List α} (d : α) (hl : l₁.length = l₂.length)
    (h : ∀ j, j < l₂.length → l₁.getD j d = l₂.getD j d) : l₁ = l₂ := by
  apply List.ext_getElem hl
  intro i h1 h2
  have hi := h i h2
  rw [List.getD_eq_getElem?_getD, List.getD_eq_getElem?_getD,
    List.getElem?_eq_getElem h1, List.getElem?_eq_getElem h2] at hi
  simpa using hi

theorem core_mark_unmark (x : NodeCore) (b : Bool) (h : x.used = b) :
    ({ ({ x with used := !b } : NodeCore) with used := b } : NodeCore) = x := by
  cases x
  exact congrArg (NodeCore.mk _ _ _) h.symm

theorem gpu_mark_unmark (x : NodeGpu) (b : Bool) (h : x.used = b) :
    ({ ({ x with used := !b } : NodeGpu) with used := b } : NodeGpu) = x := by
  cases x
  exact congrArg (NodeGpu.mk _ _) h.symm

theorem firstIdx?_self_of_nodup {f : α → Nat} (d : α) :
    ∀ (l : List α) (j : Nat), (l.map f).Nodup → j < l.length →
      firstIdx? (fun x => f x == f (l.getD j d)) l = some j
  | [], j, hnd, hj => absurd hj (by simp)
  | a :: t, 0, hnd, hj => by
    rw [firstIdx?, if_pos (by simp [List.getD_cons_zero])]
  | a :: t, j + 1, hnd, hj => by
    have hnd' := hnd
    rw [List.map_cons, List.nodup_cons] at hnd'
    have hjt : j < t.length := by simpa using hj
    have hmem : f (t.getD j d) ∈ t.map f := by
      rw [List.getD_eq_getElem?_getD, List.getElem?_eq_getElem hjt, Option.getD_some]
      exact List.mem_map_of_mem f (List.getElem_mem hjt)
    have hne : ¬(f a == f ((a :: t).getD (j + 1) d)) = true := by
      rw [List.getD_cons_succ]
      simp only [beq_iff_eq]
      intro hfa
      exact hnd'.1 (hfa ▸ hmem)
    rw [firstIdx?, if_neg hne]
    have := firstIdx?_self_of_nodup d t j hnd'.2 hjt
    rw [List.getD_cons_succ, this]
    rfl

theorem getGPU_self_of_nodup (nd : Node) (hgid : GpuIdsNodup nd) (j : Nat)
    (hj : j < nd.gpus.length) :
    GetGPU nd (gpuAt nd j).device_id = some j := by
  unfold GetGPU gpuAt
  exact firstIdx?_self_of_nodup dummyGpu nd.gpus j hgid hj

theorem getGPU_congr (a b : Node) (d : Nat)
    (hlen : b.gpus.length = a.gpus.length)
    (hdev : ∀ j, (gpuAt b j).device_id = (gpuAt a j).device_id) :
    GetGPU b d = GetGPU a d := by
  unfold GetGPU
  refine firstIdx?_congr hlen (fun j hj d₁ d₂ => ?_)
  have hj' : j < a.gpus.length := hlen ▸ hj
  rw [getD_lt_irrel b.gpus j hj d₁ dummyGpu, getD_lt_irrel a.gpus j hj' d₂ dummyGpu]
  have := hdev j
  unfold gpuAt at this
  rw [this]

theorem gpuRelease_nil (base a : Node) : GpuRelease [] base a a :=
  ⟨rfl, fun j => by rw [if_neg (by simp)]⟩

theorem gpuRelease_trans {ds ds' : List Nat} {base a c e : Node}
    (h1 : GpuRelease ds base a c) (h2 : GpuRelease ds' base c e) :
    GpuRelease (ds ++ ds') base a e := by
  rcases h1 with ⟨hl1, hp1⟩
  rcases h2 with ⟨hl2, hp2⟩
  refine ⟨hl2.trans hl1, fun j => ?_⟩
  rw [hp2 j, hp1 j]
  by_cases hT : ∃ d ∈ ds', GetGPU base d = some j
  · have hST : ∃ d ∈ ds ++ ds', GetGPU base d = some j := by
      obtain ⟨d, hd, hgd⟩ := hT
      exact ⟨d, List.mem_append.mpr (Or.inr hd), hgd⟩
    rw [if_pos hT, if_pos hST]
    by_cases hS : ∃ d ∈ ds, GetGPU base d = some j
    · rw [if_pos hS]
    · rw [if_neg hS]
  · rw [if_neg hT]
    by_cases hS : ∃ d ∈ ds, GetGPU base d = some j
    · have hST : ∃ d ∈ ds ++ ds', GetGPU base d = some j := by
        obtain ⟨d, hd, hgd⟩ := hS
        exact ⟨d, List.mem_append.mpr (Or.inl hd), hgd⟩
      rw [if_pos hS, if_pos hST]
    · have hST : ¬∃ d ∈ ds ++ ds', GetGPU base d = some j := by
        rintro ⟨d, hd, hgd⟩
        exact (List.mem_append.mp hd).elim (fun h => hS ⟨d, h, hgd⟩)
          (fun h => hT ⟨d, h, hgd⟩)
      rw [if_neg hS, if_neg hST]

theorem gpuRelease_left_congr {ds : List Nat} {base a a' c : Node}
    (h : a'.gpus = a.gpus) (hm : GpuRelease ds base a' c) : GpuRelease ds base a c := by
  rcases hm with ⟨hl, hp⟩
  refine ⟨by rw [hl, h], fun j => ?_⟩
  have hj := hp j
  rw [show gpuAt a' j = gpuAt a j by unfold gpuAt; rw [h]] at hj
  exact hj

theorem gpuRelease_target_congr {ds : List Nat} {base a c c' : Node}
    (h : c'.gpus = c.gpus) (hm : GpuRelease ds base a c) : GpuRelease ds base a c' := by
  rcases hm with ⟨hl, hp⟩
  refine ⟨by rw [h, hl], fun j => ?_⟩
  rw [show gpuAt c' j = gpuAt c j by unfold gpuAt; rw [h]]
  exact hp j

theorem assignTopCores_spec (ids : List Nat) :
    ∀ (cs : List TopCore) (cidx : Nat) (nd : Node),
      (assignTopCores ids cs cidx nd).2.1 = cidx + cs.length ∧
      (assignTopCores ids cs cidx nd).1.map (fun c => c.core) = coreSeg ids cidx cs.length ∧
      CoreMarkB true (coreSeg ids cidx cs.length) nd (assignTopCores ids cs cidx nd).2.2 ∧
      (assignTopCores ids cs cidx nd).2.2.gpus = nd.gpus ∧
      (assignTopCores ids cs cidx nd).2.2.nics = nd.nics ∧
      (assignTopCores ids cs cidx nd).2.2.mem = nd.mem ∧
      (assignTopCores ids cs cidx nd).2.2.pods_scheduled = nd.pods_scheduled ∧
      (assignTopCores ids cs cidx nd).2.2.sriov_en = nd.sriov_en
  | [], cidx, nd => by
    refine ⟨by simp [assignTopCores], by simp [assignTopCores, coreSeg_zero], ?_,
      rfl, rfl, rfl, rfl, rfl⟩
    rw [List.length_nil, coreSeg_zero]
    exact coreMarkB_nil true nd
  | c :: cs, cidx, nd => by
    have ih := assignTopCores_spec ids cs (cidx + 1) (setCoreUsed nd (ids.getD cidx 0) true)
    rcases h : assignTopCores ids cs (cidx + 1) (setCoreUsed nd (ids.getD cidx 0) true)
      with ⟨cs', cidx', nd2⟩
    rw [h] at ih
    dsimp only at ih
    simp only [assignTopCores, h, List.length_cons, List.map_cons]
    refine ⟨by rw [ih.1]; omega, ?_, ?_, ih.2.2.2.1, ih.2.2.2.2.1,
      ih.2.2.2.2.2.1, ih.2.2.2.2.2.2.1, ih.2.2.2.2.2.2.2⟩
    · rw [coreSeg_succ, ih.2.1]
    · rw [coreSeg_succ]
      exact coreMarkB_trans (coreMarkB_single nd (ids.getD cidx 0) true) ih.2.2.1

theorem procCoreStep_flag (numa : Nat) (ids : List Nat) (nicEntry : Option (Nat × Nat))
    (sriov : Bool) (c : TopCore) (cidx : Nat) (nd : Node) (prs : List NicPairing)
    (un : List UsedNic) :
    (procCoreStep numa ids nicEntry sriov c cidx nd prs un).1 ≠ PFlag.ret := by
  unfold procCoreStep
  dsimp only
  repeat' split
  all_goals exact fun h => PFlag.noConfusion h

theorem assignGroupGpus_flag (numa : Nat) (ids : List Nat) :
    ∀ (gvs : List TopGpu) (cidx : Nat) (nd : Node) (ug : List Nat),
      (assignGroupGpus numa ids gvs cidx nd ug).1 ≠ PFlag.ret
  | [], cidx, nd, ug => fun h => PFlag.noConfusion h
  | gv :: gvs, cidx, nd, ug => by
    simp only [assignGroupGpus]
    cases hg : GetNextGpuFreeIdx nd numa with
    | none => exact fun h => PFlag.noConfusion h
    | some gi =>
      rcases h1 : assignTopCores ids gv.cpu_cores cidx (setGpuUsed nd gi true)
        with ⟨ccs, cidx1, nd2⟩
      rcases h2 : assignGroupGpus numa ids gvs cidx1 nd2 (ug ++ [(gpuAt nd gi).device_id])
        with ⟨fl, gvs', cidx2, nd3, ug2⟩
      have ih := assignGroupGpus_flag numa ids gvs cidx1 nd2 (ug ++ [(gpuAt nd gi).device_id])
      rw [h2] at ih
      simp only [h1, h2]
      exact ih

theorem assignProcCores_flag (numa : Nat) (ids : List Nat)
    (nicEntry : Option (Nat × Nat)) (sriov : Bool) :
    ∀ (cs : List TopCore) (cidx : Nat) (nd : Node) (prs : List NicPairing)
      (un : List UsedNic),
      (assignProcCores numa ids nicEntry sriov cs cidx nd prs un).1 ≠ PFlag.ret
  | [], cidx, nd, prs, un => fun h => PFlag.noConfusion h
  | c :: cs, cidx, nd, prs, un => by
    have hstep := procCoreStep_flag numa ids nicEntry sriov c cidx nd prs un
    rcases h : procCoreStep numa ids nicEntry sriov c cidx nd prs un
      with ⟨fl, c1, nd1, prs1, un1⟩
    rw [h] at hstep
    cases fl with
    | ok =>
      have ih := assignProcCores_flag numa ids nicEntry sriov cs (cidx + 1) nd1 prs1 un1
      rcases h2 : assignProcCores numa ids nicEntry sriov cs (cidx + 1) nd1 prs1 un1
        with ⟨fl2, cs', cidx2, nd2, prs2, un2⟩
      rw [h2] at ih
      simp only [assignProcCores, h, h2]
      exact ih
    | exc =>
      simp only [assignProcCores, h]
      exact fun h2 => PFlag.noConfusion h2
    | ret => exact absurd rfl hstep

theorem assignGroupGpus_spec (numa : Nat) (ids : List Nat) :
    ∀ (gvs : List TopGpu) (cidx : Nat) (nd : Node) (ug : List Nat),
      (assignGroupGpus numa ids gvs cidx nd ug).1 = PFlag.ok →
      (assignGroupGpus numa ids gvs cidx nd ug).2.2.1 =
        cidx + (gvs.map (fun g => g.cpu_cores.length)).sum ∧
      ((assignGroupGpus numa ids gvs cidx nd ug).2.1.map
          (fun g => g.cpu_cores.map (fun c => c.core))).flatten =
        coreSeg ids cidx (gvs.map (fun g => g.cpu_cores.length)).sum ∧
      CoreMarkB true (coreSeg ids cidx (gvs.map (fun g => g.cpu_cores.length)).sum) nd
        (assignGroupGpus numa ids gvs cidx nd ug).2.2.2.1 ∧
      (∃ G : List Nat, G.Nodup ∧
        (∀ i ∈ G, i < nd.gpus.length ∧ (gpuAt nd i).used = false) ∧
        GpuMark G nd (assignGroupGpus numa ids gvs cidx nd ug).2.2.2.1 ∧
        (assignGroupGpus numa ids gvs cidx nd ug).2.1.map (fun g => g.device_id) =
          G.map (fun i => (gpuAt nd i).device_id)) ∧
      (assignGroupGpus numa ids gvs cidx nd ug).2.2.2.1.nics = nd.nics ∧
      (assignGroupGpus numa ids gvs cidx nd ug).2.2.2.1.mem = nd.mem ∧
      (assignGroupGpus numa ids gvs cidx nd ug).2.2.2.1.pods_scheduled = nd.pods_scheduled ∧
      (assignGroupGpus numa ids gvs cidx nd ug).2.2.2.1.sriov_en = nd.sriov_en
  | [], cidx, nd, ug => fun _ => by
    refine ⟨by simp [assignGroupGpus], by simp [assignGroupGpus, coreSeg_zero], ?_,
      ⟨[], List.nodup_nil, by simp, gpuMark_nil nd, by simp [assignGroupGpus]⟩,
      rfl, rfl, rfl, rfl⟩
    rw [List.map_nil, List.sum_nil, coreSeg_zero]
    exact coreMarkB_nil true nd
  | gv :: gvs, cidx, nd, ug => by
    intro hok
    cases hg : GetNextGpuFreeIdx nd numa with
    | none =>
      simp only [assignGroupGpus, hg] at hok
      exact absurd hok (by exact fun h => PFlag.noConfusion h)
    | some gi =>
      have hg' : firstIdx? (fun g => g.numa_node == numa && !g.used) nd.gpus = some gi := hg
      have hgs := firstIdx?_some_spec dummyGpu hg'
      have hgilt : gi < nd.gpus.length := hgs.1
      have hgiu : (gpuAt nd gi).used = false := by
        have hb := hgs.2.1
        simp only [Bool.and_eq_true, Bool.not_eq_true'] at hb
        exact hb.2
      rcases h1 : assignTopCores ids gv.cpu_cores cidx (setGpuUsed nd gi true)
        with ⟨ccs, cidx1, nd2⟩
      have hts := assignTopCores_spec ids gv.cpu_cores cidx (setGpuUsed nd gi true)
      rw [h1] at hts
      dsimp only at hts
      rcases h2 : assignGroupGpus numa ids gvs cidx1 nd2 (ug ++ [(gpuAt nd gi).device_id])
        with ⟨fl, gvs', cidx2, nd3, ug2⟩
      simp only [assignGroupGpus, hg, h1, h2] at hok
      have ih := assignGroupGpus_spec numa ids gvs cidx1 nd2
        (ug ++ [(gpuAt nd gi).device_id]) (by rw [h2]; exact hok)
      rw [h2] at ih
      dsimp only at ih
      rw [hts.1] at ih
      have hglen : nd2.gpus.length = nd.gpus.length := by
        rw [hts.2.2.2.1]
        simp [setGpuUsed]
      have hgpt : ∀ i, gpuAt nd2 i =
          if gi = i ∧ gi < nd.gpus.length then { gpuAt nd gi with used := true }
          else gpuAt nd i := by
        intro i
        rw [show gpuAt nd2 i = gpuAt (setGpuUsed nd gi true) i by
          unfold gpuAt; rw [hts.2.2.2.1]]
        exact gpuAt_setGpuUsed nd gi true i
      obtain ⟨G, hGnd, hGfresh, hGmark, hGdev⟩ := ih.2.2.2.1
      have hGne : ∀ i ∈ G, i ≠ gi ∧ i < nd.gpus.length ∧ (gpuAt nd i).used = false := by
        intro i hi
        have hf := hGfresh i hi
        have hlt : i < nd.gpus.length := hglen ▸ hf.1
        have hval := hgpt i
        by_cases hgi : gi = i
        · rw [if_pos ⟨hgi, hgilt⟩] at hval
          rw [hval] at hf
          exact absurd hf.2 (by simp)
        · rw [if_neg (fun hc => hgi hc.1)] at hval
          exact ⟨fun he => hgi he.symm, hlt, hval ▸ hf.2⟩
      simp only [assignGroupGpus, hg, h1, h2, List.map_cons, List.sum_cons,
        List.flatten_cons]
      refine ⟨?_, ?_, ?_, ?_, ?_, ?_, ?_, ?_⟩
      · rw [ih.1]
        omega
      · dsimp only
        rw [hts.2.1, ih.2.1, coreSeg_append]
      · rw [coreSeg_append]
        exact coreMarkB_trans (coreMarkB_base_congr rfl hts.2.2.1) ih.2.2.1
      · refine ⟨gi :: G, List.nodup_cons.mpr ⟨fun hmem => (hGne gi hmem).1 rfl, hGnd⟩,
          ?_, ?_, ?_⟩
        · intro i hi
          rcases List.mem_cons.mp hi with rfl | hi
          · exact ⟨hgilt, hgiu⟩
          · exact ⟨(hGne i hi).2.1, (hGne i hi).2.2⟩
        · exact gpuMark_trans (gpuMark_single nd gi)
            (gpuMark_base_congr hts.2.2.2.1 hGmark)
        · dsimp only
          rw [List.map_cons]
          refine congrArg₂ List.cons rfl ?_
          rw [hGdev]
          refine List.map_congr_left (fun i hi => ?_)
          have hval := hgpt i
          rw [if_neg (fun hc => (hGne i hi).1 hc.1.symm)] at hval
          rw [hval]
      · rw [ih.2.2.2.2.1, hts.2.2.2.2.1]
        exact rfl
      · rw [ih.2.2.2.2.2.1, hts.2.2.2.2.2.1]
        exact rfl
      · rw [ih.2.2.2.2.2.2.1, hts.2.2.2.2.2.2.1]
        exact rfl
      · rw [ih.2.2.2.2.2.2.2, hts.2.2.2.2.2.2.2]
        exact rfl

theorem procCoreStep_spec (numa : Nat) (ids : List Nat) (nicEntry : Option (Nat × Nat))
    (sriov : Bool) (c : TopCore) (cidx : Nat) (nd : Node) (prs : List NicPairing)
    (un : List UsedNic) :
    (procCoreStep numa ids nicEntry sriov c cidx nd prs un).1 = PFlag.ok →
    (procCoreStep numa ids nicEntry sriov c cidx nd prs un).2.1.core = ids.getD cidx 0 ∧
    CoreMarkB true [ids.getD cidx 0] nd
      (procCoreStep numa ids nicEntry sriov c cidx nd prs un).2.2.1 ∧
    (∃ du : List UsedNic, (∀ u ∈ du, u.2.2 ≠ NICCoreDirection.dirNone) ∧
      (procCoreStep numa ids nicEntry sriov c cidx nd prs un).2.2.2.2 = un ++ du ∧
      (procCoreStep numa ids nicEntry sriov c cidx nd prs un).2.2.1.nics =
        applyUsedNics nd.nics du) ∧
    (procCoreStep numa ids nicEntry sriov c cidx nd prs un).2.2.1.gpus = nd.gpus ∧
    (procCoreStep numa ids nicEntry sriov c cidx nd prs un).2.2.1.mem = nd.mem ∧
    (procCoreStep numa ids nicEntry sriov c cidx nd prs un).2.2.1.pods_scheduled =
      nd.pods_scheduled ∧
    (procCoreStep numa ids nicEntry sriov c cidx nd prs un).2.2.1.sriov_en = nd.sriov_en := by
  unfold procCoreStep
  dsimp only
  cases hdc : c.nic_dir with
  | dirNone =>
    rw [if_neg (by simp)]
    intro _
    exact ⟨rfl, coreMarkB_target_congr rfl (coreMarkB_single nd _ true),
      ⟨[], by simp, by simp, rfl⟩, rfl, rfl, rfl, rfl⟩
  | dirRx =>
    rw [if_pos (Or.inl rfl)]
    cases nicEntry with
    | none =>
      dsimp only
      intro hok
      exact absurd hok (fun h => PFlag.noConfusion h)
    | some nent =>
      dsimp only
      cases hfi : firstIdx? (fun nic => nent.2 == nic.idx && nic.numa_node == numa)
          (setCoreUsed nd (ids.getD cidx 0) true).nics with
      | none =>
        dsimp only
        intro hok
        exact absurd hok (fun h => PFlag.noConfusion h)
      | some idx =>
        dsimp only
        rw [if_pos rfl]
        cases hgn : GetNICGroup prs { name := c.name, core := ids.getD cidx 0, nic_dir := NICCoreDirection.dirRx, nic_speed := c.nic_speed } with
        | none =>
          try dsimp only
          intro hok
          exact absurd hok (fun h => PFlag.noConfusion h)
        | some pgi =>
          try dsimp only
          intro _
          exact ⟨rfl, coreMarkB_target_congr rfl (coreMarkB_single nd _ true),
            ⟨[(idx, c.nic_speed, NICCoreDirection.dirRx)], by simp, rfl, rfl⟩,
            rfl, rfl, rfl, rfl⟩
  | dirTx =>
    rw [if_pos (Or.inr rfl)]
    cases nicEntry with
    | none =>
      dsimp only
      intro hok
      exact absurd hok (fun h => PFlag.noConfusion h)
    | some nent =>
      dsimp only
      cases hfi : firstIdx? (fun nic => nent.2 == nic.idx && nic.numa_node == numa)
          (setCoreUsed nd (ids.getD cidx 0) true).nics with
      | none =>
        dsimp only
        intro hok
        exact absurd hok (fun h => PFlag.noConfusion h)
      | some idx =>
        dsimp only
        rw [if_neg (fun h => NICCoreDirection.noConfusion h)]
        cases hgn : GetNICGroup prs { name := c.name, core := ids.getD cidx 0, nic_dir := NICCoreDirection.dirTx, nic_speed := c.nic_speed } with
        | none =>
          try dsimp only
          intro hok
          exact absurd hok (fun h => PFlag.noConfusion h)
        | some pgi =>
          try dsimp only
          intro _
          exact ⟨rfl, coreMarkB_target_congr rfl (coreMarkB_single nd _ true),
            ⟨[(idx, c.nic_speed, NICCoreDirection.dirTx)], by simp, rfl, rfl⟩,
            rfl, rfl, rfl, rfl⟩

theorem assignProcCores_spec (numa : Nat) (ids : List Nat)
    (nicEntry : Option (Nat × Nat)) (sriov : Bool) :
    ∀ (cs : List TopCore) (cidx : Nat) (nd : Node) (prs : List NicPairing)
      (un : List UsedNic),
      (assignProcCores numa ids nicEntry sriov cs cidx nd prs un).1 = PFlag.ok →
      (assignProcCores numa ids nicEntry sriov cs cidx nd prs un).2.2.1 =
        cidx + cs.length ∧
      (assignProcCores numa ids nicEntry sriov cs cidx nd prs un).2.1.map
        (fun c => c.core) = coreSeg ids cidx cs.length ∧
      CoreMarkB true (coreSeg ids cidx cs.length) nd
        (assignProcCores numa ids nicEntry sriov cs cidx nd prs un).2.2.2.1 ∧
      (∃ du : List UsedNic, (∀ u ∈ du, u.2.2 ≠ NICCoreDirection.dirNone) ∧
        (assignProcCores numa ids nicEntry sriov cs cidx nd prs un).2.2.2.2.2 =
          un ++ du ∧
        (assignProcCores numa ids nicEntry sriov cs cidx nd prs un).2.2.2.1.nics =
          applyUsedNics nd.nics du) ∧
      (assignProcCores numa ids nicEntry sriov cs cidx nd prs un).2.2.2.1.gpus = nd.gpus ∧
      (assignProcCores numa ids nicEntry sriov cs cidx nd prs un).2.2.2.1.mem = nd.mem ∧
      (assignProcCores numa ids nicEntry sriov cs cidx nd prs un).2.2.2.1.pods_scheduled =
        nd.pods_scheduled ∧
      (assignProcCores numa ids nicEntry sriov cs cidx nd prs un).2.2.2.1.sriov_en =
        nd.sriov_en
  | [], cidx, nd, prs, un => fun _ => by
    refine ⟨by simp [assignProcCores], by simp [assignProcCores, coreSeg_zero], ?_,
      ⟨[], by simp, by simp [assignProcCores], rfl⟩, rfl, rfl, rfl, rfl⟩
    rw [List.length_nil, coreSeg_zero]
    exact coreMarkB_nil true nd
  | c :: cs, cidx, nd, prs, un => by
    intro hok
    rcases h : procCoreStep numa ids nicEntry sriov c cidx nd prs un
      with ⟨fl, c1, nd1, prs1, un1⟩
    cases fl with
    | exc =>
      simp only [assignProcCores, h] at hok
      exact absurd hok (fun x => PFlag.noConfusion x)
    | ret =>
      have hfl := procCoreStep_flag numa ids nicEntry sriov c cidx nd prs un
      rw [h] at hfl
      exact absurd rfl hfl
    | ok =>
      have hstep := procCoreStep_spec numa ids nicEntry sriov c cidx nd prs un (by rw [h])
      rw [h] at hstep
      dsimp only at hstep
      rcases h2 : assignProcCores numa ids nicEntry sriov cs (cidx + 1) nd1 prs1 un1
        with ⟨fl2, cs', cidx2, nd2, prs2, un2⟩
      simp only [assignProcCores, h, h2] at hok
      have ih := assignProcCores_spec numa ids nicEntry sriov cs (cidx + 1) nd1 prs1 un1
        (by rw [h2]; exact hok)
      rw [h2] at ih
      dsimp only at ih
      simp only [assignProcCores, h, h2, List.length_cons, List.map_cons]
      obtain ⟨du1, hdu1d, hdu1un, hdu1n⟩ := hstep.2.2.1
      obtain ⟨du2, hdu2d, hdu2un, hdu2n⟩ := ih.2.2.2.1
      refine ⟨by rw [ih.1]; omega, ?_, ?_, ?_, ?_, ?_, ?_, ?_⟩
      · rw [coreSeg_succ, hstep.1, ih.2.1]
      · rw [coreSeg_succ]
        exact coreMarkB_trans hstep.2.1 ih.2.2.1
      · refine ⟨du1 ++ du2, ?_, ?_, ?_⟩
        · intro u hu
          rcases List.mem_append.mp hu with h' | h'
          exacts [hdu1d u h', hdu2d u h']
        · rw [hdu2un, hdu1un, List.append_assoc]
        · rw [hdu2n, hdu1n, applyUsedNics_append]
      · rw [ih.2.2.2.2.1, hstep.2.2.2.1]
      · rw [ih.2.2.2.2.2.1, hstep.2.2.2.2.1]
      · rw [ih.2.2.2.2.2.2.1, hstep.2.2.2.2.2.1]
      · rw [ih.2.2.2.2.2.2.2, hstep.2.2.2.2.2.2]

theorem coreMarkB_mem_congr {b : Bool} {S T : List Nat} {a c : Node}
    (hmem : ∀ j, j ∈ S ↔ j ∈ T) (hm : CoreMarkB b S a c) : CoreMarkB b T a c := by
  rcases hm with ⟨hl, hp⟩
  refine ⟨hl, fun j => ?_⟩
  rw [hp j]
  by_cases hj : j ∈ T ∧ j < a.cores.length
  · rw [if_pos hj, if_pos ⟨(hmem j).mpr hj.1, hj.2⟩]
  · rw [if_neg hj, if_neg (fun hc => hj ⟨(hmem j).mp hc.1, hc.2⟩)]

theorem processGroup_spec (dv : Int) (gpuNuma : Option Nat) (nicEntry : Option (Nat × Nat))
    (sriov : Bool) (pg : ProcGroup) (st : PState) (hwf : CoresWF st.node) :
    (processGroup dv gpuNuma nicEntry sriov pg st).1 = PFlag.ok →
    CoreMarkB true (groupCoreIds (processGroup dv gpuNuma nicEntry sriov pg st).2.1)
      st.node (processGroup dv gpuNuma nicEntry sriov pg st).2.2.node ∧
    (∀ j ∈ groupCoreIds (processGroup dv gpuNuma nicEntry sriov pg st).2.1,
      j < st.node.cores.length ∧ (coreAt st.node j).used = false) ∧
    (∃ G : List Nat, G.Nodup ∧
      (∀ i ∈ G, i < st.node.gpus.length ∧ (gpuAt st.node i).used = false) ∧
      GpuMark G st.node (processGroup dv gpuNuma nicEntry sriov pg st).2.2.node ∧
      (processGroup dv gpuNuma nicEntry sriov pg st).2.1.group_gpus.map
        (fun g => g.device_id) = G.map (fun i => (gpuAt st.node i).device_id)) ∧
    (∃ du : List UsedNic, (∀ u ∈ du, u.2.2 ≠ NICCoreDirection.dirNone) ∧
      (processGroup dv gpuNuma nicEntry sriov pg st).2.2.used_nics = st.used_nics ++ du ∧
      (processGroup dv gpuNuma nicEntry sriov pg st).2.2.node.nics =
        applyUsedNics st.node.nics du) ∧
    (processGroup dv gpuNuma nicEntry sriov pg st).2.2.node.mem = st.node.mem ∧
    (processGroup dv gpuNuma nicEntry sriov pg st).2.2.node.pods_scheduled =
      st.node.pods_scheduled ∧
    (processGroup dv gpuNuma nicEntry sriov pg st).2.2.node.sriov_en = st.node.sriov_en := by
  unfold processGroup
  cases gpuNuma with
  | none =>
    intro hok
    exact absurd hok (fun x => PFlag.noConfusion x)
  | some numa =>
    dsimp only
    by_cases hb1 : (GetFreeCpuBatch st.node numa
        (pg.proc_cores.length + (pg.group_gpus.map (fun g => g.cpu_cores.length)).sum)
        pg.proc_smt).length ≠
        pg.proc_cores.length + (pg.group_gpus.map (fun g => g.cpu_cores.length)).sum
    · rw [if_pos hb1]
      intro hok
      exact absurd hok (fun x => PFlag.noConfusion x)
    rw [if_neg hb1]
    rcases hr1 : assignGroupGpus numa
        (GetFreeCpuBatch st.node numa
          (pg.proc_cores.length + (pg.group_gpus.map (fun g => g.cpu_cores.length)).sum)
          pg.proc_smt) pg.group_gpus 0 st.node st.used_gpus
      with ⟨f1, gvs1, cidx1, ndA, ugA⟩
    dsimp only
    cases f1 with
    | exc =>
      intro hok
      exact absurd hok (fun x => PFlag.noConfusion x)
    | ret =>
      have hfl := assignGroupGpus_flag numa
        (GetFreeCpuBatch st.node numa
          (pg.proc_cores.length + (pg.group_gpus.map (fun g => g.cpu_cores.length)).sum)
          pg.proc_smt) pg.group_gpus 0 st.node st.used_gpus
      rw [hr1] at hfl
      exact absurd rfl hfl
    | ok =>
      rcases hr2 : assignProcCores numa
          (GetFreeCpuBatch st.node numa
            (pg.proc_cores.length + (pg.group_gpus.map (fun g => g.cpu_cores.length)).sum)
            pg.proc_smt) nicEntry sriov pg.proc_cores cidx1 ndA st.pairs st.used_nics
        with ⟨f2, pcs2, cidx2, ndB, prsB, unB⟩
      dsimp only
      cases f2 with
      | exc =>
        intro hok
        exact absurd hok (fun x => PFlag.noConfusion x)
      | ret =>
        have hfl := assignProcCores_flag numa
          (GetFreeCpuBatch st.node numa
            (pg.proc_cores.length + (pg.group_gpus.map (fun g => g.cpu_cores.length)).sum)
            pg.proc_smt) nicEntry sriov pg.proc_cores cidx1 ndA st.pairs st.used_nics
        rw [hr2] at hfl
        exact absurd rfl hfl
      | ok =>
        by_cases hb2 : cidx2 ≠ (GetFreeCpuBatch st.node numa
            (pg.proc_cores.length + (pg.group_gpus.map (fun g => g.cpu_cores.length)).sum)
            pg.proc_smt).length
        · rw [if_pos hb2]
          intro hok
          exact absurd hok (fun x => PFlag.noConfusion x)
        rw [if_neg hb2]
        dsimp only
        by_cases hb3 : pg.misc_cores.length ≠
            (GetFreeCpuBatch ndB numa pg.misc_cores.length pg.helper_smt).length
        · rw [if_pos hb3]
          intro hok
          exact absurd hok (fun x => PFlag.noConfusion x)
        rw [if_neg hb3]
        rcases hr3 : assignTopCores
            (GetFreeCpuBatch ndB numa pg.misc_cores.length pg.helper_smt)
            pg.misc_cores 0 ndB
          with ⟨mcs3, cidx3, ndC⟩
        dsimp only
        by_cases hb4 : cidx3 ≠
            (GetFreeCpuBatch ndB numa pg.misc_cores.length pg.helper_smt).length
        · rw [if_pos hb4]
          intro hok
          exact absurd hok (fun x => PFlag.noConfusion x)
        rw [if_neg hb4]
        intro _
        push_neg at hb1 hb2 hb3 hb4
        have hggs := assignGroupGpus_spec numa
          (GetFreeCpuBatch st.node numa
            (pg.proc_cores.length + (pg.group_gpus.map (fun g => g.cpu_cores.length)).sum)
            pg.proc_smt) pg.group_gpus 0 st.node st.used_gpus (by rw [hr1])
        rw [hr1] at hggs
        dsimp only at hggs
        rw [zero_add] at hggs
        have hpcs := assignProcCores_spec numa
          (GetFreeCpuBatch st.node numa
            (pg.proc_cores.length + (pg.group_gpus.map (fun g => g.cpu_cores.length)).sum)
            pg.proc_smt) nicEntry sriov pg.proc_cores cidx1 ndA st.pairs st.used_nics
          (by rw [hr2])
        rw [hr2] at hpcs
        dsimp only at hpcs
        have hts3 := assignTopCores_spec
          (GetFreeCpuBatch ndB numa pg.misc_cores.length pg.helper_smt) pg.misc_cores 0 ndB
        rw [hr3] at hts3
        dsimp only at hts3
        rw [zero_add] at hts3
        have hbatch : ∀ id ∈ GetFreeCpuBatch st.node numa
            (pg.proc_cores.length + (pg.group_gpus.map (fun g => g.cpu_cores.length)).sum)
            pg.proc_smt,
            id < st.node.cores.length ∧ (coreAt st.node id).used = false :=
          fun id hid =>
            ⟨(getFreeCpuBatchAux_mem st.node numa pg.proc_smt hwf st.node.cores
                (fun _ h => h) _ id hid).1,
             (getFreeCpuBatchAux_mem st.node numa pg.proc_smt hwf st.node.cores
                (fun _ h => h) _ id hid).2.2.1⟩
        have hmarkAB : CoreMarkB true
            (coreSeg (GetFreeCpuBatch st.node numa
              (pg.proc_cores.length + (pg.group_gpus.map (fun g => g.cpu_cores.length)).sum)
              pg.proc_smt) 0
              ((pg.group_gpus.map (fun g => g.cpu_cores.length)).sum) ++
             coreSeg (GetFreeCpuBatch st.node numa
              (pg.proc_cores.length + (pg.group_gpus.map (fun g => g.cpu_cores.length)).sum)
              pg.proc_smt) cidx1 pg.proc_cores.length)
            st.node ndB :=
          coreMarkB_trans hggs.2.2.1 hpcs.2.2.1
        have hwfB : CoresWF ndB := coresWF_of_coreMarkB hmarkAB hwf
        have hlenB : ndB.cores.length = st.node.cores.length := hmarkAB.1
        have hhelp : ∀ id ∈ GetFreeCpuBatch ndB numa pg.misc_cores.length pg.helper_smt,
            id < st.node.cores.length ∧ (coreAt st.node id).used = false := by
          intro id hid
          have hmb := getFreeCpuBatchAux_mem ndB numa pg.helper_smt hwfB ndB.cores
            (fun _ h => h) _ id hid
          refine ⟨hlenB ▸ hmb.1, ?_⟩
          exact coreMarkB_fresh_back hmarkAB id hmb.2.2.1 rfl
        have hsub1 : ∀ x ∈ coreSeg (GetFreeCpuBatch st.node numa
            (pg.proc_cores.length + (pg.group_gpus.map (fun g => g.cpu_cores.length)).sum)
            pg.proc_smt) 0 ((pg.group_gpus.map (fun g => g.cpu_cores.length)).sum),
            x ∈ GetFreeCpuBatch st.node numa
              (pg.proc_cores.length + (pg.group_gpus.map (fun g => g.cpu_cores.length)).sum)
              pg.proc_smt :=
          coreSeg_subset _ 0 _ (by rw [hb1]; omega)
        have hsub2 : ∀ x ∈ coreSeg (GetFreeCpuBatch st.node numa
            (pg.proc_cores.length + (pg.group_gpus.map (fun g => g.cpu_cores.length)).sum)
            pg.proc_smt) cidx1 pg.proc_cores.length,
            x ∈ GetFreeCpuBatch st.node numa
              (pg.proc_cores.length + (pg.group_gpus.map (fun g => g.cpu_cores.length)).sum)
              pg.proc_smt := by
          refine coreSeg_subset _ cidx1 _ ?_
          have h1 := hpcs.1
          omega
        have hsub3 : ∀ x ∈ coreSeg
            (GetFreeCpuBatch ndB numa pg.misc_cores.length pg.helper_smt) 0
            pg.misc_cores.length,
            x ∈ GetFreeCpuBatch ndB numa pg.misc_cores.length pg.helper_smt :=
          coreSeg_subset _ 0 _ (by omega)
        refine ⟨?_, ?_, ?_, ?_, ?_, ?_, ?_⟩
        · apply coreMarkB_mem_congr ?_ (coreMarkB_trans hmarkAB hts3.2.2.1)
          intro j
          unfold groupCoreIds
          dsimp only
          rw [hts3.2.1, hpcs.2.1, hggs.2.1]
          simp only [List.mem_append]
          tauto
        · intro j hj
          unfold groupCoreIds at hj
          dsimp only at hj
          rw [hts3.2.1, hpcs.2.1, hggs.2.1] at hj
          rcases List.mem_append.mp hj with hj' | hj'
          · rcases List.mem_append.mp hj' with hj2 | hj2
            · exact hhelp j (hsub3 j hj2)
            · exact hbatch j (hsub2 j hj2)
          · exact hbatch j (hsub1 j hj')
        · obtain ⟨G, hGnd, hGfresh, hGmark, hGdev⟩ := hggs.2.2.2.1
          refine ⟨G, hGnd, hGfresh, ?_, ?_⟩
          · exact gpuMark_target_congr hts3.2.2.2.1
              (gpuMark_target_congr hpcs.2.2.2.2.1 hGmark)
          · exact hGdev
        · obtain ⟨du, hdud, hduun, hdun⟩ := hpcs.2.2.2.1
          refine ⟨du, hdud, hduun, ?_⟩
          rw [hts3.2.2.2.2.1, hdun, hggs.2.2.2.2.1]
        · rw [hts3.2.2.2.2.2.1, hpcs.2.2.2.2.2.1, hggs.2.2.2.2.2.1]
        · rw [hts3.2.2.2.2.2.2.1, hpcs.2.2.2.2.2.2.1, hggs.2.2.2.2.2.2.1]
        · rw [hts3.2.2.2.2.2.2.2, hpcs.2.2.2.2.2.2.2, hggs.2.2.2.2.2.2.2]

theorem processGroups_spec (dv : Int) (m : Mapping) (sriov : Bool) :
    ∀ (pi : Nat) (pgs : List ProcGroup) (st : PState), CoresWF st.node →
      (processGroups dv m sriov pi pgs st).1 = PFlag.ok →
      CoreMarkB true
        (((processGroups dv m sriov pi pgs st).2.1.map groupCoreIds).flatten)
        st.node (processGroups dv m sriov pi pgs st).2.2.node ∧
      (∀ j ∈ ((processGroups dv m sriov pi pgs st).2.1.map groupCoreIds).flatten,
        j < st.node.cores.length ∧ (coreAt st.node j).used = false) ∧
      (∃ G : List Nat, G.Nodup ∧
        (∀ i ∈ G, i < st.node.gpus.length ∧ (gpuAt st.node i).used = false) ∧
        GpuMark G st.node (processGroups dv m sriov pi pgs st).2.2.node ∧
        ((processGroups dv m sriov pi pgs st).2.1.map
          (fun g2 => g2.group_gpus.map (fun g => g.device_id))).flatten =
          G.map (fun i => (gpuAt st.node i).device_id)) ∧
      (∃ du : List UsedNic, (∀ u ∈ du, u.2.2 ≠ NICCoreDirection.dirNone) ∧
        (processGroups dv m sriov pi pgs st).2.2.used_nics = st.used_nics ++ du ∧
        (processGroups dv m sriov pi pgs st).2.2.node.nics =
          applyUsedNics st.node.nics du) ∧
      (processGroups dv m sriov pi pgs st).2.2.node.mem = st.node.mem ∧
      (processGroups dv m sriov pi pgs st).2.2.node.pods_scheduled =
        st.node.pods_scheduled ∧
      (processGroups dv m sriov pi pgs st).2.2.node.sriov_en = st.node.sriov_en
  | pi, [], st => fun _ _ => by
    refine ⟨coreMarkB_nil true st.node, by intro j hj; simp [processGroups] at hj,
      ⟨[], List.nodup_nil, by simp, gpuMark_nil st.node, by simp [processGroups]⟩,
      ⟨[], by simp, by simp [processGroups], rfl⟩, rfl, rfl, rfl⟩
  | pi, pg :: pgs, st => fun hwf hok => by
    rcases hr : processGroup dv m.gpu[pi]? m.nic[pi]? sriov pg st with ⟨f, pg', st1⟩
    cases f with
    | exc =>
      simp only [processGroups, hr] at hok
      exact absurd hok (fun x => PFlag.noConfusion x)
    | ret =>
      simp only [processGroups, hr] at hok
      exact absurd hok (fun x => PFlag.noConfusion x)
    | ok =>
      rcases hr2 : processGroups dv m sriov (pi + 1) pgs st1 with ⟨f2, pgs2, st2⟩
      simp only [processGroups, hr, hr2] at hok
      have hg := processGroup_spec dv m.gpu[pi]? m.nic[pi]? sriov pg st hwf (by rw [hr])
      rw [hr] at hg
      dsimp only at hg
      have hwf1 : CoresWF st1.node := coresWF_of_coreMarkB hg.1 hwf
      have ih := processGroups_spec dv m sriov (pi + 1) pgs st1 hwf1 (by rw [hr2]; exact hok)
      rw [hr2] at ih
      dsimp only at ih
      simp only [processGroups, hr, hr2, List.map_cons, List.flatten_cons]
      obtain ⟨G1, hG1nd, hG1f, hG1m, hG1d⟩ := hg.2.2.1
      obtain ⟨G2, hG2nd, hG2f, hG2m, hG2d⟩ := ih.2.2.1
      have hfreshG2 : ∀ i ∈ G2, i ∉ G1 ∧ i < st.node.gpus.length ∧
          (gpuAt st.node i).used = false := by
        intro i hi
        have hf := hG2f i hi
        have hlt : i < st.node.gpus.length := hG1m.1 ▸ hf.1
        have hval := hG1m.2 i
        by_cases hiG : i ∈ G1
        · rw [if_pos ⟨hiG, hlt⟩] at hval
          rw [hval] at hf
          exact absurd hf.2 (by simp)
        · rw [if_neg (fun hc => hiG hc.1)] at hval
          exact ⟨hiG, hlt, hval ▸ hf.2⟩
      refine ⟨coreMarkB_trans hg.1 ih.1, ?_, ?_, ?_, ?_, ?_, ?_⟩
      · intro j hj
        rcases List.mem_append.mp hj with hj' | hj'
        · exact hg.2.1 j hj'
        · have hf := ih.2.1 j hj'
          exact ⟨hg.1.1 ▸ hf.1, coreMarkB_fresh_back hg.1 j hf.2 rfl⟩
      · refine ⟨G1 ++ G2, ?_, ?_, gpuMark_trans hG1m hG2m, ?_⟩
        · rw [List.nodup_append]
          exact ⟨hG1nd, hG2nd, fun i hi1 hi2 => (hfreshG2 i hi2).1 hi1⟩
        · intro i hi
          rcases List.mem_append.mp hi with hi' | hi'
          · exact hG1f i hi'
          · exact ⟨(hfreshG2 i hi').2.1, (hfreshG2 i hi').2.2⟩
        · rw [List.map_append, hG1d, hG2d]
          refine congrArg₂ HAppend.hAppend rfl ?_
          refine List.map_congr_left (fun i hi => ?_)
          exact (gpuMark_fields hG1m i).1
      · obtain ⟨du1, hd1, hu1, hn1⟩ := hg.2.2.2.1
        obtain ⟨du2, hd2, hu2, hn2⟩ := ih.2.2.2.1
        refine ⟨du1 ++ du2, ?_, ?_, ?_⟩
        · intro u hu
          rcases List.mem_append.mp hu with h' | h'
          exacts [hd1 u h', hd2 u h']
        · rw [hu2, hu1, List.append_assoc]
        · rw [hn2, hn1, applyUsedNics_append]
      · rw [ih.2.2.2.2.1, hg.2.2.2.2.1]
      · rw [ih.2.2.2.2.2.1, hg.2.2.2.2.2.1]
      · rw [ih.2.2.2.2.2.2, hg.2.2.2.2.2.2]

theorem markTopCores_spec (b : Bool) :
    ∀ (cs : List TopCore) (nd : Node),
      CoreMarkB b (cs.map (fun c => c.core)) nd (markTopCores b cs nd) ∧
      (markTopCores b cs nd).gpus = nd.gpus ∧
      (markTopCores b cs nd).mem = nd.mem ∧
      (markTopCores b cs nd).pods_scheduled = nd.pods_scheduled
  | [], nd => ⟨coreMarkB_nil b nd, rfl, rfl, rfl⟩
  | c :: cs, nd => by
    have ih := markTopCores_spec b cs (setCoreUsed nd c.core b)
    exact ⟨coreMarkB_trans (coreMarkB_single nd c.core b) ih.1, ih.2.1, ih.2.2.1, ih.2.2.2⟩

theorem markTopGpu_spec (base : Node) (nd : Node) (g : TopGpu)
    (hlen : nd.gpus.length = base.gpus.length)
    (hdev : ∀ j, (gpuAt nd j).device_id = (gpuAt base j).device_id) :
    CoreMarkB false (g.cpu_cores.map (fun c => c.core)) nd (markTopGpu false nd g) ∧
    GpuRelease [g.device_id] base nd (markTopGpu false nd g) ∧
    (markTopGpu false nd g).mem = nd.mem ∧
    (markTopGpu false nd g).pods_scheduled = nd.pods_scheduled ∧
    (markTopGpu false nd g).gpus.length = base.gpus.length ∧
    (∀ j, (gpuAt (markTopGpu false nd g) j).device_id = (gpuAt base j).device_id) := by
  have hcongr : GetGPU nd g.device_id = GetGPU base g.device_id :=
    getGPU_congr base nd g.device_id hlen hdev
  unfold markTopGpu
  cases hg : GetGPU nd g.device_id with
  | none =>
    dsimp only
    have hmt := markTopCores_spec false g.cpu_cores nd
    have hneg : ∀ j : Nat, ¬∃ d ∈ [g.device_id], GetGPU base d = some j := by
      rintro j ⟨d, hd, hgd⟩
      rw [List.mem_singleton.mp hd, ← hcongr, hg] at hgd
      cases hgd
    refine ⟨hmt.1, ⟨by rw [hmt.2.1], fun j => ?_⟩, hmt.2.2.1, hmt.2.2.2, ?_, ?_⟩
    · rw [if_neg (hneg j)]
      unfold gpuAt
      rw [hmt.2.1]
    · rw [hmt.2.1, hlen]
    · intro j
      rw [show gpuAt (markTopCores false g.cpu_cores nd) j = gpuAt nd j by
        unfold gpuAt; rw [hmt.2.1]]
      exact hdev j
  | some gi =>
    dsimp only
    have hgi : gi < nd.gpus.length := by
      have hg2 : firstIdx? (fun x => x.device_id == g.device_id) nd.gpus = some gi := hg
      exact (firstIdx?_some_spec dummyGpu hg2).1
    have hmt := markTopCores_spec false g.cpu_cores (setGpuUsed nd gi false)
    have hguard : ∀ j : Nat, (∃ d ∈ [g.device_id], GetGPU base d = some j) ↔ gi = j := by
      intro j
      constructor
      · rintro ⟨d, hd, hgd⟩
        rw [List.mem_singleton.mp hd, ← hcongr, hg] at hgd
        exact (Option.some.injEq _ _).mp hgd
      · rintro rfl
        exact ⟨g.device_id, List.mem_singleton.mpr rfl, hcongr ▸ hg⟩
    have hpt : ∀ j, gpuAt (markTopCores false g.cpu_cores (setGpuUsed nd gi false)) j =
        gpuAt (setGpuUsed nd gi false) j := by
      intro j
      unfold gpuAt
      rw [hmt.2.1]
    have hslen : (setGpuUsed nd gi false).gpus.length = nd.gpus.length := by
      simp [setGpuUsed]
    refine ⟨coreMarkB_base_congr rfl hmt.1, ⟨?_, fun j => ?_⟩, hmt.2.2.1, hmt.2.2.2, ?_, ?_⟩
    · rw [show (markTopCores false g.cpu_cores (setGpuUsed nd gi false)).gpus.length =
        (setGpuUsed nd gi false).gpus.length by rw [hmt.2.1], hslen]
    · rw [hpt j, gpuAt_setGpuUsed]
      by_cases hj : gi = j
      · subst hj
        rw [if_pos ⟨rfl, hgi⟩, if_pos ((hguard gi).mpr rfl)]
      · rw [if_neg (fun hc => hj hc.1), if_neg (fun hc => hj ((hguard j).mp hc))]
    · rw [show (markTopCores false g.cpu_cores (setGpuUsed nd gi false)).gpus.length =
        (setGpuUsed nd gi false).gpus.length by rw [hmt.2.1], hslen, hlen]
    · intro j
      rw [hpt j, gpuAt_setGpuUsed]
      by_cases hj : gi = j ∧ gi < nd.gpus.length
      · rw [if_pos hj, ← hj.1]
        exact hdev gi
      · rw [if_neg hj]
        exact hdev j

theorem foldl_markTopGpu_spec (base : Node) :
    ∀ (gs : List TopGpu) (nd : Node),
      nd.gpus.length = base.gpus.length →
      (∀ j, (gpuAt nd j).device_id = (gpuAt base j).device_id) →
      CoreMarkB false ((gs.map (fun g => g.cpu_cores.map (fun c => c.core))).flatten) nd
        (gs.foldl (markTopGpu false) nd) ∧
      GpuRelease (gs.map (fun g => g.device_id)) base nd
        (gs.foldl (markTopGpu false) nd) ∧
      (gs.foldl (markTopGpu false) nd).mem = nd.mem ∧
      (gs.foldl (markTopGpu false) nd).pods_scheduled = nd.pods_scheduled ∧
      (gs.foldl (markTopGpu false) nd).gpus.length = base.gpus.length ∧
      (∀ j, (gpuAt (gs.foldl (markTopGpu false) nd) j).device_id =
        (gpuAt base j).device_id)
  | [], nd => fun hlen hdev =>
    ⟨coreMarkB_nil false nd, gpuRelease_nil base nd, rfl, rfl, hlen, hdev⟩
  | g :: gs, nd => fun hlen hdev => by
    have hstep := markTopGpu_spec base nd g hlen hdev
    have ih := foldl_markTopGpu_spec base gs (markTopGpu false nd g)
      hstep.2.2.2.2.1 hstep.2.2.2.2.2
    rw [List.foldl_cons] at *
    refine ⟨?_, ?_, ih.2.2.1.trans hstep.2.2.1, ih.2.2.2.1.trans hstep.2.2.2.1,
      ih.2.2.2.2.1, ih.2.2.2.2.2⟩
    · rw [List.map_cons, List.flatten_cons]
      exact coreMarkB_trans hstep.1 ih.1
    · rw [List.map_cons]
      exact gpuRelease_trans hstep.2.1 ih.2.1

theorem markProcGroup_spec (base : Node) (nd : Node) (pg : ProcGroup)
    (hlen : nd.gpus.length = base.gpus.length)
    (hdev : ∀ j, (gpuAt nd j).device_id = (gpuAt base j).device_id) :
    CoreMarkB false (groupCoreIds pg) nd (markProcGroup false nd pg) ∧
    GpuRelease (pg.group_gpus.map (fun g => g.device_id)) base nd
      (markProcGroup false nd pg) ∧
    (markProcGroup false nd pg).mem = nd.mem ∧
    (markProcGroup false nd pg).pods_scheduled = nd.pods_scheduled ∧
    (markProcGroup false nd pg).gpus.length = base.gpus.length ∧
    (∀ j, (gpuAt (markProcGroup false nd pg) j).device_id =
      (gpuAt base j).device_id) := by
  unfold markProcGroup
  have h1 := markTopCores_spec false pg.misc_cores nd
  have h2 := markTopCores_spec false pg.proc_cores (markTopCores false pg.misc_cores nd)
  have hg2 : (markTopCores false pg.proc_cores
      (markTopCores false pg.misc_cores nd)).gpus = nd.gpus := by
    rw [h2.2.1, h1.2.1]
  have hlen2 : (markTopCores false pg.proc_cores
      (markTopCores false pg.misc_cores nd)).gpus.length = base.gpus.length := by
    rw [hg2, hlen]
  have hdev2 : ∀ j, (gpuAt (markTopCores false pg.proc_cores
      (markTopCores false pg.misc_cores nd)) j).device_id = (gpuAt base j).device_id := by
    intro j
    rw [show gpuAt (markTopCores false pg.proc_cores
      (markTopCores false pg.misc_cores nd)) j = gpuAt nd j by unfold gpuAt; rw [hg2]]
    exact hdev j
  have h3 := foldl_markTopGpu_spec base pg.group_gpus
    (markTopCores false pg.proc_cores (markTopCores false pg.misc_cores nd)) hlen2 hdev2
  refine ⟨?_, ?_, (h3.2.2.1.trans h2.2.2.1).trans h1.2.2.1,
    (h3.2.2.2.1.trans h2.2.2.2).trans h1.2.2.2, h3.2.2.2.2.1, h3.2.2.2.2.2⟩
  · exact coreMarkB_trans (coreMarkB_trans h1.1 h2.1) h3.1
  · exact gpuRelease_left_congr h1.2.1 (gpuRelease_left_congr h2.2.1 h3.2.1)

theorem foldl_markProcGroup_spec (base : Node) :
    ∀ (pgs : List ProcGroup) (nd : Node),
      nd.gpus.length = base.gpus.length →
      (∀ j, (gpuAt nd j).device_id = (gpuAt base j).device_id) →
      CoreMarkB false ((pgs.map groupCoreIds).flatten) nd
        (pgs.foldl (markProcGroup false) nd) ∧
      GpuRelease ((pgs.map (fun pg2 => pg2.group_gpus.map (fun g => g.device_id))).flatten)
        base nd (pgs.foldl (markProcGroup false) nd) ∧
      (pgs.foldl (markProcGroup false) nd).mem = nd.mem ∧
      (pgs.foldl (markProcGroup false) nd).pods_scheduled = nd.pods_scheduled ∧
      (pgs.foldl (markProcGroup false) nd).gpus.length = base.gpus.length ∧
      (∀ j, (gpuAt (pgs.foldl (markProcGroup false) nd) j).device_id =
        (gpuAt base j).device_id)
  | [], nd => fun hlen hdev =>
    ⟨coreMarkB_nil false nd, gpuRelease_nil base nd, rfl, rfl, hlen, hdev⟩
  | pg :: pgs, nd => fun hlen hdev => by
    have hstep := markProcGroup_spec base nd pg hlen hdev
    have ih := foldl_markProcGroup_spec base pgs (markProcGroup false nd pg)
      hstep.2.2.2.2.1 hstep.2.2.2.2.2
    rw [List.foldl_cons] at *
    refine ⟨?_, ?_, ih.2.2.1.trans hstep.2.2.1, ih.2.2.2.1.trans hstep.2.2.2.1,
      ih.2.2.2.2.1, ih.2.2.2.2.2⟩
    · rw [List.map_cons, List.flatten_cons]
      exact coreMarkB_trans hstep.1 ih.1
    · rw [List.map_cons, List.flatten_cons]
      exact gpuRelease_trans hstep.2.1 ih.2.1

theorem addResources_spec (top : CfgTopology) (nd : Node) :
    CoreMarkB false (topCoreIds top) nd (AddResourcesFromTopology top nd) ∧
    GpuRelease (topGpuDevIds top) nd nd (AddResourcesFromTopology top nd) ∧
    (AddResourcesFromTopology top nd).pods_scheduled = nd.pods_scheduled ∧
    (AddResourcesFromTopology top nd).mem =
      (if top.hugepages_gb > 0 then
        { nd.mem with free_hugepages_gb := nd.mem.free_hugepages_gb + top.hugepages_gb }
      else nd.mem) ∧
    (AddResourcesFromTopology top nd).nics.length = nd.nics.length ∧
    (∀ k, k < nd.nics.length →
      nicAt (AddResourcesFromTopology top nd) k =
        { nicAt nd k with
          rx_used := (nicAt nd k).rx_used - rxDebit nd top.nic_core_pairing k,
          tx_used := (nicAt nd k).tx_used - txDebit nd top.nic_core_pairing k,
          pods_used := (nicAt nd k).pods_used - podDebit nd top.nic_core_pairing k }) := by
  have hfold := foldl_markProcGroup_spec nd top.proc_groups nd rfl (fun j => rfl)
  have hmt := markTopCores_spec false top.misc_cores
    (top.proc_groups.foldl (markProcGroup false) nd)
  have hrel := releaseNicPairs_fold_spec top.nic_core_pairing
    (markTopCores false top.misc_cores (top.proc_groups.foldl (markProcGroup false) nd))
  have hpre : (markTopCores false top.misc_cores
      (top.proc_groups.foldl (markProcGroup false) nd)).nics = nd.nics ∧
      (markTopCores false top.misc_cores
        (top.proc_groups.foldl (markProcGroup false) nd)).sriov_en = nd.sriov_en := by
    have ha := foldl_markProcGroup_nics false top.proc_groups nd
    have hb := markTopCores_nics false top.misc_cores
      (top.proc_groups.foldl (markProcGroup false) nd)
    exact ⟨hb.1.trans ha.1, hb.2.trans ha.2⟩
  have hfc : (AddResourcesFromTopology top nd).cores =
      (top.nic_core_pairing.foldl releaseNicPair
        (markTopCores false top.misc_cores
          (top.proc_groups.foldl (markProcGroup false) nd))).cores := by
    unfold AddResourcesFromTopology
    dsimp only
    split
    · rfl
    · rfl
  have hfg : (AddResourcesFromTopology top nd).gpus =
      (top.nic_core_pairing.foldl releaseNicPair
        (markTopCores false top.misc_cores
          (top.proc_groups.foldl (markProcGroup false) nd))).gpus := by
    unfold AddResourcesFromTopology
    dsimp only
    split
    · rfl
    · rfl
  have hfp : (AddResourcesFromTopology top nd).pods_scheduled =
      (top.nic_core_pairing.foldl releaseNicPair
        (markTopCores false top.misc_cores
          (top.proc_groups.foldl (markProcGroup false) nd))).pods_scheduled := by
    unfold AddResourcesFromTopology
    dsimp only
    split
    · rfl
    · rfl
  have hfn : (AddResourcesFromTopology top nd).nics =
      (top.nic_core_pairing.foldl releaseNicPair
        (markTopCores false top.misc_cores
          (top.proc_groups.foldl (markProcGroup false) nd))).nics := by
    unfold AddResourcesFromTopology
    dsimp only
    split
    · rfl
    · rfl
  refine ⟨?_, ?_, ?_, ?_, ?_, ?_⟩
  · refine coreMarkB_target_congr (hfc.trans hrel.2.2.1) ?_
    unfold topCoreIds
    exact coreMarkB_trans hfold.1 hmt.1
  · refine gpuRelease_target_congr (hfg.trans hrel.2.2.2.1) ?_
    unfold topGpuDevIds
    exact gpuRelease_target_congr hmt.2.1 hfold.2.1
  · rw [hfp, hrel.2.2.2.2.2.1, hmt.2.2.2, hfold.2.2.2.1]
  · have hm1 : (top.nic_core_pairing.foldl releaseNicPair
        (markTopCores false top.misc_cores
          (top.proc_groups.foldl (markProcGroup false) nd))).mem = nd.mem := by
      rw [hrel.2.2.2.2.1, hmt.2.2.1, hfold.2.2.1]
    unfold AddResourcesFromTopology
    dsimp only
    split
    · rw [hm1]
    · rw [hm1]
  · rw [hfn, hrel.2.1, hpre.1]
  · intro k hk
    have hval := hrel.2.2.2.2.2.2 k (by rw [hpre.1]; exact hk)
    have hdeb := debits_congr nd
      (markTopCores false top.misc_cores (top.proc_groups.foldl (markProcGroup false) nd))
      hpre.2 (by rw [hpre.1])
      (fun j hj => by rw [nicAt, nicAt, hpre.1]; exact ⟨rfl, rfl⟩) top.nic_core_pairing k
    have hbase : nicAt (markTopCores false top.misc_cores
        (top.proc_groups.foldl (markProcGroup false) nd)) k = nicAt nd k := by
      rw [nicAt, nicAt, hpre.1]
    rw [show nicAt (AddResourcesFromTopology top nd) k =
        nicAt (top.nic_core_pairing.foldl releaseNicPair
          (markTopCores false top.misc_cores
            (top.proc_groups.foldl (markProcGroup false) nd))) k by
      rw [nicAt, nicAt, hfn]]
    rw [hval, hdeb.1, hdeb.2.1, hdeb.2.2, hbase]

theorem rollback_flag (st : PState) (us : List UsedNic) :
    (rollback st).1 ≠ PResult.ok us := by
  unfold rollback
  rcases h : rollbackGpus st.used_gpus
      (st.used_cpus.foldl (fun n c => setCoreUsed n c false) st.node)
    with ⟨nd2, crashed⟩
  dsimp only
  split
  · exact fun hc => PResult.noConfusion hc
  · split
    · exact fun hc => PResult.noConfusion hc
    · exact fun hc => PResult.noConfusion hc

/-- C2: the round trip is not bit-for-bit.  On `c2Node`, placement of `c2Top`
succeeds (returning two NIC reservations), and the subsequent release restores
cores, GPUs, hugepages and both bandwidth counters — but `pods_used` on the
NIC ends at `-1`, because the release decrements it once per pairing while the
placement engine never incremented it (that is ClaimPodNICResources' job). -/
theorem C2_counterexample :
    (SetPhysicalIdsFromMapping c2Map c2Top c2Node).1 =
      PResult.ok [(0, 1, NICCoreDirection.dirRx), (0, 1, NICCoreDirection.dirTx)] ∧
    (nicAt (AddResourcesFromTopology (SetPhysicalIdsFromMapping c2Map c2Top c2Node).2.2
        (SetPhysicalIdsFromMapping c2Map c2Top c2Node).2.1) 0).pods_used = -1 ∧
    (nicAt c2Node 0).pods_used = 0 ∧
    AddResourcesFromTopology (SetPhysicalIdsFromMapping c2Map c2Top c2Node).2.2
        (SetPhysicalIdsFromMapping c2Map c2Top c2Node).2.1 ≠ c2Node := by decide

theorem core_unmark (x : NodeCore) (h : x.used = false) :
    ({ ({ x with used := true } : NodeCore) with used := false } : NodeCore) = x := by
  cases x
  exact congrArg (NodeCore.mk _ _ _) h.symm

theorem gpu_unmark (x : NodeGpu) (h : x.used = false) :
    ({ ({ x with used := true } : NodeGpu) with used := false } : NodeGpu) = x := by
  cases x
  exact congrArg (NodeGpu.mk _ _) h.symm

/-- C2 (corrected).  After a *successful* SetPhysicalIdsFromMapping, releasing
the bound topology with AddResourcesFromTopology restores the core inventory,
the GPU inventory, the hugepage pool and the scheduled-pod set exactly, and
returns each NIC's bandwidth counters to
`initial + reserved - debited` (so they are restored exactly when the bound
pairing's per-NIC debit equals the recorded reservation, as on the witness) —
but it is not a bit-for-bit inverse: each NIC's `pods_used` ends at
`initial - (number of pairings resolving to it)`, strictly below its initial
value whenever the topology carries a NIC pairing, because placement never
increments `pods_used` (`C2_counterexample`). -/
theorem C2_theorem (m : Mapping) (top : CfgTopology) (nd : Node) (us : List UsedNic)
    (nd' : Node) (top' : CfgTopology) (hwf : CoresWF nd) (hgid : GpuIdsNodup nd)
    (hok : SetPhysicalIdsFromMapping m top nd = (PResult.ok us, nd', top')) :
    (AddResourcesFromTopology top' nd').cores = nd.cores ∧
    (AddResourcesFromTopology top' nd').gpus = nd.gpus ∧
    (AddResourcesFromTopology top' nd').mem = nd.mem ∧
    (AddResourcesFromTopology top' nd').pods_scheduled = nd.pods_scheduled ∧
    (AddResourcesFromTopology top' nd').nics.length = nd.nics.length ∧
    (∀ k, k < nd.nics.length →
      nicAt (AddResourcesFromTopology top' nd') k =
        { nicAt nd k with
          rx_used := (nicAt nd k).rx_used + usedNicsDirSum us k NICCoreDirection.dirRx
            - rxDebit nd top'.nic_core_pairing k,
          tx_used := (nicAt nd k).tx_used + usedNicsDirSum us k NICCoreDirection.dirTx
            - txDebit nd top'.nic_core_pairing k,
          pods_used := (nicAt nd k).pods_used - podDebit nd top'.nic_core_pairing k }) := by
  unfold SetPhysicalIdsFromMapping at hok
  dsimp only at hok
  rcases hr : processGroups nd.data_vlan m nd.sriov_en 0 top.proc_groups
      ⟨nd, top.nic_core_pairing, [], [], []⟩ with ⟨f, pgs', stf⟩
  rw [hr] at hok
  dsimp only at hok
  cases f with
  | exc => exact absurd (congrArg Prod.fst hok) (rollback_flag stf us)
  | ret => exact PResult.noConfusion (congrArg Prod.fst hok)
  | ok =>
    cases hml : m.cpu.getLast? with
    | none =>
      rw [hml] at hok
      dsimp only at hok
      exact absurd (congrArg Prod.fst hok) (rollback_flag _ us)
    | some mnuma =>
      rw [hml] at hok
      dsimp only at hok
      set nd1 := (if top.hugepages_gb > 0 then
        { stf.node with mem := { stf.node.mem with
            free_hugepages_gb := stf.node.mem.free_hugepages_gb - top.hugepages_gb } }
      else stf.node) with hnd1
      have hc1 : nd1.cores = stf.node.cores := by
        rw [hnd1]
        split <;> rfl
      have hc2 : nd1.gpus = stf.node.gpus := by
        rw [hnd1]
        split <;> rfl
      have hc3 : nd1.nics = stf.node.nics := by
        rw [hnd1]
        split <;> rfl
      have hc4 : nd1.pods_scheduled = stf.node.pods_scheduled := by
        rw [hnd1]
        split <;> rfl
      have hc5 : nd1.sriov_en = stf.node.sriov_en := by
        rw [hnd1]
        split <;> rfl
      have hc6 : nd1.mem = (if top.hugepages_gb > 0 then
          { stf.node.mem with
            free_hugepages_gb := stf.node.mem.free_hugepages_gb - top.hugepages_gb }
        else stf.node.mem) := by
        rw [hnd1]
        split <;> rfl
      by_cases hml2 : top.misc_cores.length ≠
          (GetFreeCpuBatch nd1 mnuma top.misc_cores.length top.misc_cores_smt).length
      · rw [if_pos hml2] at hok
        exact PResult.noConfusion (congrArg Prod.fst hok)
      rw [if_neg hml2] at hok
      push_neg at hml2
      rcases hr3 : assignTopCores
          (GetFreeCpuBatch nd1 mnuma top.misc_cores.length top.misc_cores_smt)
          top.misc_cores 0 nd1 with ⟨mcs3, cidx3, ndC⟩
      rw [hr3] at hok
      dsimp only at hok
      by_cases hcc : cidx3 ≠
          (GetFreeCpuBatch nd1 mnuma top.misc_cores.length top.misc_cores_smt).length
      · rw [if_pos hcc] at hok
        exact PResult.noConfusion (congrArg Prod.fst hok)
      rw [if_neg hcc] at hok
      have hus : us = stf.used_nics :=
        ((PResult.ok.injEq _ _).mp (congrArg Prod.fst hok)).symm
      have hnd2 : ndC = nd' := congrArg (fun x => x.2.1) hok
      have htop2 : ({ proc_groups := pgs'
                      misc_cores := mcs3
                      misc_cores_smt := top.misc_cores_smt
                      hugepages_gb := top.hugepages_gb
                      ctrl_vlan := ndC.data_vlan
                      nic_core_pairing := stf.pairs
                      data_gw := stf.node.gwip } : CfgTopology) = top' :=
        congrArg (fun x => x.2.2) hok
      subst hnd2
      subst htop2
      subst hus
      have hfok : (processGroups nd.data_vlan m nd.sriov_en 0 top.proc_groups
          ⟨nd, top.nic_core_pairing, [], [], []⟩).1 = PFlag.ok := by rw [hr]
      have hg := processGroups_spec nd.data_vlan m nd.sriov_en 0 top.proc_groups
        ⟨nd, top.nic_core_pairing, [], [], []⟩ hwf hfok
      rw [hr] at hg
      dsimp only at hg
      obtain ⟨hGall, hfreshC, ⟨G, hGnd, hGfr, hGmk, hGdev⟩,
        ⟨du, hdud, hduun, hdun⟩, hmemF, hpodF, hsrF⟩ := hg
      have husdu : stf.used_nics = du := by simpa using hduun
      have hwfS : CoresWF stf.node := coresWF_of_coreMarkB hGall hwf
      have hwf1 : CoresWF nd1 := by
        unfold CoresWF coreAt at hwfS ⊢
        rw [hc1]
        exact hwfS
      have hts := assignTopCores_spec
        (GetFreeCpuBatch nd1 mnuma top.misc_cores.length top.misc_cores_smt)
        top.misc_cores 0 nd1
      rw [hr3] at hts
      dsimp only at hts
      rw [zero_add] at hts
      have hlen1 : nd1.cores.length = nd.cores.length := by
        rw [hc1]
        exact hGall.1
      have hmark2 : CoreMarkB true
          (coreSeg (GetFreeCpuBatch nd1 mnuma top.misc_cores.length top.misc_cores_smt)
            0 top.misc_cores.length) stf.node ndC :=
        coreMarkB_base_congr hc1 hts.2.2.1
      have hmarkAll := coreMarkB_trans hGall hmark2
      have hsegf : ∀ j ∈ coreSeg
          (GetFreeCpuBatch nd1 mnuma top.misc_cores.length top.misc_cores_smt)
          0 top.misc_cores.length,
          j < nd.cores.length ∧ (coreAt nd j).used = false := by
        intro j hj
        have hjb := coreSeg_subset _ 0 _ (by omega) j hj
        have hmb := getFreeCpuBatchAux_mem nd1 mnuma top.misc_cores_smt hwf1 nd1.cores
          (fun _ h => h) _ j hjb
        refine ⟨by rw [← hlen1]; exact hmb.1, ?_⟩
        have huS : (coreAt stf.node j).used = false := by
          rw [show coreAt stf.node j = coreAt nd1 j from by unfold coreAt; rw [hc1]]
          exact hmb.2.2.1
        exact coreMarkB_fresh_back hGall j huS rfl
      have hfreshAll : ∀ j ∈ (pgs'.map groupCoreIds).flatten ++ coreSeg
          (GetFreeCpuBatch nd1 mnuma top.misc_cores.length top.misc_cores_smt)
          0 top.misc_cores.length,
          j < nd.cores.length ∧ (coreAt nd j).used = false := by
        intro j hj
        rcases List.mem_append.mp hj with h' | h'
        exacts [hfreshC j h', hsegf j h']
      have hadd := addResources_spec
        { proc_groups := pgs'
          misc_cores := mcs3
          misc_cores_smt := top.misc_cores_smt
          hugepages_gb := top.hugepages_gb
          ctrl_vlan := ndC.data_vlan
          nic_core_pairing := stf.pairs
          data_gw := stf.node.gwip } ndC
      have hS1 : topCoreIds
          { proc_groups := pgs'
            misc_cores := mcs3
            misc_cores_smt := top.misc_cores_smt
            hugepages_gb := top.hugepages_gb
            ctrl_vlan := ndC.data_vlan
            nic_core_pairing := stf.pairs
            data_gw := stf.node.gwip } =
          (pgs'.map groupCoreIds).flatten ++ coreSeg
            (GetFreeCpuBatch nd1 mnuma top.misc_cores.length top.misc_cores_smt)
            0 top.misc_cores.length := by
        unfold topCoreIds
        dsimp only
        rw [hts.2.1]
      have hD1 : topGpuDevIds
          { proc_groups := pgs'
            misc_cores := mcs3
            misc_cores_smt := top.misc_cores_smt
            hugepages_gb := top.hugepages_gb
            ctrl_vlan := ndC.data_vlan
            nic_core_pairing := stf.pairs
            data_gw := stf.node.gwip } =
          G.map (fun i => (gpuAt nd i).device_id) := by
        unfold topGpuDevIds
        dsimp only
        exact hGdev
      rw [hS1, hD1] at hadd
      have hglenC : ndC.gpus.length = nd.gpus.length := by
        rw [hts.2.2.2.1, hc2]
        exact hGmk.1
      have hCg : ndC.gpus = stf.node.gpus := by rw [hts.2.2.2.1, hc2]
      have hgdevC : ∀ j, (gpuAt ndC j).device_id = (gpuAt nd j).device_id := by
        intro j
        rw [show gpuAt ndC j = gpuAt stf.node j from by unfold gpuAt; rw [hCg]]
        exact (gpuMark_fields hGmk j).1
      have hgc : ∀ d, GetGPU ndC d = GetGPU nd d :=
        fun d => getGPU_congr nd ndC d hglenC hgdevC
      have hGlt : ∀ i ∈ G, i < nd.gpus.length := fun i hi => (hGfr i hi).1
      have hguardG : ∀ j, (∃ d ∈ G.map (fun i => (gpuAt nd i).device_id),
          GetGPU ndC d = some j) ↔ j ∈ G := by
        intro j
        constructor
        · rintro ⟨d, hd, hgd⟩
          obtain ⟨i0, hi0, rfl⟩ := List.mem_map.mp hd
          rw [hgc, getGPU_self_of_nodup nd hgid i0 (hGlt i0 hi0)] at hgd
          exact ((Option.some.injEq _ _).mp hgd) ▸ hi0
        · intro hj
          exact ⟨(gpuAt nd j).device_id, List.mem_map_of_mem _ hj,
            by rw [hgc]; exact getGPU_self_of_nodup nd hgid j (hGlt j hj)⟩
      have hnicsC : ndC.nics = applyUsedNics nd.nics du := by
        rw [hts.2.2.2.2.1, hc3, hdun]
      have hsrC : ndC.sriov_en = nd.sriov_en := by
        rw [hts.2.2.2.2.2.2.2, hc5, hsrF]
      have hnlenC : ndC.nics.length = nd.nics.length := by
        rw [hnicsC, applyUsedNics_length]
      refine ⟨?_, ?_, ?_, ?_, ?_, ?_⟩
      · refine list_eq_of_getD_eq dummyCore ?_ ?_
        · rw [hadd.1.1, hmarkAll.1]
        · intro j hjlt
          change coreAt _ j = coreAt _ j
          rw [hadd.1.2 j, hmarkAll.2 j]
          by_cases hjS : j ∈ (pgs'.map groupCoreIds).flatten ++ coreSeg
              (GetFreeCpuBatch nd1 mnuma top.misc_cores.length top.misc_cores_smt)
              0 top.misc_cores.length
          · rw [if_pos ⟨hjS, by rw [hmarkAll.1]; exact hjlt⟩, if_pos ⟨hjS, hjlt⟩]
            exact core_unmark _ (hfreshAll j hjS).2
          · rw [if_neg (fun hc => hjS hc.1), if_neg (fun hc => hjS hc.1)]
      · refine list_eq_of_getD_eq dummyGpu ?_ ?_
        · rw [hadd.2.1.1, hglenC]
        · intro j hjlt
          change gpuAt _ j = gpuAt _ j
          rw [hadd.2.1.2 j]
          rw [show gpuAt ndC j = gpuAt stf.node j from by unfold gpuAt; rw [hCg],
            hGmk.2 j]
          by_cases hjG : j ∈ G
          · rw [if_pos ((hguardG j).mpr hjG), if_pos ⟨hjG, hGlt j hjG⟩]
            exact gpu_unmark _ (hGfr j hjG).2
          · rw [if_neg (fun hc => hjG ((hguardG j).mp hc)),
              if_neg (fun hc => hjG hc.1)]
      · rw [hadd.2.2.2.1]
        have hCm : ndC.mem = (if top.hugepages_gb > 0 then
            { stf.node.mem with
              free_hugepages_gb := stf.node.mem.free_hugepages_gb - top.hugepages_gb }
          else stf.node.mem) := by
          rw [hts.2.2.2.2.2.1, hc6]
        by_cases hhp : top.hugepages_gb > 0
        · rw [if_pos hhp, hCm, if_pos hhp, hmemF]
          dsimp only
          rw [sub_add_cancel]
        · rw [if_neg hhp, hCm, if_neg hhp, hmemF]
      · rw [hadd.2.2.1, hts.2.2.2.2.2.2.1, hc4, hpodF]
      · rw [hadd.2.2.2.2.1, hnlenC]
      · intro k hk
        have hkC : k < ndC.nics.length := by
          rw [hnlenC]
          exact hk
        have hv := hadd.2.2.2.2.2 k hkC
        dsimp only at hv ⊢
        rw [husdu]
        have hmacs : ∀ j, j < ndC.nics.length →
            (nicAt ndC j).mac = (nicAt nd j).mac ∧
            (nicAt ndC j).ifname = (nicAt nd j).ifname := by
          intro j hj
          unfold nicAt
          rw [hnicsC]
          exact ⟨(applyUsedNics_shape du nd.nics j).1, (applyUsedNics_shape du nd.nics j).2⟩
        have hdebs := debits_congr nd ndC hsrC hnlenC hmacs stf.pairs k
        have hnic : nicAt ndC k = { nicAt nd k with
            rx_used := (nicAt nd k).rx_used + usedNicsDirSum du k NICCoreDirection.dirRx,
            tx_used := (nicAt nd k).tx_used + usedNicsDirSum du k NICCoreDirection.dirTx } := by
          unfold nicAt
          rw [hnicsC]
          exact applyUsedNics_getD du nd.nics k hk hdud
        rw [hv, hdebs.1, hdebs.2.1, hdebs.2.2, hnic]

theorem C2_theorem_witness :
    CoresWF c2Node ∧ GpuIdsNodup c2Node ∧
    SetPhysicalIdsFromMapping c2Map c2Top c2Node =
      (PResult.ok [(0, 1, NICCoreDirection.dirRx), (0, 1, NICCoreDirection.dirTx)],
       (SetPhysicalIdsFromMapping c2Map c2Top c2Node).2.1,
       (SetPhysicalIdsFromMapping c2Map c2Top c2Node).2.2) ∧
    ((AddResourcesFromTopology (SetPhysicalIdsFromMapping c2Map c2Top c2Node).2.2
        (SetPhysicalIdsFromMapping c2Map c2Top c2Node).2.1).cores = c2Node.cores ∧
     (AddResourcesFromTopology (SetPhysicalIdsFromMapping c2Map c2Top c2Node).2.2
        (SetPhysicalIdsFromMapping c2Map c2Top c2Node).2.1).gpus = c2Node.gpus ∧
     (AddResourcesFromTopology (SetPhysicalIdsFromMapping c2Map c2Top c2Node).2.2
        (SetPhysicalIdsFromMapping c2Map c2Top c2Node).2.1).mem = c2Node.mem ∧
     (AddResourcesFromTopology (SetPhysicalIdsFromMapping c2Map c2Top c2Node).2.2
        (SetPhysicalIdsFromMapping c2Map c2Top c2Node).2.1).pods_scheduled =
       c2Node.pods_scheduled ∧
     (AddResourcesFromTopology (SetPhysicalIdsFromMapping c2Map c2Top c2Node).2.2
        (SetPhysicalIdsFromMapping c2Map c2Top c2Node).2.1).nics.length =
       c2Node.nics.length ∧
     (∀ k, k < c2Node.nics.length →
       nicAt (AddResourcesFromTopology (SetPhysicalIdsFromMapping c2Map c2Top c2Node).2.2
          (SetPhysicalIdsFromMapping c2Map c2Top c2Node).2.1) k =
         { nicAt c2Node k with
           rx_used := (nicAt c2Node k).rx_used +
             usedNicsDirSum [(0, 1, NICCoreDirection.dirRx), (0, 1, NICCoreDirection.dirTx)]
               k NICCoreDirection.dirRx
             - rxDebit c2Node
                 (SetPhysicalIdsFromMapping c2Map c2Top c2Node).2.2.nic_core_pairing k,
           tx_used := (nicAt c2Node k).tx_used +
             usedNicsDirSum [(0, 1, NICCoreDirection.dirRx), (0, 1, NICCoreDirection.dirTx)]
               k NICCoreDirection.dirTx
             - txDebit c2Node
                 (SetPhysicalIdsFromMapping c2Map c2Top c2Node).2.2.nic_core_pairing k,
           pods_used := (nicAt c2Node k).pods_used -
             podDebit c2Node
               (SetPhysicalIdsFromMapping c2Map c2Top c2Node).2.2.nic_core_pairing k })) :=
  ⟨by rw [CoresWF]; decide, by unfold GpuIdsNodup; decide, by decide,
   C2_theorem c2Map c2Top c2Node
     [(0, 1, NICCoreDirection.dirRx), (0, 1, NICCoreDirection.dirTx)]
     (SetPhysicalIdsFromMapping c2Map c2Top c2Node).2.1
     (SetPhysicalIdsFromMapping c2Map c2Top c2Node).2.2
     (by rw [CoresWF]; decide) (by unfold GpuIdsNodup; decide) (by decide)⟩
